import Mathlib

/-!
# Draw-data translation layer of `renderer/render.go`

A shallow embedding of the Go package `renderer`: the vertex and index
decoders, the UV rescaler, the texture realisation and the `Render`
orchestrator, followed by theorems about them.

Modelling conventions.

* An `unsafe.Pointer` is a `Pointer`: nil, or a pointer to a `Mem`, the byte
  found at each offset from the pointer.  The decoders read through a
  non-nil pointer without a bounds check, so a read past the announced
  length is a read of whatever byte `Mem` holds there.  Multi-byte reads are
  little-endian.  Going through a nil pointer (slicing the array it is cast
  to, or reading the element at offset 0) is a run-time panic, whatever the
  announced length.
* Go `int` lengths, sizes and counts are natural numbers (the callers pass C
  sizes and lengths); fixed-width results (`uint8`, `uint16`, `uint32`) are
  reduced modulo `2^w` where the source truncates.
* `float32` values are rational numbers and float arithmetic is exact.  The
  value of a bit pattern is given by a `FloatSem`.
* A Go `panic` (explicit, or a failed run-time check such as a slice bound or
  a division by zero) is the result `none`, or the flag `panicked` of a
  `RenderState`.
-/

set_option linter.unusedVariables false

namespace Renderer

/-! ## Raw memory -/

/-- Memory behind a non-nil `unsafe.Pointer`: the byte stored at each offset. -/
abbrev Mem := Nat → Nat

/-- The byte at offset `a`. -/
def readU8 (m : Mem) (a : Nat) : Nat := m a % 256

/-- The little-endian `uint16` at offset `a`. -/
def readU16 (m : Mem) (a : Nat) : Nat := readU8 m a + 2 ^ 8 * readU8 m (a + 1)

/-- The little-endian `uint32` at offset `a`. -/
def readU32 (m : Mem) (a : Nat) : Nat := readU16 m a + 2 ^ 16 * readU16 m (a + 2)

/-- The little-endian `uint64` at offset `a`. -/
def readU64 (m : Mem) (a : Nat) : Nat := readU32 m a + 2 ^ 32 * readU32 m (a + 4)

/-- A buffer given by its bytes; offsets past the end read as `0`. -/
def memOfBytes (bs : List Nat) : Mem := fun a => bs.getD a 0

/-- An `unsafe.Pointer`: the nil pointer, or a pointer to memory. -/
inductive Pointer where
  | nil
  | ref (m : Mem)

/-- The capacity `1 << 28` of the array types the source overlays on raw
pointers (`(*[1 << 28]T)(p)[:n:n]`); slicing beyond it panics, and so does
slicing at all when `p` is nil. -/
def arrayCap : Nat := 2 ^ 28

/-! ## Floating point -/

/-- Interpretation of IEEE bit patterns as numbers: the value of the `float32`
with the given 32 bits, and the value (converted to `float32`) of the
`float64` with the given 64 bits. -/
structure FloatSem where
  Float32frombits : Nat → ℚ
  Float64frombits : Nat → ℚ

/-- Value of a binary floating-point pattern with `ebits` exponent bits and
`mbits` mantissa bits (the all-ones exponent is read like any other). -/
def floatOfBits (ebits mbits w : Nat) : ℚ :=
  let sign := w / 2 ^ (ebits + mbits) % 2
  let e := w / 2 ^ mbits % 2 ^ ebits
  let m := w % 2 ^ mbits
  let bias := 2 ^ (ebits - 1) - 1
  let mag : ℚ :=
    if e = 0 then (m : ℚ) * 2 / 2 ^ (bias + mbits)
    else ((2 ^ mbits + m : Nat) : ℚ) * 2 ^ e / 2 ^ (bias + mbits)
  if sign = 1 then -mag else mag

/-- The IEEE 754 reading of `float32` and `float64` patterns. -/
def ieee : FloatSem where
  Float32frombits := floatOfBits 8 23
  Float64frombits := floatOfBits 11 52

/-! ## Vertex decoding -/

/-- Mirror of `ebiten.Vertex`. -/
structure Vertex where
  DstX : ℚ
  DstY : ℚ
  SrcX : ℚ
  SrcY : ℚ
  ColorR : ℚ
  ColorG : ℚ
  ColorB : ℚ
  ColorA : ℚ

/-- Mirror of `cVec2x32`. -/
structure cVec2x32 where
  X : ℚ
  Y : ℚ

/-- Mirror of `cImDrawVertx32`: 20 bytes, `Pos` at 0, `UV` at 8, `Col` at 16. -/
structure cImDrawVertx32 where
  Pos : cVec2x32
  UV : cVec2x32
  Col : Nat

/-- Mirror of `cVec2x64`. -/
structure cVec2x64 where
  X : ℚ
  Y : ℚ

/-- Mirror of `cImDrawVertx64`: 40 bytes on a 64-bit target, `Pos` at 0, `UV`
at 16, `Col` at 32. -/
structure cImDrawVertx64 where
  Pos : cVec2x64
  UV : cVec2x64
  Col : Nat

/-- Element `i` of `(*[1 << 28]cImDrawVertx32)(vbuf)`. -/
def rawvertsx32 (fs : FloatSem) (vbuf : Mem) (i : Nat) : cImDrawVertx32 where
  Pos := ⟨fs.Float32frombits (readU32 vbuf (i * 20)),
          fs.Float32frombits (readU32 vbuf (i * 20 + 4))⟩
  UV := ⟨fs.Float32frombits (readU32 vbuf (i * 20 + 8)),
         fs.Float32frombits (readU32 vbuf (i * 20 + 12))⟩
  Col := readU32 vbuf (i * 20 + 16)

/-- Element `i` of `(*[1 << 28]cImDrawVertx64)(vbuf)`. -/
def rawvertsx64 (fs : FloatSem) (vbuf : Mem) (i : Nat) : cImDrawVertx64 where
  Pos := ⟨fs.Float64frombits (readU64 vbuf (i * 40)),
          fs.Float64frombits (readU64 vbuf (i * 40 + 8))⟩
  UV := ⟨fs.Float64frombits (readU64 vbuf (i * 40 + 16)),
         fs.Float64frombits (readU64 vbuf (i * 40 + 24))⟩
  Col := readU32 vbuf (i * 40 + 32)

/-- Go `getVerticesx32`.  `n := vblen / vsize` panics for `vsize = 0`; the
slice `(*[1 << 28]cImDrawVertx32)(vbuf)[:n:n]` panics when `vbuf` is nil
(also for `n = 0`) and beyond the array capacity; `offpos`, `offuv` and
`offcol` are not used by the body. -/
def getVerticesx32 (fs : FloatSem) (vbuf : Pointer)
    (vblen vsize offpos offuv offcol : Nat) : Option (List Vertex) :=
  if vsize = 0 then none
  else
    let n := vblen / vsize
    match vbuf with
    | .nil => none
    | .ref m =>
      if arrayCap < n then none
      else
        some ((List.range n).map fun i =>
          { SrcX := (rawvertsx32 fs m i).UV.X
            SrcY := (rawvertsx32 fs m i).UV.Y
            DstX := (rawvertsx32 fs m i).Pos.X
            DstY := (rawvertsx32 fs m i).Pos.Y
            ColorR := (((rawvertsx32 fs m i).Col &&& 0xFF : Nat) : ℚ) / 255
            ColorG := ((((rawvertsx32 fs m i).Col >>> 8) &&& 0xFF : Nat) : ℚ) / 255
            ColorB := ((((rawvertsx32 fs m i).Col >>> 16) &&& 0xFF : Nat) : ℚ) / 255
            ColorA := ((((rawvertsx32 fs m i).Col >>> 24) &&& 0xFF : Nat) : ℚ) / 255 })

/-- Go `getVerticesx64`.  The slice
`(*[1 << 28]cImDrawVertx64)(vbuf)[:n:n]` panics when `vbuf` is nil (also for
`n = 0`) and beyond the array capacity; `uint8(c << k)` is the low byte of
the 32-bit shifted word. -/
def getVerticesx64 (fs : FloatSem) (vbuf : Pointer)
    (vblen vsize offpos offuv offcol : Nat) : Option (List Vertex) :=
  if vsize = 0 then none
  else
    let n := vblen / vsize
    match vbuf with
    | .nil => none
    | .ref m =>
      if arrayCap < n then none
      else
        some ((List.range n).map fun i =>
          { SrcX := (rawvertsx64 fs m i).UV.X
            SrcY := (rawvertsx64 fs m i).UV.Y
            DstX := (rawvertsx64 fs m i).Pos.X
            DstY := (rawvertsx64 fs m i).Pos.Y
            ColorR := (((rawvertsx64 fs m i).Col % 2 ^ 8 : Nat) : ℚ) / 255
            ColorG := (((((rawvertsx64 fs m i).Col <<< 8) % 2 ^ 32) % 2 ^ 8 : Nat) : ℚ) / 255
            ColorB := (((((rawvertsx64 fs m i).Col <<< 16) % 2 ^ 32) % 2 ^ 8 : Nat) : ℚ) / 255
            ColorA := (((((rawvertsx64 fs m i).Col <<< 24) % 2 ^ 32) % 2 ^ 8 : Nat) : ℚ) / 255 })

/-- Go `getVertices`; the package variable `szfloat` is the second argument. -/
def getVertices (fs : FloatSem) (szfloat : Nat) (vbuf : Pointer)
    (vblen vsize offpos offuv offcol : Nat) : Option (List Vertex) :=
  if szfloat = 4 then getVerticesx32 fs vbuf vblen vsize offpos offuv offcol
  else if szfloat = 8 then getVerticesx64 fs vbuf vblen vsize offpos offuv offcol
  else none

/-- Go `init`: the value of the package variable `szfloat` after
initialisation, given what `C.SzFloat()` returns.  The body is the single
assignment `szfloat = int(C.SzFloat())`; `none` would be a failed
initialisation. -/
def init (SzFloat : Nat) : Option Nat := some SzFloat

/-! ## Index decoding -/

/-- Go `getIndices`.  `n := iblen / isize` is computed before the `switch`
(a zero `isize` panics there).  Width 2 returns the slice
`(*[1 << 28]uint16)(ibuf)[:n:n]`, which panics when `ibuf` is nil (also for
`n = 0`) and beyond the array capacity.  Widths 4 and 8 allocate `n`
elements and copy each element narrowed by `uint16(...)`: with a nil `ibuf`
the loop body is not entered for `n = 0`, and its first read (offset 0)
panics otherwise. -/
def getIndices (ibuf : Pointer) (iblen isize : Nat) : Option (List Nat) :=
  if isize = 0 then none
  else
    let n := iblen / isize
    if isize = 2 then
      match ibuf with
      | .nil => none
      | .ref m =>
        if arrayCap < n then none
        else some ((List.range n).map fun i => readU16 m (i * 2))
    else if isize = 4 then
      match ibuf with
      | .nil => if n = 0 then some [] else none
      | .ref m => some ((List.range n).map fun i => readU32 m (i * isize) % 2 ^ 16)
    else if isize = 8 then
      match ibuf with
      | .nil => if n = 0 then some [] else none
      | .ref m => some ((List.range n).map fun i => readU64 m (i * isize) % 2 ^ 16)
    else none

/-! ## UV rescaling -/

/-- Mirror of `image.Point`. -/
structure Point where
  X : Int
  Y : Int

/-- Mirror of `image.Rectangle`. -/
structure Rectangle where
  Min : Point
  Max : Point

/-- Go `lerp`. -/
def lerp (a b : Int) (t : ℚ) : ℚ := (a : ℚ) * (1 - t) + (b : ℚ) * t

/-- Go `vcopy`: a fresh slice of the same length holding the same vertices. -/
def vcopy (v : List Vertex) : List Vertex := v

/-- Go `vmultiply`, returning the new contents of `vbuf`.  The loop ranges
over `vbuf` and indexes `v`, which panics when `v` is the shorter one. -/
def vmultiply (v vbuf : List Vertex) (bmin bmax : Point) : Option (List Vertex) :=
  if v.length < vbuf.length then none
  else
    some (List.zipWith
      (fun (b a : Vertex) =>
        { b with SrcX := lerp bmin.X bmax.X a.SrcX, SrcY := lerp bmin.Y bmax.Y a.SrcY })
      vbuf v)

/-! ### The same two functions on explicit slice storage

`vcopy` and `vmultiply` above work on the contents of the slices.  The
definitions below keep the backing arrays apart by address, so that what a
call leaves untouched can be stated; on distinct arrays they agree with the
ones above (`vmultiplyInPlace_eq`). -/

/-- The backing arrays of `[]ebiten.Vertex` slices, by address. -/
abbrev VertexStore := Nat → List Vertex

/-- Go `vcopy` on the store: `make` returns the array at the unused address
`fresh`, `copy` fills it with the vertices of `v`. -/
def vcopyInto (σ : VertexStore) (fresh v : Nat) : VertexStore :=
  fun a => if a = fresh then σ v else σ a

/-- An assignment to a field of element `i` of the array at `a`; out of range
it panics. -/
def storeUpdate (σ : VertexStore) (a i : Nat) (f : Vertex → Vertex) : Option VertexStore :=
  match (σ a)[i]? with
  | none => none
  | some b => some (fun k => if k = a then (σ a).set i (f b) else σ k)

/-- One iteration of the loop of Go `vmultiply` on the store (lines 113 and
114): each statement reads `v[i]` and writes one field of `vbuf[i]`. -/
def vmultiplyIter (bmin bmax : Point) (v vbuf : Nat) (σ : VertexStore) (i : Nat) :
    Option VertexStore :=
  match (σ v)[i]? with
  | none => none
  | some a =>
    match storeUpdate σ vbuf i (fun b => { b with SrcX := lerp bmin.X bmax.X a.SrcX }) with
    | none => none
    | some σ1 =>
      match (σ1 v)[i]? with
      | none => none
      | some a1 =>
        storeUpdate σ1 vbuf i (fun b => { b with SrcY := lerp bmin.Y bmax.Y a1.SrcY })

/-- Go `vmultiply` on the store: `for i := range vbuf`. -/
def vmultiplyInPlace (σ : VertexStore) (v vbuf : Nat) (bmin bmax : Point) :
    Option VertexStore :=
  (List.range (σ vbuf).length).foldlM (fun τ i => vmultiplyIter bmin bmax v vbuf τ i) σ

/-! ## Textures -/

/-- Mirror of `imgui.TextureID`. -/
abbrev TextureID := Nat

/-- Mirror of `imgui.RGBA32Image`. -/
structure RGBA32Image where
  Width : Nat
  Height : Nat
  Pixels : Pointer

/-- What this layer observes of an `ebiten.Image`: its bounds, the pixels it
was filled with and its filter. -/
structure Image where
  Bounds : Rectangle
  Pix : List Nat
  Filter : Nat

/-- Go `getTexture`: the `4 * Width * Height` bytes behind `tex.Pixels` are
sliced out of a `[1 << 28]uint8` overlay (a panic when `tex.Pixels` is nil
or the byte count exceeds the capacity) and loaded into a new image of
bounds `(0,0)-(Width,Height)`.  The backend calls `ebiten.NewImage` and
`ReplacePixels` are taken to succeed. -/
def getTexture (tex : RGBA32Image) (filter : Nat) : Option Image :=
  let n := tex.Width * tex.Height
  match tex.Pixels with
  | .nil => none
  | .ref m =>
    if arrayCap < n * 4 then none
    else
      some { Bounds := ⟨⟨0, 0⟩, ⟨(tex.Width : Int), (tex.Height : Int)⟩⟩
             Pix := (List.range (n * 4)).map (readU8 m)
             Filter := filter }

/-! ## Draw data -/

/-- Mirror of `imgui.DrawCommand`, by its accessors. -/
structure DrawCommand where
  ElementCount : Nat
  HasUserCallback : Bool
  TextureID : TextureID

/-- Mirror of `imgui.DrawCommandList`: each buffer is a pointer and a byte
length. -/
structure CommandList where
  VertexBuffer : Pointer × Nat
  IndexBuffer : Pointer × Nat
  Commands : List DrawCommand

/-- Mirror of `imgui.DrawData`. -/
structure DrawData where
  Valid : Bool
  CommandLists : List CommandList

/-- What `Render` reads besides its arguments: the float semantics, the
package variables `szfloat` and `Filter`, the layouts returned by
`imgui.VertexBufferLayout()` and `imgui.IndexBufferLayout()`, and the font
atlas returned by `imgui.CurrentIO().Fonts().TextureDataRGBA32()`. -/
structure Env where
  fs : FloatSem
  szfloat : Nat
  VertexBufferLayout : Nat × Nat × Nat × Nat
  IndexBufferLayout : Nat
  TextureDataRGBA32 : RGBA32Image
  Filter : Nat

/-! ## The orchestrator -/

/-- Observable steps of one `Render` call, in program order. -/
inductive Event where
  /-- Line 164: `getVertices` is called on the list. -/
  | decodeVertices (clist : CommandList)
  /-- Line 166: `getIndices` is called on the list. -/
  | decodeIndices (clist : CommandList)
  /-- Line 170: `cmd.CallUserCallback(clist)`.  The callback is foreign code;
  it has no access to `txcache`. -/
  | callback (clist : CommandList) (cmd : DrawCommand)
  /-- A read `txcache[texid]` (lines 173, 176 and 178). -/
  | lookup (texid : TextureID)
  /-- Line 174: the font atlas is fetched and `getTexture` called, for the
  missing key `texid`. -/
  | realize (texid : TextureID)
  /-- Line 174: the assignment `txcache[texid] = img`. -/
  | insert (texid : TextureID) (img : Image)
  /-- Line 178: `target.DrawTriangles(vbuf, indices[lo:hi], txcache[texid], _)`
  issued for the key `texid`. -/
  | draw (texid : TextureID) (vbuf : List Vertex) (indices : List Nat) (tex : Option Image)

/-- The texture cache, a non-nil `map[imgui.TextureID]*ebiten.Image`. -/
abbrev TxCache := TextureID → Option Image

/-- State threaded through `Render`: the cache, the steps taken so far and
whether a panic has stopped the call. -/
structure RenderState where
  txcache : TxCache
  events : List Event
  panicked : Bool

/-- Record a step. -/
def RenderState.emit (s : RenderState) (e : Event) : RenderState :=
  { s with events := s.events ++ [e] }

/-- Stop with a panic. -/
def RenderState.panic (s : RenderState) : RenderState :=
  { s with panicked := true }

/-- The assignment `txcache[texid] = img`. -/
def RenderState.store (s : RenderState) (texid : TextureID) (img : Image) : RenderState :=
  { s with txcache := fun k => if k = texid then some img else s.txcache k }

/-- Variables of the command loop: the shared state, the index cursor
`indexBufferOffset` and the working copy `vbuf`. -/
structure CmdLoop where
  st : RenderState
  indexBufferOffset : Nat
  vbuf : List Vertex

/-- Lines 173 to 175: realise and insert the texture when the key is
missing. -/
def resolveTexture (env : Env) (texid : TextureID) (s : RenderState) : RenderState :=
  match (s.emit (.lookup texid)).txcache texid with
  | some _ => s.emit (.lookup texid)
  | none =>
    match getTexture env.TextureDataRGBA32 env.Filter with
    | none => ((s.emit (.lookup texid)).emit (.realize texid)).panic
    | some img =>
      ((((s.emit (.lookup texid)).emit (.realize texid)).store texid img).emit (.insert texid img))

/-- Lines 176 to 178 for a resolved key: fetch the texture, rescale into
`vbuf`, slice the indices at the cursor and draw. -/
def drawCommand (vertices : List Vertex) (indices : List Nat) (texid : TextureID)
    (ecount : Nat) (l : CmdLoop) : CmdLoop :=
  match (l.st.emit (.lookup texid)).txcache texid with
  | none => { l with st := (l.st.emit (.lookup texid)).panic }
  | some tx =>
    match vmultiply vertices l.vbuf tx.Bounds.Min tx.Bounds.Max with
    | none => { l with st := (l.st.emit (.lookup texid)).panic }
    | some vbuf =>
      if l.indexBufferOffset + ecount ≤ indices.length then
        { l with
          vbuf := vbuf
          st := (((l.st.emit (.lookup texid)).emit (.lookup texid)).emit
            (.draw texid vbuf ((indices.drop l.indexBufferOffset).take ecount)
              (l.st.txcache texid))) }
      else { l with vbuf := vbuf, st := (l.st.emit (.lookup texid)).panic }

/-- One iteration of the command loop (lines 168 to 180). -/
def renderCommand (env : Env) (clist : CommandList) (vertices : List Vertex)
    (indices : List Nat) (cmd : DrawCommand) (l : CmdLoop) : CmdLoop :=
  if cmd.HasUserCallback then
    { l with
      st := l.st.emit (.callback clist cmd)
      indexBufferOffset := l.indexBufferOffset + cmd.ElementCount }
  else
    if (resolveTexture env cmd.TextureID l.st).panicked then
      { l with st := resolveTexture env cmd.TextureID l.st }
    else
      if (drawCommand vertices indices cmd.TextureID cmd.ElementCount
          { l with st := resolveTexture env cmd.TextureID l.st }).st.panicked then
        drawCommand vertices indices cmd.TextureID cmd.ElementCount
          { l with st := resolveTexture env cmd.TextureID l.st }
      else
        { drawCommand vertices indices cmd.TextureID cmd.ElementCount
            { l with st := resolveTexture env cmd.TextureID l.st } with
          indexBufferOffset := l.indexBufferOffset + cmd.ElementCount }

/-- The command loop (lines 167 to 181); a panic ends it. -/
def renderCommands (env : Env) (clist : CommandList) (vertices : List Vertex)
    (indices : List Nat) (cmds : List DrawCommand) (l : CmdLoop) : CmdLoop :=
  cmds.foldl
    (fun l cmd => if l.st.panicked then l else renderCommand env clist vertices indices cmd l) l

/-- One iteration of the list loop (lines 161 to 181). -/
def renderCommandList (env : Env) (clist : CommandList) (s : RenderState) : RenderState :=
  match getVertices env.fs env.szfloat clist.VertexBuffer.1 clist.VertexBuffer.2
      env.VertexBufferLayout.1 env.VertexBufferLayout.2.1 env.VertexBufferLayout.2.2.1
      env.VertexBufferLayout.2.2.2 with
  | none => (s.emit (.decodeVertices clist)).panic
  | some vertices =>
    match getIndices clist.IndexBuffer.1 clist.IndexBuffer.2 env.IndexBufferLayout with
    | none => ((s.emit (.decodeVertices clist)).emit (.decodeIndices clist)).panic
    | some indices =>
      (renderCommands env clist vertices indices clist.Commands
        { st := (s.emit (.decodeVertices clist)).emit (.decodeIndices clist)
          indexBufferOffset := 0
          vbuf := vcopy vertices }).st

/-- Go `Render`.  The draws on `target` are the `draw` events of the result;
`displaySize` and `framebufferSize` are not used by the body. -/
def Render (env : Env) (drawData : DrawData) (txcache : TxCache) : RenderState :=
  if drawData.Valid = false then { txcache := txcache, events := [], panicked := false }
  else
    drawData.CommandLists.foldl
      (fun s clist => if s.panicked then s else renderCommandList env clist s)
      { txcache := txcache, events := [], panicked := false }

/-! ## Specification-side vocabulary

The definitions below are not translations of source functions: they name
the quantities the specification talks about (the record layout it
describes, the index sub-ranges, what a trace shows), so that the theorems
can compare them with the code. -/

/-- The vertex record `i` as the specification words the decoder: fields are
fetched at `i * stride` plus the supplied field offset, floats are `w` bytes
wide, the colour word is unpacked with shift and mask. -/
def specVertexAt (fs : FloatSem) (w : Nat) (vbuf : Mem) (stride offpos offuv offcol i : Nat) :
    Vertex :=
  let fl : Nat → ℚ := fun a =>
    if w = 4 then fs.Float32frombits (readU32 vbuf a) else fs.Float64frombits (readU64 vbuf a)
  let col := readU32 vbuf (i * stride + offcol)
  { DstX := fl (i * stride + offpos)
    DstY := fl (i * stride + offpos + w)
    SrcX := fl (i * stride + offuv)
    SrcY := fl (i * stride + offuv + w)
    ColorR := ((col &&& 0xFF : Nat) : ℚ) / 255
    ColorG := (((col >>> 8) &&& 0xFF : Nat) : ℚ) / 255
    ColorB := (((col >>> 16) &&& 0xFF : Nat) : ℚ) / 255
    ColorA := (((col >>> 24) &&& 0xFF : Nat) : ℚ) / 255 }

/-- One vertex in the 40-byte layout whose colour bytes are 1, 2, 3, 4. -/
def colourBuffer64 : Mem :=
  memOfBytes (List.replicate 32 0 ++ [1, 2, 3, 4] ++ List.replicate 4 0)

/-- Two 24-byte records: the colour byte of record 1 is 9 at offset 40, while
offset 36 holds 5. -/
def strideBuffer : Mem :=
  memOfBytes (List.replicate 36 0 ++ [5, 0, 0, 0] ++ [9, 0, 0, 0] ++ List.replicate 4 0)

/-- One 20-byte record laid out colour first: colour byte 255 at offset 0,
while offset 16 holds 7. -/
def offsetBuffer : Mem :=
  memOfBytes ([255, 0, 0, 0] ++ List.replicate 12 0 ++ [7, 0, 0, 0])

/-- Outcome of lines 173 to 175 when no panic occurs there: on a hit the cache
is kept and one lookup is made; on a miss the realised texture is stored. -/
def Resolved (env : Env) (s : RenderState) (id : TextureID) (pre : List Event)
    (cache : TxCache) : Prop :=
  (∃ tx, s.txcache id = some tx ∧ cache = s.txcache ∧ pre = [.lookup id]) ∨
  (s.txcache id = none ∧ ∃ img, getTexture env.TextureDataRGBA32 env.Filter = some img ∧
    cache = (fun k => if k = id then some img else s.txcache k) ∧
    pre = [.lookup id, .realize id, .insert id img])

/-- The sub-range `[lo, hi)` of a sequence. -/
def subRange (xs : List Nat) (lo hi : Nat) : List Nat := (xs.drop lo).take (hi - lo)

/-- The sum `c_0 + ... + c_{k-1}` of the element counts of the first `k`
commands. -/
def cursorAt (cmds : List DrawCommand) (k : Nat) : Nat :=
  ((cmds.take k).map DrawCommand.ElementCount).sum

/-- The index sub-ranges the specification gives the non-callback commands of
a list, in command order: command `k` gets
`[c_0 + ... + c_{k-1}, c_0 + ... + c_k)`. -/
def expectedSlices (indices : List Nat) (cmds : List DrawCommand) : List (List Nat) :=
  (List.range cmds.length).filterMap fun k =>
    (cmds[k]?).bind fun cmd =>
      if cmd.HasUserCallback then none
      else some (subRange indices (cursorAt cmds k) (cursorAt cmds (k + 1)))

/-- The same sub-ranges computed with a running cursor starting at `c`. -/
def slicesFrom (indices : List Nat) : List DrawCommand → Nat → List (List Nat)
  | [], _ => []
  | cmd :: rest, c =>
    (if cmd.HasUserCallback then [] else [subRange indices c (c + cmd.ElementCount)]) ++
      slicesFrom indices rest (c + cmd.ElementCount)

/-- The indices `Render` decodes for a list (empty when the decode panics). -/
def decodedIndices (env : Env) (clist : CommandList) : List Nat :=
  (getIndices clist.IndexBuffer.1 clist.IndexBuffer.2 env.IndexBufferLayout).getD []

/-- The index sub-ranges the specification gives all non-callback commands of
a frame, list after list. -/
def expectedDrawnIndices (env : Env) (drawData : DrawData) : List (List Nat) :=
  (drawData.CommandLists.map fun clist =>
    expectedSlices (decodedIndices env clist) clist.Commands).flatten

/-- The index slices handed to the draws of a trace, in order. -/
def drawnIndices (evs : List Event) : List (List Nat) :=
  evs.filterMap fun e =>
    match e with
    | .draw _ _ idx _ => some idx
    | _ => none

/-- The key and texture of each draw of a trace, in order. -/
def drawnTextures (evs : List Event) : List (TextureID × Option Image) :=
  evs.filterMap fun e =>
    match e with
    | .draw texid _ _ tex => some (texid, tex)
    | _ => none

/-- Whether a step is a backend draw. -/
def Event.isDraw : Event → Bool
  | .draw _ _ _ _ => true
  | _ => false

/-- Whether a step is a user-callback invocation. -/
def Event.isCallback : Event → Bool
  | .callback _ _ => true
  | _ => false

/-- Whether a step touches the texture cache or realises a texture. -/
def Event.isCacheStep : Event → Bool
  | .lookup _ => true
  | .realize _ => true
  | .insert _ _ => true
  | _ => false

/-- Whether a step is the realisation of a texture for the key `id`. -/
def Event.isRealizeOf (id : TextureID) : Event → Bool
  | .realize k => decide (k = id)
  | _ => false

/-- How often the font atlas was fetched and `getTexture` called for `id`. -/
def realizations (id : TextureID) (evs : List Event) : Nat :=
  evs.countP (Event.isRealizeOf id)

/-- The two kinds of handling a command can receive. -/
inductive Handled where
  | callback (clist : CommandList) (cmd : DrawCommand)
  | draw (texid : TextureID)

/-- The callback invocations and draws of a trace, in order. -/
def handled (evs : List Event) : List Handled :=
  evs.filterMap fun e =>
    match e with
    | .callback clist cmd => some (.callback clist cmd)
    | .draw texid _ _ _ => some (.draw texid)
    | _ => none

/-- The handling the specification expects for one command. -/
def expectedHandling (clist : CommandList) (cmd : DrawCommand) : Handled :=
  if cmd.HasUserCallback then Handled.callback clist cmd else Handled.draw cmd.TextureID

/-- One handling per command of the frame, in command order: the callback for
a callback command, a draw for every other command. -/
def expectedHandled (drawData : DrawData) : List Handled :=
  (drawData.CommandLists.map fun clist =>
    clist.Commands.map (expectedHandling clist)).flatten

/-- All commands of a frame, in order. -/
def allCommands (drawData : DrawData) : List DrawCommand :=
  (drawData.CommandLists.map CommandList.Commands).flatten

/-- A cache `c2` keeps every entry of `c1`. -/
def CacheExtends (c1 c2 : TxCache) : Prop :=
  ∀ id img, c1 id = some img → c2 id = some img

/-- Whether a handling is a draw. -/
def Handled.isDraw : Handled → Bool
  | .draw _ => true
  | _ => false

/-- Whether a handling is a callback invocation. -/
def Handled.isCallback : Handled → Bool
  | .callback _ _ => true
  | _ => false

/-- Steps that neither realise a texture, nor insert into the cache, nor
draw. -/
def Event.isNeutral : Event → Bool
  | .realize _ => false
  | .insert _ _ => false
  | .draw _ _ _ _ => false
  | _ => true

/-- What holds of every state `s` reached by `Render` from the initial cache
`c0`: entries of `c0` are kept, inserts only hit keys missing from `c0`, a key
is realised at most once and only when missing from `c0`, every draw used the
texture the cache holds for its key, and while no panic occurred the keys
realised are the missing keys now cached, and the keys cached are those of
`c0` and those drawn. -/
structure RenderInv (c0 : TxCache) (s : RenderState) : Prop where
  keeps : CacheExtends c0 s.txcache
  inserts : ∀ id img, Event.insert id img ∈ s.events → c0 id = none
  atMostOnce : ∀ id, realizations id s.events ≤ 1
  onlyMissing : ∀ id, realizations id s.events = 1 → c0 id = none
  realized : s.panicked = false →
    ∀ id, (realizations id s.events = 1 ↔ c0 id = none ∧ s.txcache id ≠ none)
  drawsCached : ∀ p, p ∈ drawnTextures s.events → p.2 = s.txcache p.1 ∧ p.2 ≠ none
  cached : s.panicked = false →
    ∀ id, (s.txcache id ≠ none ↔ c0 id ≠ none ∨ Handled.draw id ∈ handled s.events)

/-- The vertex `a` with its UV interpolated between the bounds, each axis
from its own coordinate; position and colour kept. -/
def rescaleUV (bmin bmax : Point) (a : Vertex) : Vertex :=
  { a with SrcX := lerp bmin.X bmax.X a.SrcX, SrcY := lerp bmin.Y bmax.Y a.SrcY }

/-- The vertex with its UV blanked. -/
def clearUV (a : Vertex) : Vertex := { a with SrcX := 0, SrcY := 0 }

/-- The working copy agrees with the decoded vertices on position and colour. -/
def SameButUV (vbuf vertices : List Vertex) : Prop :=
  vbuf.map clearUV = vertices.map clearUV

/-- The vertices `Render` decodes for a list (line 164). -/
def decodedVertices (env : Env) (clist : CommandList) : Option (List Vertex) :=
  getVertices env.fs env.szfloat clist.VertexBuffer.1 clist.VertexBuffer.2
    env.VertexBufferLayout.1 env.VertexBufferLayout.2.1 env.VertexBufferLayout.2.2.1
    env.VertexBufferLayout.2.2.2

/-- What a draw of a trace shows of its vertices: the key, the vertex list
handed to the backend and the texture. -/
abbrev DrawRecord := TextureID × List Vertex × Option Image

/-- The draws of a trace, in order. -/
def draws (evs : List Event) : List DrawRecord :=
  evs.filterMap fun e =>
    match e with
    | .draw texid vbuf _ tex => some (texid, vbuf, tex)
    | _ => none

/-- The non-callback commands of one list in command order, each paired with
the list it belongs to. -/
def drawCommandsOf (clist : CommandList) : List (CommandList × DrawCommand) :=
  (clist.Commands.map fun cmd => if cmd.HasUserCallback then [] else [(clist, cmd)]).flatten

/-- The non-callback commands of a frame in program order, each paired with
the list it belongs to. -/
def drawCommands (drawData : DrawData) : List (CommandList × DrawCommand) :=
  (drawData.CommandLists.map drawCommandsOf).flatten

/-- The draw `d` is the one the specification expects for the command `p.2` of
the list `p.1`: issued for the command's key, with the decoded vertices of
that list rescaled to the bounds of the texture it was given. -/
def DrawOf (env : Env) (p : CommandList × DrawCommand) (d : DrawRecord) : Prop :=
  d.1 = p.2.TextureID ∧
  ∃ vertices tx, decodedVertices env p.1 = some vertices ∧ d.2.2 = some tx ∧
    d.2.1 = vertices.map (rescaleUV tx.Bounds.Min tx.Bounds.Max)

/-- Every texture inserted so far is the one `getTexture` builds from the
font atlas and the configured filter. -/
def InsertsAtlas (env : Env) (s : RenderState) : Prop :=
  ∀ id img, Event.insert id img ∈ s.events →
    getTexture env.TextureDataRGBA32 env.Filter = some img

/-- Whether a step is a cache insertion. -/
def Event.isInsert : Event → Bool
  | .insert _ _ => true
  | _ => false

/-- The state of the store after `k` iterations on distinct arrays. -/
def AfterIters (bmin bmax : Point) (σ : VertexStore) (v vbuf k : Nat) (τ : VertexStore) : Prop :=
  (∀ a, a ≠ vbuf → τ a = σ a) ∧ (τ vbuf).length = (σ vbuf).length ∧
  ∀ j, (τ vbuf)[j]? =
    if j < k then
      (List.zipWith
        (fun (b a : Vertex) =>
          { b with SrcX := lerp bmin.X bmax.X a.SrcX, SrcY := lerp bmin.Y bmax.Y a.SrcY })
        (σ vbuf) (σ v))[j]?
    else (σ vbuf)[j]?

/-! ## A synthetic frame -/

/-- A vertex at position `(10, 20)` with UV `(u, v)` and opaque white. -/
def uvVertex (u v : ℚ) : Vertex := ⟨10, 20, u, v, 1, 1, 1, 1⟩

/-- One vertex in the 20-byte layout whose colour bytes are 1, 2, 3, 4. -/
def colourBuffer32 : Mem :=
  memOfBytes (List.replicate 16 0 ++ [1, 2, 3, 4])

/-- A store whose arrays all hold the single vertex with UV `(1/2, 1/2)`. -/
def exampleStore : VertexStore := fun _ => [uvVertex (1 / 2) (1 / 2)]

/-- A 1x1 font atlas. -/
def exampleAtlas : RGBA32Image := ⟨1, 1, .ref (memOfBytes [255, 255, 255, 255])⟩

/-- Float width 4, the default vertex layout, 16-bit indices. -/
def exampleEnv : Env where
  fs := ieee
  szfloat := 4
  VertexBufferLayout := (20, 0, 8, 16)
  IndexBufferLayout := 2
  TextureDataRGBA32 := exampleAtlas
  Filter := 0

/-- Three commands with element counts 3, 5, 2; the middle one carries a user
callback. -/
def exampleCommands : List DrawCommand := [⟨3, false, 7⟩, ⟨5, true, 0⟩, ⟨2, false, 7⟩]

/-- Three zeroed vertices and the ten indices 0..9 with `exampleCommands`. -/
def exampleList : CommandList where
  VertexBuffer := (.ref (fun _ => 0), 60)
  IndexBuffer :=
    (.ref (memOfBytes [0, 0, 1, 0, 2, 0, 3, 0, 4, 0, 5, 0, 6, 0, 7, 0, 8, 0, 9, 0]), 20)
  Commands := exampleCommands

/-- A valid frame holding `exampleList`. -/
def exampleDrawData : DrawData := ⟨true, [exampleList]⟩

/-- The same frame reported invalid. -/
def invalidDrawData : DrawData := ⟨false, [exampleList]⟩

/-- A valid frame over empty buffers (non-nil pointers, length 0) whose first
command asks for 3 indices; a second command uses another texture key. -/
def overrunDrawData : DrawData :=
  ⟨true, [{ VertexBuffer := (.ref (fun _ => 0), 0), IndexBuffer := (.ref (fun _ => 0), 0),
            Commands := [⟨3, false, 7⟩, ⟨0, false, 8⟩] }]⟩

/-- The environment `exampleEnv` with the unsupported index width 3. -/
def badWidthEnv : Env := { exampleEnv with IndexBufferLayout := 3 }

/-- Some texture with bounds `(0,0)-(64,32)`. -/
def exampleImage : Image := ⟨⟨⟨0, 0⟩, ⟨64, 32⟩⟩, [], 0⟩

/-- A cache holding `exampleImage` under key 7. -/
def seededCache : TxCache := fun k => if k = 7 then some exampleImage else none

/-- The empty texture cache. -/
def emptyCache : TxCache := fun _ => none

/-- One 20-byte vertex record at position `(0, 0)` with colour 0, whose UV
floats are given by their little-endian bytes. -/
def uvRecord (u v : List Nat) : Mem :=
  memOfBytes (List.replicate 8 0 ++ u ++ v ++ [0, 0, 0, 0])

/-- One vertex with UV `(1/2, 1/2)` (bit pattern `0x3F000000` twice), six
indices and two commands on the keys 7 and 9. -/
def rescaleListA : CommandList where
  VertexBuffer := (.ref (uvRecord [0, 0, 0, 0x3F] [0, 0, 0, 0x3F]), 20)
  IndexBuffer := (.ref (fun _ => 0), 12)
  Commands := [⟨3, false, 7⟩, ⟨3, false, 9⟩]

/-- One vertex with UV `(1/4, 3/4)` (bit patterns `0x3E800000` and
`0x3F400000`), three indices and one command on the key 7. -/
def rescaleListB : CommandList where
  VertexBuffer := (.ref (uvRecord [0, 0, 0x80, 0x3E] [0, 0, 0x40, 0x3F]), 20)
  IndexBuffer := (.ref (fun _ => 0), 6)
  Commands := [⟨3, false, 7⟩]

/-- A valid frame holding `rescaleListA` then `rescaleListB`. -/
def rescaleDrawData : DrawData := ⟨true, [rescaleListA, rescaleListB]⟩

/-- A cache holding `exampleImage` (bounds `(0,0)-(64,32)`) under key 7 and a
texture of bounds `(10,20)-(110,220)` under key 9. -/
def twoTextureCache : TxCache := fun k =>
  if k = 7 then some exampleImage
  else if k = 9 then some ⟨⟨⟨10, 20⟩, ⟨110, 220⟩⟩, [], 0⟩
  else none

/-- The steps `Render` takes on `rescaleListA` over `twoTextureCache`. -/
def eventsA : List Event :=
  [.decodeVertices rescaleListA, .decodeIndices rescaleListA,
   .lookup 7, .lookup 7, .lookup 7,
   .draw 7 [⟨0, 0, 32, 16, 0, 0, 0, 0⟩] [0, 0, 0] (some exampleImage),
   .lookup 9, .lookup 9, .lookup 9,
   .draw 9 [⟨0, 0, 60, 120, 0, 0, 0, 0⟩] [0, 0, 0] (some ⟨⟨⟨10, 20⟩, ⟨110, 220⟩⟩, [], 0⟩)]

/-- The steps `Render` takes on `rescaleListB` over `twoTextureCache`. -/
def eventsB : List Event :=
  [.decodeVertices rescaleListB, .decodeIndices rescaleListB,
   .lookup 7, .lookup 7, .lookup 7,
   .draw 7 [⟨0, 0, 16, 24, 0, 0, 0, 0⟩] [0, 0, 0] (some exampleImage)]

/-! ## Arithmetic helpers -/

theorem readU8_lt (m : Mem) (a : Nat) : readU8 m a < 256 := by
  unfold readU8; omega

theorem readU16_lt (m : Mem) (a : Nat) : readU16 m a < 2 ^ 16 := by
  have h1 := readU8_lt m a
  have h2 := readU8_lt m (a + 1)
  unfold readU16; omega

theorem readU32_lt (m : Mem) (a : Nat) : readU32 m a < 2 ^ 32 := by
  have h1 := readU16_lt m a
  have h2 := readU16_lt m (a + 2)
  unfold readU32; omega

theorem getElem?_map_range {α : Type} (f : Nat → α) (n k : Nat) (h : k < n) :
    ((List.range n).map f)[k]? = some (f k) := by
  simp [List.getElem?_map, List.getElem?_range, h]

theorem and_255 (x : Nat) : x &&& 255 = x % 256 := by
  have h := Nat.and_pow_two_sub_one_eq_mod x 8
  norm_num at h
  exact h

theorem lor_shiftLeft_eq_add (x y k : Nat) (h : x < 2 ^ k) : x ||| y <<< k = x + 2 ^ k * y := by
  rw [Nat.shiftLeft_eq, Nat.lor_comm, Nat.mul_comm y, ← Nat.mul_add_lt_is_or h y, Nat.add_comm]

theorem packed_word (r g b a : Nat) (hr : r < 256) (hg : g < 256) (hb : b < 256) :
    r ||| g <<< 8 ||| b <<< 16 ||| a <<< 24 = r + 2 ^ 8 * g + 2 ^ 16 * b + 2 ^ 24 * a := by
  rw [lor_shiftLeft_eq_add r g 8 (by omega)]
  rw [lor_shiftLeft_eq_add _ b 16 (by omega)]
  rw [lor_shiftLeft_eq_add _ a 24 (by omega)]

/-! ## Vertex decoding -/

/-- The 4-byte path decodes every packed colour word channel by channel: for
channels `r g b a` below 256 packed as `r | g<<8 | b<<16 | a<<24` in record
`i`, the decoded vertex has colours `r/255, g/255, b/255, a/255`. -/
theorem getVerticesx32_colour_roundtrip (fs : FloatSem) (vbuf : Mem)
    (L S op ou oc i r g b a : Nat)
    (hS : 0 < S) (hn : L / S ≤ arrayCap) (hi : i < L / S)
    (hr : r < 256) (hg : g < 256) (hb : b < 256) (ha : a < 256)
    (hw : readU32 vbuf (i * 20 + 16) = r ||| g <<< 8 ||| b <<< 16 ||| a <<< 24) :
    ∃ vs v, getVertices fs 4 (.ref vbuf) L S op ou oc = some vs ∧ vs[i]? = some v ∧
      v.ColorR = r / 255 ∧ v.ColorG = g / 255 ∧ v.ColorB = b / 255 ∧ v.ColorA = a / 255 := by
  have hS0 : S ≠ 0 := by omega
  have hc : ¬ arrayCap < L / S := by omega
  simp only [getVertices, getVerticesx32, hS0, hc, if_false, if_true]
  refine ⟨_, _, rfl, getElem?_map_range _ _ _ hi, ?_⟩
  simp only [rawvertsx32, hw, packed_word r g b a hr hg hb, and_255, Nat.shiftRight_eq_div_pow]
  have e1 : (r + 2 ^ 8 * g + 2 ^ 16 * b + 2 ^ 24 * a) % 256 = r := by omega
  have e2 : (r + 2 ^ 8 * g + 2 ^ 16 * b + 2 ^ 24 * a) / 2 ^ 8 % 256 = g := by omega
  have e3 : (r + 2 ^ 8 * g + 2 ^ 16 * b + 2 ^ 24 * a) / 2 ^ 16 % 256 = b := by omega
  have e4 : (r + 2 ^ 8 * g + 2 ^ 16 * b + 2 ^ 24 * a) / 2 ^ 24 % 256 = a := by omega
  rw [e1, e2, e3, e4]
  exact ⟨rfl, rfl, rfl, rfl⟩

/-- C1 (code defect, 8-byte path): on one 40-byte record whose colour word is
`1 | 2<<8 | 3<<16 | 4<<24`, `getVertices` with float width 8 returns the
colours `(1/255, 0, 0, 0)`: green, blue and alpha are lost, where the claim
asks for `(1/255, 2/255, 3/255, 4/255)`. -/
theorem getVertices_x64_colour_channels_lost :
    readU32 colourBuffer64 32 = 1 ||| 2 <<< 8 ||| 3 <<< 16 ||| 4 <<< 24 ∧
    (getVertices ieee 8 (.ref colourBuffer64) 40 40 0 16 32).map
        (List.map fun v => (v.ColorR, v.ColorG, v.ColorB, v.ColorA))
      = some [(1 / 255, 0, 0, 0)] ∧
    ((1 : ℚ) / 255, (0 : ℚ), (0 : ℚ), (0 : ℚ)) ≠ (1 / 255, 2 / 255, 3 / 255, 4 / 255) := by
  refine ⟨by decide, ?_, ?_⟩
  swap
  · intro h
    have h2 := congrArg (fun p => p.2.1) h
    norm_num at h2
  simp [getVertices, getVerticesx64, arrayCap, rawvertsx64, List.range_succ]
  have : readU32 colourBuffer64 32 = 67305985 := by decide
  rw [this]
  norm_num [Nat.shiftLeft_eq]

theorem getVerticesx32_some (fs : FloatSem) (vbuf : Mem) (L S op ou oc : Nat)
    (hS : 0 < S) (hn : L / S ≤ arrayCap) :
    getVerticesx32 fs (.ref vbuf) L S op ou oc
      = some ((List.range (L / S)).map (specVertexAt fs 4 vbuf 20 0 8 16)) := by
  have hS0 : S ≠ 0 := by omega
  have hc : ¬ arrayCap < L / S := by omega
  simp only [getVerticesx32, hS0, hc, if_false]
  congr 1

theorem fixed_layoutx32 (fs : FloatSem) (vbuf : Mem) (L S op ou oc : Nat)
    (hS : 0 < S) (hn : L / S ≤ arrayCap) :
    ∃ vs, getVertices fs 4 (.ref vbuf) L S op ou oc = some vs ∧ vs.length = L / S ∧
      ∀ i, i < L / S → vs[i]? = some (specVertexAt fs 4 vbuf 20 0 8 16 i) := by
  refine ⟨(List.range (L / S)).map (specVertexAt fs 4 vbuf 20 0 8 16), ?_, ?_, ?_⟩
  · simp only [getVertices, if_true]
    exact getVerticesx32_some fs vbuf L S op ou oc hS hn
  · simp
  · intro i hi
    exact getElem?_map_range _ _ _ hi

theorem fixed_layoutx64 (fs : FloatSem) (vbuf : Mem) (L S op ou oc : Nat)
    (hS : 0 < S) (hn : L / S ≤ arrayCap) :
    ∃ vs, getVertices fs 8 (.ref vbuf) L S op ou oc = some vs ∧ vs.length = L / S ∧
      ∀ i, i < L / S → ∃ v, vs[i]? = some v ∧
        v.DstX = (specVertexAt fs 8 vbuf 40 0 16 32 i).DstX ∧
        v.DstY = (specVertexAt fs 8 vbuf 40 0 16 32 i).DstY ∧
        v.SrcX = (specVertexAt fs 8 vbuf 40 0 16 32 i).SrcX ∧
        v.SrcY = (specVertexAt fs 8 vbuf 40 0 16 32 i).SrcY ∧
        v.ColorR = (specVertexAt fs 8 vbuf 40 0 16 32 i).ColorR := by
  have hS0 : S ≠ 0 := by omega
  have hc : ¬ arrayCap < L / S := by omega
  simp only [getVertices, getVerticesx64, hS0, hc, if_false]
  simp only [show ¬ (8 : Nat) = 4 by decide, if_false, if_true]
  refine ⟨_, rfl, by simp, ?_⟩
  intro i hi
  refine ⟨_, getElem?_map_range _ _ _ hi, ?_⟩
  simp [specVertexAt, rawvertsx64, and_255]

/-- C2 (as stated, refuted): the decoder does not extract by the supplied
stride and offsets.  With stride 24 and offsets 0, 8, 16 the second vertex
gets red `5/255` (the word at byte 36) where the supplied layout points at
byte 40 (red `9/255`); with stride 20 and offsets 4, 12, 0 the vertex gets red
`7/255` (the word at byte 16) where the supplied colour offset 0 gives red 1. -/
theorem getVertices_by_supplied_layout_fails :
    (getVertices ieee 4 (.ref strideBuffer) 48 24 0 8 16).map (List.map Vertex.ColorR)
      = some [0, 5 / 255] ∧
    (specVertexAt ieee 4 strideBuffer 24 0 8 16 1).ColorR = 9 / 255 ∧
    (getVertices ieee 4 (.ref offsetBuffer) 20 20 4 12 0).map (List.map Vertex.ColorR)
      = some [7 / 255] ∧
    (specVertexAt ieee 4 offsetBuffer 20 4 12 0 0).ColorR = 1 ∧
    ¬ (∀ vs, getVertices ieee 4 (.ref strideBuffer) 48 24 0 8 16 = some vs →
        ∀ i, i < vs.length → vs[i]? = some (specVertexAt ieee 4 strideBuffer 24 0 8 16 i)) ∧
    ¬ (∀ vs, getVertices ieee 4 (.ref offsetBuffer) 20 20 4 12 0 = some vs →
        ∀ i, i < vs.length → vs[i]? = some (specVertexAt ieee 4 offsetBuffer 20 4 12 0 i)) := by
  have h1 : readU32 strideBuffer 16 = 0 := by decide
  have h2 : readU32 strideBuffer 36 = 5 := by decide
  have h3 : readU32 strideBuffer 40 = 9 := by decide
  have h4 : readU32 offsetBuffer 16 = 7 := by decide
  have h5 : readU32 offsetBuffer 0 = 255 := by decide
  have e1 : (getVertices ieee 4 (.ref strideBuffer) 48 24 0 8 16).map (List.map Vertex.ColorR)
      = some [0, 5 / 255] := by
    simp [getVertices, getVerticesx32, arrayCap, rawvertsx32, List.range_succ, h1, h2, and_255]
  have e2 : (specVertexAt ieee 4 strideBuffer 24 0 8 16 1).ColorR = 9 / 255 := by
    simp [specVertexAt, h3, and_255]
  have e3 : (getVertices ieee 4 (.ref offsetBuffer) 20 20 4 12 0).map (List.map Vertex.ColorR)
      = some [7 / 255] := by
    simp [getVertices, getVerticesx32, arrayCap, rawvertsx32, List.range_succ, h4, and_255]
  have e4 : (specVertexAt ieee 4 offsetBuffer 20 4 12 0 0).ColorR = 1 := by
    simp [specVertexAt, h5, and_255]
  refine ⟨e1, e2, e3, e4, ?_, ?_⟩
  · intro h
    cases hv : getVertices ieee 4 (.ref strideBuffer) 48 24 0 8 16 with
    | none => simp [hv] at e1
    | some vs =>
      rw [hv] at e1
      have hm : vs.map Vertex.ColorR = [0, 5 / 255] := by simpa using e1
      have hl : vs.length = 2 := by simpa using congrArg List.length hm
      have := h vs hv 1 (by omega)
      have hc : (vs.map Vertex.ColorR)[1]? = some (9 / 255) := by
        rw [List.getElem?_map, this, Option.map_some', e2]
      rw [hm] at hc
      norm_num at hc
  · intro h
    cases hv : getVertices ieee 4 (.ref offsetBuffer) 20 20 4 12 0 with
    | none => simp [hv] at e3
    | some vs =>
      rw [hv] at e3
      have hm : vs.map Vertex.ColorR = [7 / 255] := by simpa using e3
      have hl : vs.length = 1 := by simpa using congrArg List.length hm
      have := h vs hv 0 (by omega)
      have hc : (vs.map Vertex.ColorR)[0]? = some 1 := by
        rw [List.getElem?_map, this, Option.map_some', e4]
      rw [hm] at hc
      norm_num at hc

/-- C2 (amended): for every buffer (non-nil pointer), stride `S > 0`, length
`L` with `L / S ≤ 2^28` and every triple of supplied offsets, the decoder extracts by
the fixed record layout of the float width, whatever stride and offsets were
supplied.  Width 4: vertex `i` is the record at `i * 20` with position at 0,
UV at 8 and colour word at 16.  Width 8: vertex `i` takes position, UV and red
channel from the record at `i * 40` with position at 0, UV at 16 and colour
word at 32.  The supplied stride only fixes the count `L / S`. -/
theorem getVertices_fixed_record_layout (fs : FloatSem) (vbuf : Mem)
    (L S offpos offuv offcol : Nat) (hS : 0 < S) (hn : L / S ≤ 2 ^ 28) :
    (∃ vs, getVertices fs 4 (.ref vbuf) L S offpos offuv offcol = some vs ∧ vs.length = L / S ∧
      ∀ i, i < L / S → vs[i]? = some (specVertexAt fs 4 vbuf 20 0 8 16 i)) ∧
    (∃ vs, getVertices fs 8 (.ref vbuf) L S offpos offuv offcol = some vs ∧ vs.length = L / S ∧
      ∀ i, i < L / S → ∃ v, vs[i]? = some v ∧
        v.DstX = (specVertexAt fs 8 vbuf 40 0 16 32 i).DstX ∧
        v.DstY = (specVertexAt fs 8 vbuf 40 0 16 32 i).DstY ∧
        v.SrcX = (specVertexAt fs 8 vbuf 40 0 16 32 i).SrcX ∧
        v.SrcY = (specVertexAt fs 8 vbuf 40 0 16 32 i).SrcY ∧
        v.ColorR = (specVertexAt fs 8 vbuf 40 0 16 32 i).ColorR) :=
  ⟨fixed_layoutx32 fs vbuf L S offpos offuv offcol hS hn,
   fixed_layoutx64 fs vbuf L S offpos offuv offcol hS hn⟩

/-- C2 (amended), at the two-record buffer with supplied stride 24. -/
theorem getVertices_fixed_record_layout_witness :
    (∃ vs, getVertices ieee 4 (.ref strideBuffer) 48 24 0 8 16 = some vs ∧ vs.length = 48 / 24 ∧
      ∀ i, i < 48 / 24 → vs[i]? = some (specVertexAt ieee 4 strideBuffer 20 0 8 16 i)) ∧
    (∃ vs, getVertices ieee 8 (.ref strideBuffer) 48 24 0 8 16 = some vs ∧ vs.length = 48 / 24 ∧
      ∀ i, i < 48 / 24 → ∃ v, vs[i]? = some v ∧
        v.DstX = (specVertexAt ieee 8 strideBuffer 40 0 16 32 i).DstX ∧
        v.DstY = (specVertexAt ieee 8 strideBuffer 40 0 16 32 i).DstY ∧
        v.SrcX = (specVertexAt ieee 8 strideBuffer 40 0 16 32 i).SrcX ∧
        v.SrcY = (specVertexAt ieee 8 strideBuffer 40 0 16 32 i).SrcY ∧
        v.ColorR = (specVertexAt ieee 8 strideBuffer 40 0 16 32 i).ColorR) :=
  getVertices_fixed_record_layout ieee strideBuffer 48 24 0 8 16 (by decide) (by decide)

/-- C3 (as stated, refuted): an empty vertex buffer handed over as a nil
pointer with `L = 0` makes `getVertices` panic at either float width instead
of returning the empty sequence (the array overlay is sliced through the nil
pointer); and a buffer of `20 * (2^28 + 1)` bytes with stride 20 holds
`2^28 + 1` records, on which `getVertices` panics instead of returning that
many vertices (the slice exceeds the array capacity `1 << 28`). -/
theorem getVertices_count_nil_or_beyond_capacity :
    getVertices ieee 4 .nil 0 20 0 8 16 = none ∧
    getVertices ieee 8 .nil 0 40 0 16 32 = none ∧
    getVertices ieee 4 .nil 0 20 0 8 16 ≠ some [] ∧
    (20 * (2 ^ 28 + 1)) / 20 = 2 ^ 28 + 1 ∧
    getVertices ieee 4 (.ref (fun _ => 0)) (20 * (2 ^ 28 + 1)) 20 0 8 16 = none ∧
    getVertices ieee 8 (.ref (fun _ => 0)) (40 * (2 ^ 28 + 1)) 40 0 16 32 = none ∧
    ¬ ∃ vs, getVertices ieee 4 (.ref (fun _ => 0)) (20 * (2 ^ 28 + 1)) 20 0 8 16 = some vs ∧
      vs.length = (20 * (2 ^ 28 + 1)) / 20 := by
  have n1 : getVertices ieee 4 .nil 0 20 0 8 16 = none := by
    simp [getVertices, getVerticesx32]
  have n2 : getVertices ieee 8 .nil 0 40 0 16 32 = none := by
    simp [getVertices, getVerticesx64]
  have e1 : getVertices ieee 4 (.ref (fun _ => 0)) (20 * (2 ^ 28 + 1)) 20 0 8 16 = none := by
    simp [getVertices, getVerticesx32, arrayCap]
  have e2 : getVertices ieee 8 (.ref (fun _ => 0)) (40 * (2 ^ 28 + 1)) 40 0 16 32 = none := by
    simp [getVertices, getVerticesx64, arrayCap]
  refine ⟨n1, n2, ?_, by norm_num, e1, e2, ?_⟩
  · rw [n1]
    exact fun h => Option.noConfusion h
  · rintro ⟨vs, h, -⟩
    rw [e1] at h
    exact Option.noConfusion h

/-- C3 (amended): for float width 4 or 8, every length `L` and stride
`S > 0`.  Behind a non-nil buffer pointer: when `L / S ≤ 2^28`, `getVertices`
returns exactly `L / S` vertices (remainder bytes ignored); when
`L / S > 2^28` it panics; and `L = 0` yields the empty sequence.  With a nil
buffer pointer `getVertices` panics, for every `L`, also for `L = 0`. -/
theorem getVertices_count (fs : FloatSem) (w : Nat) (vbuf : Mem) (L S offpos offuv offcol : Nat)
    (hw : w = 4 ∨ w = 8) (hS : 0 < S) :
    (L / S ≤ 2 ^ 28 →
      ∃ vs, getVertices fs w (.ref vbuf) L S offpos offuv offcol = some vs ∧
        vs.length = L / S) ∧
    (2 ^ 28 < L / S → getVertices fs w (.ref vbuf) L S offpos offuv offcol = none) ∧
    getVertices fs w (.ref vbuf) 0 S offpos offuv offcol = some [] ∧
    getVertices fs w .nil L S offpos offuv offcol = none ∧
    getVertices fs w .nil 0 S offpos offuv offcol = none := by
  have hS0 : S ≠ 0 := by omega
  rcases hw with rfl | rfl
  · refine ⟨fun hn => ?_, fun hn => ?_, ?_, ?_, ?_⟩
    · have hc : ¬ arrayCap < L / S := by simp only [arrayCap]; omega
      simp only [getVertices, getVerticesx32, hS0, hc, if_false, if_true]
      exact ⟨_, rfl, by simp⟩
    · have hc : arrayCap < L / S := by simp only [arrayCap]; omega
      simp only [getVertices, getVerticesx32, hS0, hc, if_false, if_true]
    · simp [getVertices, getVerticesx32, hS0, arrayCap]
    · simp [getVertices, getVerticesx32, hS0]
    · simp [getVertices, getVerticesx32, hS0]
  · refine ⟨fun hn => ?_, fun hn => ?_, ?_, ?_, ?_⟩
    · have hc : ¬ arrayCap < L / S := by simp only [arrayCap]; omega
      simp only [getVertices, getVerticesx64, hS0, hc, if_false, if_true,
        show ¬ (8 : Nat) = 4 by decide]
      exact ⟨_, rfl, by simp⟩
    · have hc : arrayCap < L / S := by simp only [arrayCap]; omega
      simp only [getVertices, getVerticesx64, hS0, hc, if_false, if_true,
        show ¬ (8 : Nat) = 4 by decide]
    · simp [getVertices, getVerticesx64, hS0, arrayCap]
    · simp [getVertices, getVerticesx64, hS0]
    · simp [getVertices, getVerticesx64, hS0]

/-- C3 (amended), at a 45-byte buffer with stride 20 and float width 4. -/
theorem getVertices_count_witness :
    (45 / 20 ≤ 2 ^ 28 →
      ∃ vs, getVertices ieee 4 (.ref (fun _ => 0)) 45 20 0 8 16 = some vs ∧
        vs.length = 45 / 20) ∧
    (2 ^ 28 < 45 / 20 → getVertices ieee 4 (.ref (fun _ => 0)) 45 20 0 8 16 = none) ∧
    getVertices ieee 4 (.ref (fun _ => 0)) 0 20 0 8 16 = some [] ∧
    getVertices ieee 4 .nil 45 20 0 8 16 = none ∧
    getVertices ieee 4 .nil 0 20 0 8 16 = none :=
  getVertices_count ieee 4 (fun _ => 0) 45 20 0 8 16 (Or.inl rfl) (by decide)

/-! ## Index decoding -/

/-- C4 (as stated, refuted): an empty index buffer handed over as a nil
pointer (length 0, or 1) makes `getIndices` at width 2 panic instead of
returning the empty sequence (the array overlay is sliced through the nil
pointer); and a buffer of `2 * (2^28 + 1)` bytes holds `2^28 + 1` two-byte
indices, on which `getIndices` panics instead of returning them (the slice
exceeds the array capacity `1 << 28`). -/
theorem getIndices_width2_nil_or_beyond_capacity :
    getIndices .nil 0 2 = none ∧
    getIndices .nil 1 2 = none ∧
    (¬ ∃ l, getIndices .nil 0 2 = some l ∧ l.length = 0 / 2) ∧
    (2 * (2 ^ 28 + 1)) / 2 = 2 ^ 28 + 1 ∧
    getIndices (.ref (fun _ => 0)) (2 * (2 ^ 28 + 1)) 2 = none ∧
    ¬ ∃ l, getIndices (.ref (fun _ => 0)) (2 * (2 ^ 28 + 1)) 2 = some l ∧
      l.length = (2 * (2 ^ 28 + 1)) / 2 := by
  have n1 : getIndices .nil 0 2 = none := by simp [getIndices]
  have n2 : getIndices .nil 1 2 = none := by simp [getIndices]
  have e1 : getIndices (.ref (fun _ => 0)) (2 * (2 ^ 28 + 1)) 2 = none := by
    simp [getIndices, arrayCap]
  refine ⟨n1, n2, ?_, by norm_num, e1, ?_⟩
  · rintro ⟨vs, h, -⟩
    rw [n1] at h
    exact Option.noConfusion h
  · rintro ⟨vs, h, -⟩
    rw [e1] at h
    exact Option.noConfusion h

/-- C4 (amended): behind a non-nil buffer pointer, for every length `L` with
`L / 2 ≤ 2^28`, `getIndices` at width 2 returns `L / 2` indices whose `k`-th
element is `b[2k] | b[2k+1] << 8`; bytes `[b0, b1, b2, b3]` yield
`[b0 | b1<<8, b2 | b3<<8]`.  With a nil buffer pointer `getIndices` at width
2 panics for every length, also when `L / 2 = 0`. -/
theorem getIndices_width2 (ibuf : Mem) (L : Nat) (hL : L / 2 ≤ 2 ^ 28) :
    (∃ l, getIndices (.ref ibuf) L 2 = some l ∧ l.length = L / 2 ∧
      ∀ k, k < L / 2 →
        l[k]? = some (readU8 ibuf (2 * k) ||| readU8 ibuf (2 * k + 1) <<< 8)) ∧
    (∀ b0 b1 b2 b3 : Nat, b0 < 256 → b1 < 256 → b2 < 256 → b3 < 256 →
      getIndices (.ref (memOfBytes [b0, b1, b2, b3])) 4 2
        = some [b0 ||| b1 <<< 8, b2 ||| b3 <<< 8]) ∧
    getIndices .nil L 2 = none := by
  have hc : ¬ arrayCap < L / 2 := by simp only [arrayCap]; omega
  refine ⟨?_, ?_, ?_⟩
  · simp only [getIndices, hc, if_false, if_true, show ¬ (2 : Nat) = 0 by decide]
    refine ⟨_, rfl, by simp, ?_⟩
    intro k hk
    rw [getElem?_map_range _ _ _ hk, lor_shiftLeft_eq_add _ _ 8 (readU8_lt _ _)]
    simp only [readU16, Nat.mul_comm k 2]
  · intro b0 b1 b2 b3 h0 h1 h2 h3
    rw [lor_shiftLeft_eq_add _ _ 8 h0, lor_shiftLeft_eq_add _ _ 8 h2]
    simp [getIndices, arrayCap, List.range_succ, readU16, readU8, memOfBytes,
      Nat.mod_eq_of_lt h0, Nat.mod_eq_of_lt h1, Nat.mod_eq_of_lt h2, Nat.mod_eq_of_lt h3]
  · simp [getIndices]

/-- C4 (amended), at the four bytes 1, 2, 3, 4. -/
theorem getIndices_width2_witness :
    (∃ l, getIndices (.ref (memOfBytes [1, 2, 3, 4])) 4 2 = some l ∧ l.length = 4 / 2 ∧
      ∀ k, k < 4 / 2 →
        l[k]? = some (readU8 (memOfBytes [1, 2, 3, 4]) (2 * k) |||
          readU8 (memOfBytes [1, 2, 3, 4]) (2 * k + 1) <<< 8)) ∧
    (∀ b0 b1 b2 b3 : Nat, b0 < 256 → b1 < 256 → b2 < 256 → b3 < 256 →
      getIndices (.ref (memOfBytes [b0, b1, b2, b3])) 4 2
        = some [b0 ||| b1 <<< 8, b2 ||| b3 <<< 8]) ∧
    getIndices .nil 4 2 = none :=
  getIndices_width2 (memOfBytes [1, 2, 3, 4]) 4 (by decide)

/-- C5: for every buffer (non-nil pointer) of length `L`, `getIndices` at
width 4 (resp. 8) returns `L / 4` (resp. `L / 8`) indices whose `k`-th
element is the `k`-th little-endian 4-byte (resp. 8-byte) source element
modulo `2^16`; the decoded
index equals the source value exactly when the source value is below 65536;
the width-4 value `0x00010002` decodes to `0x0002`.  An empty buffer handed
over as a nil pointer (`L / 4 = 0`, resp. `L / 8 = 0`) decodes to the empty
sequence as well: these two paths read nothing then. -/
theorem getIndices_truncates (ibuf : Mem) (L : Nat) :
    (∃ l, getIndices (.ref ibuf) L 4 = some l ∧ l.length = L / 4 ∧
      ∀ k, k < L / 4 →
        l[k]? = some (readU32 ibuf (k * 4) % 2 ^ 16) ∧
        (l[k]? = some (readU32 ibuf (k * 4)) ↔ readU32 ibuf (k * 4) < 65536)) ∧
    (∃ l, getIndices (.ref ibuf) L 8 = some l ∧ l.length = L / 8 ∧
      ∀ k, k < L / 8 →
        l[k]? = some (readU64 ibuf (k * 8) % 2 ^ 16) ∧
        (l[k]? = some (readU64 ibuf (k * 8)) ↔ readU64 ibuf (k * 8) < 65536)) ∧
    (readU32 (memOfBytes [0x02, 0x00, 0x01, 0x00]) 0 = 0x00010002 ∧
      getIndices (.ref (memOfBytes [0x02, 0x00, 0x01, 0x00])) 4 4 = some [0x0002]) ∧
    (L / 4 = 0 → getIndices .nil L 4 = some []) ∧
    (L / 8 = 0 → getIndices .nil L 8 = some []) := by
  refine ⟨?_, ?_, ⟨by decide, by decide⟩, ?_, ?_⟩
  rotate_left 2
  · intro h
    simp [getIndices, h]
  · intro h
    simp [getIndices, h]
  · simp only [getIndices, if_false, if_true, show ¬ (4 : Nat) = 0 by decide,
      show ¬ (4 : Nat) = 2 by decide]
    refine ⟨_, rfl, by simp, ?_⟩
    intro k hk
    rw [getElem?_map_range _ _ _ hk]
    refine ⟨rfl, ?_⟩
    rw [Option.some_inj]
    constructor
    · intro h; omega
    · intro h; omega
  · simp only [getIndices, if_false, if_true, show ¬ (8 : Nat) = 0 by decide,
      show ¬ (8 : Nat) = 2 by decide, show ¬ (8 : Nat) = 4 by decide]
    refine ⟨_, rfl, by simp, ?_⟩
    intro k hk
    rw [getElem?_map_range _ _ _ hk]
    refine ⟨rfl, ?_⟩
    rw [Option.some_inj]
    constructor
    · intro h; omega
    · intro h; omega

/-- C5, at the four bytes 02 00 01 00 read at width 4. -/
theorem getIndices_truncates_witness :
    ∃ l, getIndices (.ref (memOfBytes [0x02, 0x00, 0x01, 0x00])) 4 4 = some l ∧ l.length = 4 / 4 ∧
      ∀ k, k < 4 / 4 →
        l[k]? = some (readU32 (memOfBytes [0x02, 0x00, 0x01, 0x00]) (k * 4) % 2 ^ 16) ∧
        (l[k]? = some (readU32 (memOfBytes [0x02, 0x00, 0x01, 0x00]) (k * 4)) ↔
          readU32 (memOfBytes [0x02, 0x00, 0x01, 0x00]) (k * 4) < 65536) :=
  (getIndices_truncates (memOfBytes [0x02, 0x00, 0x01, 0x00]) 4).1

/-! ## The command loop, step by step -/

theorem resolveTexture_spec (env : Env) (id : TextureID) (s : RenderState) :
    (∃ tx, s.txcache id = some tx ∧
      resolveTexture env id s = { s with events := s.events ++ [.lookup id] }) ∨
    (s.txcache id = none ∧ getTexture env.TextureDataRGBA32 env.Filter = none ∧
      resolveTexture env id s =
        { s with events := s.events ++ [.lookup id, .realize id], panicked := true }) ∨
    (s.txcache id = none ∧ ∃ img, getTexture env.TextureDataRGBA32 env.Filter = some img ∧
      resolveTexture env id s =
        { txcache := fun k => if k = id then some img else s.txcache k
          events := s.events ++ [.lookup id, .realize id, .insert id img]
          panicked := s.panicked }) := by
  cases hc : s.txcache id with
  | some tx =>
    left
    refine ⟨tx, rfl, ?_⟩
    simp [resolveTexture, RenderState.emit, hc]
  | none =>
    right
    cases hg : getTexture env.TextureDataRGBA32 env.Filter with
    | none =>
      left
      simp [resolveTexture, RenderState.emit, RenderState.panic, hc, hg]
    | some img =>
      right
      refine ⟨rfl, img, rfl, ?_⟩
      simp [resolveTexture, RenderState.emit, RenderState.store, hc, hg]

theorem drawCommand_spec (vertices : List Vertex) (indices : List Nat) (id : TextureID)
    (ecount : Nat) (l : CmdLoop) (tx : Image) (hc : l.st.txcache id = some tx) :
    (vmultiply vertices l.vbuf tx.Bounds.Min tx.Bounds.Max = none ∧
      drawCommand vertices indices id ecount l =
        { l with st := { l.st with events := l.st.events ++ [.lookup id], panicked := true } }) ∨
    (∃ vb, vmultiply vertices l.vbuf tx.Bounds.Min tx.Bounds.Max = some vb ∧
      ¬ l.indexBufferOffset + ecount ≤ indices.length ∧
      drawCommand vertices indices id ecount l =
        { l with
          vbuf := vb
          st := { l.st with events := l.st.events ++ [.lookup id], panicked := true } }) ∨
    (∃ vb, vmultiply vertices l.vbuf tx.Bounds.Min tx.Bounds.Max = some vb ∧
      l.indexBufferOffset + ecount ≤ indices.length ∧
      drawCommand vertices indices id ecount l =
        { l with
          vbuf := vb
          st := { l.st with events := l.st.events ++
            [.lookup id, .lookup id,
              .draw id vb ((indices.drop l.indexBufferOffset).take ecount) (some tx)] } }) := by
  cases hv : vmultiply vertices l.vbuf tx.Bounds.Min tx.Bounds.Max with
  | none =>
    left
    simp [drawCommand, RenderState.emit, RenderState.panic, hc, hv]
  | some vb =>
    right
    by_cases hb : l.indexBufferOffset + ecount ≤ indices.length
    · right
      refine ⟨vb, rfl, hb, ?_⟩
      simp [drawCommand, RenderState.emit, hc, hv, hb]
    · left
      refine ⟨vb, rfl, hb, ?_⟩
      simp [drawCommand, RenderState.emit, RenderState.panic, hc, hv, hb]

theorem renderCommand_spec (env : Env) (clist : CommandList) (vertices : List Vertex)
    (indices : List Nat) (cmd : DrawCommand) (l : CmdLoop) (hnp : l.st.panicked = false) :
    (cmd.HasUserCallback = true ∧
      renderCommand env clist vertices indices cmd l =
        { st := { l.st with events := l.st.events ++ [.callback clist cmd] }
          indexBufferOffset := l.indexBufferOffset + cmd.ElementCount
          vbuf := l.vbuf }) ∨
    (cmd.HasUserCallback = false ∧ ∃ pre cache tx vb,
      Resolved env l.st cmd.TextureID pre cache ∧ cache cmd.TextureID = some tx ∧
      vmultiply vertices l.vbuf tx.Bounds.Min tx.Bounds.Max = some vb ∧
      l.indexBufferOffset + cmd.ElementCount ≤ indices.length ∧
      renderCommand env clist vertices indices cmd l =
        { st :=
            { txcache := cache
              events := l.st.events ++ pre ++
                [.lookup cmd.TextureID, .lookup cmd.TextureID,
                  .draw cmd.TextureID vb
                    ((indices.drop l.indexBufferOffset).take cmd.ElementCount) (some tx)]
              panicked := false }
          indexBufferOffset := l.indexBufferOffset + cmd.ElementCount
          vbuf := vb }) ∨
    (cmd.HasUserCallback = false ∧ ∃ pre cache,
      (renderCommand env clist vertices indices cmd l).st =
        { txcache := cache, events := l.st.events ++ pre, panicked := true } ∧
      ((∃ pre0, Resolved env l.st cmd.TextureID pre0 cache ∧
          pre = pre0 ++ [.lookup cmd.TextureID]) ∨
        (l.st.txcache cmd.TextureID = none ∧
          getTexture env.TextureDataRGBA32 env.Filter = none ∧ cache = l.st.txcache ∧
          pre = [.lookup cmd.TextureID, .realize cmd.TextureID]))) := by
  cases hcb : cmd.HasUserCallback with
  | true =>
    left
    simp [renderCommand, hcb, RenderState.emit]
  | false =>
    right
    rcases resolveTexture_spec env cmd.TextureID l.st with
      ⟨tx, hc, hr⟩ | ⟨hc, hg, hr⟩ | ⟨hc, img, hg, hr⟩
    · have hres : Resolved env l.st cmd.TextureID [.lookup cmd.TextureID] l.st.txcache :=
        Or.inl ⟨tx, hc, rfl, rfl⟩
      rcases drawCommand_spec vertices indices cmd.TextureID cmd.ElementCount
          { l with st := resolveTexture env cmd.TextureID l.st } tx (by rw [hr]; exact hc) with
        ⟨hv, hd⟩ | ⟨vb, hv, hb, hd⟩ | ⟨vb, hv, hb, hd⟩
      · right
        refine ⟨rfl, _, l.st.txcache, ?_, Or.inl ⟨_, hres, rfl⟩⟩
        simp only [renderCommand, hcb, Bool.false_eq_true, if_false, hd]
        simp [hr, hnp]
      · right
        refine ⟨rfl, _, l.st.txcache, ?_, Or.inl ⟨_, hres, rfl⟩⟩
        simp only [renderCommand, hcb, Bool.false_eq_true, if_false, hd]
        simp [hr, hnp]
      · left
        refine ⟨rfl, _, l.st.txcache, tx, vb, hres, hc, hv, hb, ?_⟩
        simp only [renderCommand, hcb, Bool.false_eq_true, if_false, hd]
        simp [hr, hnp]
    · right
      refine ⟨rfl, _, l.st.txcache, ?_, Or.inr ⟨hc, hg, rfl, rfl⟩⟩
      simp [renderCommand, hcb, hr]
    · have hres : Resolved env l.st cmd.TextureID
          [.lookup cmd.TextureID, .realize cmd.TextureID, .insert cmd.TextureID img]
          (fun k => if k = cmd.TextureID then some img else l.st.txcache k) :=
        Or.inr ⟨hc, img, hg, rfl, rfl⟩
      rcases drawCommand_spec vertices indices cmd.TextureID cmd.ElementCount
          { l with st := resolveTexture env cmd.TextureID l.st } img (by rw [hr]; simp) with
        ⟨hv, hd⟩ | ⟨vb, hv, hb, hd⟩ | ⟨vb, hv, hb, hd⟩
      · right
        refine ⟨rfl, _, _, ?_, Or.inl ⟨_, hres, rfl⟩⟩
        simp only [renderCommand, hcb, Bool.false_eq_true, if_false, hd]
        simp [hr, hnp]
      · right
        refine ⟨rfl, _, _, ?_, Or.inl ⟨_, hres, rfl⟩⟩
        simp only [renderCommand, hcb, Bool.false_eq_true, if_false, hd]
        simp [hr, hnp]
      · left
        refine ⟨rfl, _, _, img, vb, hres, by simp, hv, hb, ?_⟩
        simp only [renderCommand, hcb, Bool.false_eq_true, if_false, hd]
        simp [hr, hnp]

theorem guarded_foldl_panicked {σ α : Type} (pan : σ → Bool) (step : σ → α → σ)
    (xs : List α) (s : σ) (hp : pan s = true) :
    xs.foldl (fun s a => if pan s then s else step s a) s = s := by
  induction xs with
  | nil => rfl
  | cons a rest ih => simp only [List.foldl_cons, hp, if_true]; exact ih

theorem guarded_foldl_inv {σ α : Type} (pan : σ → Bool) (step : σ → α → σ) (I : σ → Prop)
    (hstep : ∀ s a, pan s = false → I s → I (step s a)) (xs : List α) :
    ∀ s, I s → I (xs.foldl (fun s a => if pan s then s else step s a) s) := by
  induction xs with
  | nil => intro s hs; exact hs
  | cons a rest ih =>
    intro s hs
    simp only [List.foldl_cons]
    cases hp : pan s with
    | true =>
      simp only [if_true]
      exact ih s hs
    | false =>
      simp only [Bool.false_eq_true, if_false]
      exact ih _ (hstep s a hp hs)

theorem guarded_foldl_obs {σ α β : Type} (pan : σ → Bool) (ev : σ → List Event)
    (step : σ → α → σ) (obs : List Event → List β) (exp : α → List β)
    (hstep : ∀ s a, pan s = false →
      ∃ t, obs (ev (step s a)) = obs (ev s) ++ t ∧ t <+: exp a ∧
        (pan (step s a) = false → t = exp a))
    (xs : List α) :
    ∀ s, pan s = false →
      ∃ t, obs (ev (xs.foldl (fun s a => if pan s then s else step s a) s)) = obs (ev s) ++ t ∧
        t <+: (xs.map exp).flatten ∧
        (pan (xs.foldl (fun s a => if pan s then s else step s a) s) = false →
          t = (xs.map exp).flatten) := by
  induction xs with
  | nil =>
    intro s hs
    exact ⟨[], by simp, by simp, fun _ => by simp⟩
  | cons a rest ih =>
    intro s hs
    simp only [List.foldl_cons, hs, Bool.false_eq_true, if_false, List.map_cons,
      List.flatten_cons]
    obtain ⟨t1, h1, h2, h3⟩ := hstep s a hs
    cases hp : pan (step s a) with
    | true =>
      rw [guarded_foldl_panicked pan step rest _ hp]
      refine ⟨t1, h1, h2.trans (List.prefix_append _ _), ?_⟩
      intro h; rw [hp] at h; exact absurd h (by simp)
    | false =>
      obtain ⟨t2, g1, g2, g3⟩ := ih _ hp
      have e1 := h3 hp
      subst e1
      refine ⟨exp a ++ t2, ?_, ?_, ?_⟩
      · rw [g1, h1, List.append_assoc]
      · exact (List.prefix_append_right_inj _).2 g2
      · intro h; rw [g3 h]

theorem renderCommands_nil (env : Env) (clist : CommandList) (vertices : List Vertex)
    (indices : List Nat) (l : CmdLoop) :
    renderCommands env clist vertices indices [] l = l := rfl

theorem renderCommands_cons (env : Env) (clist : CommandList) (vertices : List Vertex)
    (indices : List Nat) (cmd : DrawCommand) (rest : List DrawCommand) (l : CmdLoop)
    (hnp : l.st.panicked = false) :
    renderCommands env clist vertices indices (cmd :: rest) l =
      renderCommands env clist vertices indices rest
        (renderCommand env clist vertices indices cmd l) := by
  simp [renderCommands, hnp]

theorem renderCommands_panicked (env : Env) (clist : CommandList) (vertices : List Vertex)
    (indices : List Nat) (cmds : List DrawCommand) (l : CmdLoop)
    (hp : l.st.panicked = true) :
    renderCommands env clist vertices indices cmds l = l := by
  induction cmds with
  | nil => rfl
  | cons cmd rest ih =>
    simp only [renderCommands, List.foldl_cons, hp, if_true]
    exact ih

theorem renderCommands_append (env : Env) (clist : CommandList) (vertices : List Vertex)
    (indices : List Nat) (xs ys : List DrawCommand) (l : CmdLoop) :
    renderCommands env clist vertices indices (xs ++ ys) l =
      renderCommands env clist vertices indices ys
        (renderCommands env clist vertices indices xs l) := by
  simp [renderCommands, List.foldl_append]

theorem drawnIndices_append (xs ys : List Event) :
    drawnIndices (xs ++ ys) = drawnIndices xs ++ drawnIndices ys := by
  simp [drawnIndices, List.filterMap_append]

theorem Resolved.drawnIndices_eq {env : Env} {s : RenderState} {id : TextureID}
    {pre : List Event} {cache : TxCache} (h : Resolved env s id pre cache) :
    drawnIndices pre = [] := by
  rcases h with ⟨tx, -, -, rfl⟩ | ⟨-, img, -, -, rfl⟩ <;> rfl

theorem renderCommands_drawn (env : Env) (clist : CommandList) (vertices : List Vertex)
    (indices : List Nat) (cmds : List DrawCommand) :
    ∀ l : CmdLoop, l.st.panicked = false →
      ∃ t, drawnIndices (renderCommands env clist vertices indices cmds l).st.events
          = drawnIndices l.st.events ++ t ∧
        t <+: slicesFrom indices cmds l.indexBufferOffset ∧
        ((renderCommands env clist vertices indices cmds l).st.panicked = false →
          t = slicesFrom indices cmds l.indexBufferOffset ∧
          (renderCommands env clist vertices indices cmds l).indexBufferOffset
            = l.indexBufferOffset + (cmds.map DrawCommand.ElementCount).sum) := by
  induction cmds with
  | nil =>
    intro l _
    exact ⟨[], by simp [renderCommands], by simp [slicesFrom], fun _ => by simp [slicesFrom, renderCommands]⟩
  | cons cmd rest ih =>
    intro l hnp
    rw [renderCommands_cons _ _ _ _ _ _ _ hnp]
    rcases renderCommand_spec env clist vertices indices cmd l hnp with
      ⟨hcb, hr⟩ | ⟨hcb, pre, cache, tx, vb, hres, -, -, -, hr⟩ | ⟨hcb, pre, cache, hr, hpre⟩
    · have hnp1 : (renderCommand env clist vertices indices cmd l).st.panicked = false := by
        rw [hr]; exact hnp
      have hoff : (renderCommand env clist vertices indices cmd l).indexBufferOffset
          = l.indexBufferOffset + cmd.ElementCount := by rw [hr]
      have hev : drawnIndices (renderCommand env clist vertices indices cmd l).st.events
          = drawnIndices l.st.events := by
        rw [hr]; simp [drawnIndices_append, drawnIndices]
      obtain ⟨t, h1, h2, h3⟩ := ih _ hnp1
      rw [hoff] at h2 h3
      rw [hev] at h1
      refine ⟨t, h1, ?_, ?_⟩
      · simpa [slicesFrom, hcb] using h2
      · intro h
        obtain ⟨h4, h5⟩ := h3 h
        refine ⟨by simpa [slicesFrom, hcb] using h4, ?_⟩
        rw [h5]; simp [Nat.add_assoc]
    · have hnp1 : (renderCommand env clist vertices indices cmd l).st.panicked = false := by
        rw [hr]
      have hoff : (renderCommand env clist vertices indices cmd l).indexBufferOffset
          = l.indexBufferOffset + cmd.ElementCount := by rw [hr]
      have hev : drawnIndices (renderCommand env clist vertices indices cmd l).st.events
          = drawnIndices l.st.events ++
            [subRange indices l.indexBufferOffset (l.indexBufferOffset + cmd.ElementCount)] := by
        rw [hr]
        simp only [drawnIndices_append, hres.drawnIndices_eq, List.append_nil]
        simp [drawnIndices, subRange]
      obtain ⟨t, h1, h2, h3⟩ := ih _ hnp1
      rw [hoff] at h2 h3
      rw [hev] at h1
      refine ⟨subRange indices l.indexBufferOffset (l.indexBufferOffset + cmd.ElementCount) :: t,
        ?_, ?_, ?_⟩
      · rw [h1]; simp
      · simp only [slicesFrom, hcb, Bool.false_eq_true, if_false, List.singleton_append]
        exact (List.prefix_cons_inj _).2 h2
      · intro h
        obtain ⟨h4, h5⟩ := h3 h
        refine ⟨?_, ?_⟩
        · simp only [slicesFrom, hcb, Bool.false_eq_true, if_false, List.singleton_append]
          rw [h4]
        · rw [h5]; simp [Nat.add_assoc]
    · have hp : (renderCommand env clist vertices indices cmd l).st.panicked = true := by
        rw [hr]
      rw [renderCommands_panicked _ _ _ _ _ _ hp]
      refine ⟨[], ?_, List.nil_prefix, ?_⟩
      · rw [hr]
        rcases hpre with ⟨pre0, hres, rfl⟩ | ⟨-, -, -, rfl⟩
        · simp [drawnIndices_append, hres.drawnIndices_eq]; rfl
        · simp [drawnIndices_append]; rfl
      · intro h; rw [hp] at h; exact absurd h (by simp)

theorem cursorAt_zero (cmds : List DrawCommand) : cursorAt cmds 0 = 0 := by
  simp [cursorAt]

theorem cursorAt_cons_succ (cmd : DrawCommand) (rest : List DrawCommand) (k : Nat) :
    cursorAt (cmd :: rest) (k + 1) = cmd.ElementCount + cursorAt rest k := by
  simp [cursorAt]

theorem cursorAt_length (cmds : List DrawCommand) :
    cursorAt cmds cmds.length = (cmds.map DrawCommand.ElementCount).sum := by
  simp [cursorAt]

theorem slicesFrom_eq (indices : List Nat) (cmds : List DrawCommand) :
    ∀ c, slicesFrom indices cmds c =
      (List.range cmds.length).filterMap fun k =>
        (cmds[k]?).bind fun cmd =>
          if cmd.HasUserCallback then none
          else some (subRange indices (c + cursorAt cmds k) (c + cursorAt cmds (k + 1))) := by
  induction cmds with
  | nil => intro c; simp [slicesFrom]
  | cons cmd rest ih =>
    intro c
    rw [slicesFrom, ih, List.length_cons, List.range_succ_eq_map, List.filterMap_cons,
      List.filterMap_map]
    have htail : (List.range rest.length).filterMap
        ((fun k => ((cmd :: rest)[k]?).bind fun cmd' =>
          if cmd'.HasUserCallback then none
          else some (subRange indices (c + cursorAt (cmd :: rest) k)
            (c + cursorAt (cmd :: rest) (k + 1)))) ∘ Nat.succ)
        = (List.range rest.length).filterMap fun k =>
          (rest[k]?).bind fun cmd' =>
            if cmd'.HasUserCallback then none
            else some (subRange indices (c + cmd.ElementCount + cursorAt rest k)
              (c + cmd.ElementCount + cursorAt rest (k + 1))) := by
      apply List.filterMap_congr
      intro k _
      simp [cursorAt_cons_succ, Nat.add_assoc]
    rw [htail]
    cases hcb : cmd.HasUserCallback <;>
      simp [hcb, cursorAt_zero, cursorAt_cons_succ]

theorem expectedSlices_eq (indices : List Nat) (cmds : List DrawCommand) :
    expectedSlices indices cmds = slicesFrom indices cmds 0 := by
  rw [slicesFrom_eq]
  simp [expectedSlices]

theorem renderCommandList_spec (env : Env) (clist : CommandList) (s : RenderState) :
    (renderCommandList env clist s =
        { s with events := s.events ++ [.decodeVertices clist], panicked := true }) ∨
    (renderCommandList env clist s =
        { s with events := s.events ++ [.decodeVertices clist, .decodeIndices clist],
                 panicked := true } ∧
      getIndices clist.IndexBuffer.1 clist.IndexBuffer.2 env.IndexBufferLayout = none) ∨
    (∃ vertices indices,
      getIndices clist.IndexBuffer.1 clist.IndexBuffer.2 env.IndexBufferLayout = some indices ∧
      getVertices env.fs env.szfloat clist.VertexBuffer.1 clist.VertexBuffer.2
        env.VertexBufferLayout.1 env.VertexBufferLayout.2.1 env.VertexBufferLayout.2.2.1
        env.VertexBufferLayout.2.2.2 = some vertices ∧
      renderCommandList env clist s =
        (renderCommands env clist vertices indices clist.Commands
          { st := { s with events := s.events ++ [.decodeVertices clist, .decodeIndices clist] }
            indexBufferOffset := 0
            vbuf := vcopy vertices }).st) := by
  cases hv : getVertices env.fs env.szfloat clist.VertexBuffer.1 clist.VertexBuffer.2
      env.VertexBufferLayout.1 env.VertexBufferLayout.2.1 env.VertexBufferLayout.2.2.1
      env.VertexBufferLayout.2.2.2 with
  | none =>
    left
    simp [renderCommandList, hv, RenderState.emit, RenderState.panic]
  | some vertices =>
    right
    cases hi : getIndices clist.IndexBuffer.1 clist.IndexBuffer.2 env.IndexBufferLayout with
    | none =>
      left
      simp [renderCommandList, hv, hi, RenderState.emit, RenderState.panic]
    | some indices =>
      right
      refine ⟨vertices, indices, rfl, rfl, ?_⟩
      simp [renderCommandList, hv, hi, RenderState.emit]

theorem renderCommandList_drawn (env : Env) (clist : CommandList) (s : RenderState)
    (hnp : s.panicked = false) :
    ∃ t, drawnIndices (renderCommandList env clist s).events = drawnIndices s.events ++ t ∧
      t <+: expectedSlices (decodedIndices env clist) clist.Commands ∧
      ((renderCommandList env clist s).panicked = false →
        t = expectedSlices (decodedIndices env clist) clist.Commands) := by
  rcases renderCommandList_spec env clist s with hr | ⟨hr, -⟩ | ⟨vertices, indices, hi, -, hr⟩
  · refine ⟨[], ?_, List.nil_prefix, ?_⟩
    · rw [hr]; simp [drawnIndices_append]; rfl
    · rw [hr]; intro h; exact absurd h (by simp)
  · refine ⟨[], ?_, List.nil_prefix, ?_⟩
    · rw [hr]; simp [drawnIndices_append]; rfl
    · rw [hr]; intro h; exact absurd h (by simp)
  · obtain ⟨t, h1, h2, h3⟩ := renderCommands_drawn env clist vertices indices clist.Commands
      { st := { s with events := s.events ++ [.decodeVertices clist, .decodeIndices clist] }
        indexBufferOffset := 0
        vbuf := vcopy vertices } hnp
    have hd : decodedIndices env clist = indices := by simp [decodedIndices, hi]
    rw [hd, expectedSlices_eq, hr]
    refine ⟨t, ?_, h2, fun h => (h3 h).1⟩
    rw [h1]
    simp [drawnIndices_append]
    rfl

theorem Render_drawn (env : Env) (drawData : DrawData) (txcache : TxCache)
    (hv : drawData.Valid = true) :
    drawnIndices (Render env drawData txcache).events <+: expectedDrawnIndices env drawData ∧
    ((Render env drawData txcache).panicked = false →
      drawnIndices (Render env drawData txcache).events = expectedDrawnIndices env drawData) := by
  obtain ⟨t, h1, h2, h3⟩ := guarded_foldl_obs RenderState.panicked RenderState.events
    (fun s clist => renderCommandList env clist s) drawnIndices
    (fun clist => expectedSlices (decodedIndices env clist) clist.Commands)
    (fun s clist hs => renderCommandList_drawn env clist s hs)
    drawData.CommandLists { txcache := txcache, events := [], panicked := false } rfl
  have hR : Render env drawData txcache =
      drawData.CommandLists.foldl
        (fun s clist => if s.panicked then s else renderCommandList env clist s)
        { txcache := txcache, events := [], panicked := false } := by
    simp [Render, hv]
  rw [hR, h1]
  refine ⟨by simpa [drawnIndices, expectedDrawnIndices] using h2, fun h => ?_⟩
  rw [h3 h]
  simp [drawnIndices, expectedDrawnIndices]

theorem Render_invalid (env : Env) (drawData : DrawData) (txcache : TxCache)
    (hv : drawData.Valid = false) :
    Render env drawData txcache = { txcache := txcache, events := [], panicked := false } := by
  simp [Render, hv]

/-! ## The invariant of `Render` -/

theorem realizations_append (id : TextureID) (xs ys : List Event) :
    realizations id (xs ++ ys) = realizations id xs + realizations id ys := by
  simp [realizations, List.countP_append]

theorem drawnTextures_append (xs ys : List Event) :
    drawnTextures (xs ++ ys) = drawnTextures xs ++ drawnTextures ys := by
  simp [drawnTextures, List.filterMap_append]

theorem handled_append (xs ys : List Event) :
    handled (xs ++ ys) = handled xs ++ handled ys := by
  simp [handled, List.filterMap_append]

theorem realizations_zero_of_missing {c0 : TxCache} {s : RenderState} (h : RenderInv c0 s)
    (hnp : s.panicked = false) {id : TextureID} (hc : s.txcache id = none) :
    realizations id s.events = 0 := by
  have h1 := h.atMostOnce id
  have h2 := (h.realized hnp id).1
  by_contra hne
  have h3 : realizations id s.events = 1 := by omega
  exact (h2 h3).2 hc

theorem initial_missing {c0 : TxCache} {s : RenderState} (h : RenderInv c0 s)
    {id : TextureID} (hc : s.txcache id = none) : c0 id = none := by
  cases h0 : c0 id with
  | none => rfl
  | some img => rw [h.keeps id img h0] at hc; exact Option.noConfusion hc

theorem RenderInv.init (c0 : TxCache) :
    RenderInv c0 { txcache := c0, events := [], panicked := false } where
  keeps := fun _ _ h => h
  inserts := by simp
  atMostOnce := by simp [realizations]
  onlyMissing := by simp [realizations]
  realized := by simp [realizations]
  drawsCached := by simp [drawnTextures]
  cached := by simp [handled]

theorem RenderInv.neutral {c0 : TxCache} {s : RenderState} (h : RenderInv c0 s)
    (es : List Event) (hes : ∀ e ∈ es, e.isNeutral = true) (p : Bool)
    (hp : p = false → s.panicked = false) :
    RenderInv c0 { txcache := s.txcache, events := s.events ++ es, panicked := p } := by
  have hr : ∀ id, realizations id es = 0 := by
    intro id
    simp only [realizations, List.countP_eq_zero]
    intro e he
    have := hes e he
    cases e <;> simp_all [Event.isNeutral, Event.isRealizeOf]
  have hd : drawnTextures es = [] := by
    simp only [drawnTextures, List.filterMap_eq_nil_iff]
    intro e he
    have := hes e he
    cases e <;> simp_all [Event.isNeutral]
  have hh : ∀ id, Handled.draw id ∉ handled es := by
    intro id hm
    simp only [handled, List.mem_filterMap] at hm
    obtain ⟨e, he, hm⟩ := hm
    have := hes e he
    cases e <;> simp_all [Event.isNeutral]
  have hi : ∀ id img, Event.insert id img ∉ es := by
    intro id img hm
    have := hes _ hm
    simp [Event.isNeutral] at this
  constructor
  · exact h.keeps
  · intro id img hm
    simp only [List.mem_append] at hm
    rcases hm with hm | hm
    · exact h.inserts id img hm
    · exact absurd hm (hi id img)
  · intro id; simp only [realizations_append, hr]; exact h.atMostOnce id
  · intro id; simp only [realizations_append, hr]; exact h.onlyMissing id
  · intro hpf id; simp only [realizations_append, hr]; exact h.realized (hp hpf) id
  · intro q hq
    simp only [drawnTextures_append, hd, List.append_nil] at hq
    exact h.drawsCached q hq
  · intro hpf id
    simp only [handled_append, List.mem_append, hh, or_false]
    exact h.cached (hp hpf) id

theorem realizations_lookup_realize (k id : TextureID) :
    realizations k [.lookup id, .realize id] = if id = k then 1 else 0 := by
  by_cases hk : id = k <;> simp [realizations, Event.isRealizeOf, hk]

theorem realizations_lookup_realize_insert (k id : TextureID) (img : Image) :
    realizations k [.lookup id, .realize id, .insert id img] = if id = k then 1 else 0 := by
  by_cases hk : id = k <;> simp [realizations, Event.isRealizeOf, hk]

theorem RenderInv.realizeFail {c0 : TxCache} {s : RenderState} (h : RenderInv c0 s)
    (hnp : s.panicked = false) (id : TextureID) (hc : s.txcache id = none) :
    RenderInv c0
      { txcache := s.txcache, events := s.events ++ [.lookup id, .realize id],
        panicked := true } := by
  have h0 := realizations_zero_of_missing h hnp hc
  have hm := initial_missing h hc
  constructor
  · exact h.keeps
  · intro k img hmem
    simp only [List.mem_append, List.mem_cons, List.mem_singleton, List.not_mem_nil,
      or_false] at hmem
    rcases hmem with hmem | hmem | hmem
    · exact h.inserts k img hmem
    · exact Event.noConfusion hmem
    · exact Event.noConfusion hmem
  · intro k
    by_cases hk : id = k
    · subst hk
      simp [realizations_append, h0, realizations_lookup_realize]
    · have := h.atMostOnce k
      simpa [realizations_append, realizations_lookup_realize, hk] using this
  · intro k
    by_cases hk : id = k
    · subst hk; intro _; exact hm
    · have := h.onlyMissing k
      simpa [realizations_append, realizations_lookup_realize, hk] using this
  · intro hp; exact absurd hp (by simp)
  · intro q hq
    have : q ∈ drawnTextures s.events := by
      simpa [drawnTextures_append, drawnTextures] using hq
    exact h.drawsCached q this
  · intro hp; exact absurd hp (by simp)

theorem Resolved.facts {env : Env} {c0 : TxCache} {s : RenderState} {id : TextureID}
    {pre : List Event} {cache : TxCache} (hres : Resolved env s id pre cache)
    (h : RenderInv c0 s) (hnp : s.panicked = false) :
    CacheExtends c0 cache ∧
    (∀ k img, Event.insert k img ∈ pre → c0 k = none) ∧
    (∀ k, realizations k (s.events ++ pre) ≤ 1) ∧
    (∀ k, realizations k (s.events ++ pre) = 1 → c0 k = none) ∧
    (∀ k, realizations k (s.events ++ pre) = 1 ↔ c0 k = none ∧ cache k ≠ none) ∧
    (∀ p, p ∈ drawnTextures s.events → p.2 = cache p.1 ∧ p.2 ≠ none) ∧
    drawnTextures pre = [] ∧ handled pre = [] ∧
    (∀ k, k ≠ id → cache k = s.txcache k) ∧ cache id ≠ none := by
  rcases hres with ⟨tx, hc, rfl, rfl⟩ | ⟨hc, img, -, rfl, rfl⟩
  · have hr : ∀ k, realizations k [Event.lookup id] = 0 := by
      intro k; simp [realizations, Event.isRealizeOf]
    refine ⟨h.keeps, ?_, ?_, ?_, ?_, h.drawsCached, rfl, rfl, fun _ _ => rfl, ?_⟩
    · intro k img hm
      simp at hm
    · intro k; rw [realizations_append, hr]; exact h.atMostOnce k
    · intro k; rw [realizations_append, hr]; exact h.onlyMissing k
    · intro k; rw [realizations_append, hr]; exact h.realized hnp k
    · rw [hc]; simp
  · have h0 := realizations_zero_of_missing h hnp hc
    have hm := initial_missing h hc
    refine ⟨?_, ?_, ?_, ?_, ?_, ?_, rfl, rfl, ?_, ?_⟩
    · intro k i hk
      have hs := h.keeps k i hk
      have hne : k ≠ id := by
        intro e; rw [e, hc] at hs; exact Option.noConfusion hs
      simp [hne, hs]
    · intro k i hmem
      simp only [List.mem_cons, List.mem_singleton, List.not_mem_nil, or_false] at hmem
      rcases hmem with hmem | hmem | hmem
      · exact Event.noConfusion hmem
      · exact Event.noConfusion hmem
      · injection hmem with e1 e2
        rw [e1]; exact hm
    · intro k
      rw [realizations_append, realizations_lookup_realize_insert]
      by_cases hk : id = k
      · subst hk; simp [h0]
      · have := h.atMostOnce k
        simpa [hk] using this
    · intro k
      rw [realizations_append, realizations_lookup_realize_insert]
      by_cases hk : id = k
      · subst hk; intro _; exact hm
      · have := h.onlyMissing k
        simpa [hk] using this
    · intro k
      rw [realizations_append, realizations_lookup_realize_insert]
      by_cases hk : id = k
      · subst hk; simp [h0, hm]
      · have := h.realized hnp k
        have hk2 : ¬ k = id := fun e => hk e.symm
        simpa [hk, hk2] using this
    · intro p hp
      obtain ⟨h1, h2⟩ := h.drawsCached p hp
      have hne : p.1 ≠ id := by
        intro e; rw [e, hc] at h1; exact h2 h1
      simp [hne, h1, h2]
      rw [← h1]; exact h2
    · intro k hk; simp [hk]
    · simp

theorem RenderInv.resolvedPanic {env : Env} {c0 : TxCache} {s : RenderState} {id : TextureID}
    {pre : List Event} {cache : TxCache} (h : RenderInv c0 s) (hnp : s.panicked = false)
    (hres : Resolved env s id pre cache) :
    RenderInv c0
      { txcache := cache, events := s.events ++ (pre ++ [.lookup id]), panicked := true } := by
  obtain ⟨f1, f2, f3, f4, -, f6, f7, -, -, -⟩ := hres.facts h hnp
  have hr : ∀ k, realizations k [Event.lookup id] = 0 := by
    intro k; simp [realizations, Event.isRealizeOf]
  constructor
  · exact f1
  · intro k img hmem
    simp only [List.mem_append, List.mem_singleton] at hmem
    rcases hmem with hmem | hmem | hmem
    · exact h.inserts k img hmem
    · exact f2 k img hmem
    · exact Event.noConfusion hmem
  · intro k; rw [← List.append_assoc, realizations_append, hr]; exact f3 k
  · intro k; rw [← List.append_assoc, realizations_append, hr]; exact f4 k
  · intro hp; exact absurd hp (by simp)
  · intro q hq
    have hl : drawnTextures [Event.lookup id] = [] := rfl
    simp only [drawnTextures_append, f7, hl, List.append_nil] at hq
    exact f6 q hq
  · intro hp; exact absurd hp (by simp)

theorem RenderInv.resolvedDraw {env : Env} {c0 : TxCache} {s : RenderState} {id : TextureID}
    {pre : List Event} {cache : TxCache} (h : RenderInv c0 s) (hnp : s.panicked = false)
    (hres : Resolved env s id pre cache) (tx : Image) (htx : cache id = some tx)
    (vb : List Vertex) (sl : List Nat) :
    RenderInv c0
      { txcache := cache
        events := s.events ++ (pre ++ [.lookup id, .lookup id, .draw id vb sl (some tx)])
        panicked := false } := by
  obtain ⟨f1, f2, f3, f4, f5, f6, f7, f8, f9, f10⟩ := hres.facts h hnp
  have hr : ∀ k, realizations k [.lookup id, .lookup id, .draw id vb sl (some tx)] = 0 := by
    intro k; simp [realizations, Event.isRealizeOf]
  constructor
  · exact f1
  · intro k img hmem
    simp only [List.mem_append, List.mem_cons, List.mem_singleton, List.not_mem_nil,
      or_false] at hmem
    rcases hmem with hmem | hmem | hmem | hmem | hmem
    · exact h.inserts k img hmem
    · exact f2 k img hmem
    · exact Event.noConfusion hmem
    · exact Event.noConfusion hmem
    · exact Event.noConfusion hmem
  · intro k; rw [← List.append_assoc, realizations_append, hr]; exact f3 k
  · intro k; rw [← List.append_assoc, realizations_append, hr]; exact f4 k
  · intro _ k; rw [← List.append_assoc, realizations_append, hr]; exact f5 k
  · intro q hq
    have hl : drawnTextures [.lookup id, .lookup id, .draw id vb sl (some tx)]
        = [(id, some tx)] := rfl
    simp only [drawnTextures_append, f7, hl, List.nil_append, List.mem_append,
      List.mem_singleton] at hq
    rcases hq with hq | rfl
    · exact f6 q hq
    · simp [htx]
  · intro _ k
    have hh : handled (s.events ++ (pre ++ [.lookup id, .lookup id, .draw id vb sl (some tx)]))
        = handled s.events ++ [Handled.draw id] := by
      simp [handled_append, f8]
      rfl
    rw [hh]
    show cache k ≠ none ↔ _
    by_cases hk : k = id
    · subst hk
      simp [f10]
    · have := h.cached hnp k
      rw [f9 k hk, this]
      simp [hk]

theorem renderCommand_inv (env : Env) (clist : CommandList) (vertices : List Vertex)
    (indices : List Nat) (c0 : TxCache) (l : CmdLoop) (cmd : DrawCommand)
    (hnp : l.st.panicked = false) (h : RenderInv c0 l.st) :
    RenderInv c0 (renderCommand env clist vertices indices cmd l).st := by
  rcases renderCommand_spec env clist vertices indices cmd l hnp with
    ⟨-, hr⟩ | ⟨-, pre, cache, tx, vb, hres, htx, -, -, hr⟩ | ⟨-, pre, cache, hr, hpre⟩
  · rw [hr]
    exact h.neutral [.callback clist cmd] (by simp [Event.isNeutral]) l.st.panicked (fun _ => hnp)
  · rw [hr]
    simp only [List.append_assoc]
    exact h.resolvedDraw hnp hres tx htx vb _
  · rw [hr]
    rcases hpre with ⟨pre0, hres, rfl⟩ | ⟨hc, -, rfl, rfl⟩
    · exact h.resolvedPanic hnp hres
    · exact h.realizeFail hnp _ hc

theorem renderCommands_inv (env : Env) (clist : CommandList) (vertices : List Vertex)
    (indices : List Nat) (c0 : TxCache) (cmds : List DrawCommand) (l : CmdLoop)
    (h : RenderInv c0 l.st) :
    RenderInv c0 (renderCommands env clist vertices indices cmds l).st :=
  guarded_foldl_inv (fun l : CmdLoop => l.st.panicked)
    (fun l cmd => renderCommand env clist vertices indices cmd l)
    (fun l => RenderInv c0 l.st)
    (fun l cmd hp hI => renderCommand_inv env clist vertices indices c0 l cmd hp hI) cmds l h

theorem renderCommandList_inv (env : Env) (c0 : TxCache) (s : RenderState) (clist : CommandList)
    (hnp : s.panicked = false) (h : RenderInv c0 s) :
    RenderInv c0 (renderCommandList env clist s) := by
  rcases renderCommandList_spec env clist s with hr | ⟨hr, -⟩ | ⟨vertices, indices, -, -, hr⟩
  · rw [hr]
    exact h.neutral _ (by simp [Event.isNeutral]) true (by simp)
  · rw [hr]
    exact h.neutral _ (by simp [Event.isNeutral]) true (by simp)
  · rw [hr]
    apply renderCommands_inv
    exact h.neutral [.decodeVertices clist, .decodeIndices clist] (by simp [Event.isNeutral])
      s.panicked (fun _ => hnp)

theorem Render_inv (env : Env) (drawData : DrawData) (txcache : TxCache) :
    RenderInv txcache (Render env drawData txcache) := by
  cases hv : drawData.Valid with
  | false =>
    rw [Render_invalid env drawData txcache hv]
    exact RenderInv.init txcache
  | true =>
    have hR : Render env drawData txcache =
        drawData.CommandLists.foldl
          (fun s clist => if s.panicked then s else renderCommandList env clist s)
          { txcache := txcache, events := [], panicked := false } := by
      simp [Render, hv]
    rw [hR]
    exact guarded_foldl_inv RenderState.panicked (fun s clist => renderCommandList env clist s)
      (RenderInv txcache)
      (fun s clist hp hI => renderCommandList_inv env txcache s clist hp hI)
      drawData.CommandLists _ (RenderInv.init txcache)

theorem Resolved.handled_eq {env : Env} {s : RenderState} {id : TextureID}
    {pre : List Event} {cache : TxCache} (h : Resolved env s id pre cache) :
    handled pre = [] := by
  rcases h with ⟨tx, -, -, rfl⟩ | ⟨-, img, -, -, rfl⟩ <;> rfl

theorem renderCommand_handled (env : Env) (clist : CommandList) (vertices : List Vertex)
    (indices : List Nat) (l : CmdLoop) (cmd : DrawCommand) (hnp : l.st.panicked = false) :
    ∃ t, handled (renderCommand env clist vertices indices cmd l).st.events
        = handled l.st.events ++ t ∧
      t <+: [expectedHandling clist cmd] ∧
      ((renderCommand env clist vertices indices cmd l).st.panicked = false →
        t = [expectedHandling clist cmd]) := by
  rcases renderCommand_spec env clist vertices indices cmd l hnp with
    ⟨hcb, hr⟩ | ⟨hcb, pre, cache, tx, vb, hres, htx, -, -, hr⟩ | ⟨-, pre, cache, hr, hpre⟩
  · refine ⟨[expectedHandling clist cmd], ?_, List.prefix_refl _, fun _ => rfl⟩
    rw [hr]
    simp only [handled_append, expectedHandling, hcb, if_true]
    rfl
  · refine ⟨[expectedHandling clist cmd], ?_, List.prefix_refl _, fun _ => rfl⟩
    rw [hr]
    simp only [handled_append, hres.handled_eq, expectedHandling, hcb, List.append_nil]
    rfl
  · refine ⟨[], ?_, List.nil_prefix, ?_⟩
    · rw [hr]
      rcases hpre with ⟨pre0, hres, rfl⟩ | ⟨-, -, -, rfl⟩
      · have hl : handled [Event.lookup cmd.TextureID] = [] := rfl
        simp only [handled_append, hres.handled_eq, hl, List.append_nil]
      · simp [handled_append, handled]
    · rw [hr]; intro hp; exact absurd hp (by simp)

theorem flatten_map_singleton {α β : Type} (f : α → β) (xs : List α) :
    (xs.map fun x => [f x]).flatten = xs.map f := by
  induction xs with
  | nil => rfl
  | cons x rest ih => simp [ih]

theorem renderCommands_handled (env : Env) (clist : CommandList) (vertices : List Vertex)
    (indices : List Nat) (cmds : List DrawCommand) (l : CmdLoop) (hnp : l.st.panicked = false) :
    ∃ t, handled (renderCommands env clist vertices indices cmds l).st.events
        = handled l.st.events ++ t ∧
      t <+: cmds.map (expectedHandling clist) ∧
      ((renderCommands env clist vertices indices cmds l).st.panicked = false →
        t = cmds.map (expectedHandling clist)) := by
  have := guarded_foldl_obs (fun l : CmdLoop => l.st.panicked) (fun l : CmdLoop => l.st.events)
    (fun l cmd => renderCommand env clist vertices indices cmd l) handled
    (fun cmd => [expectedHandling clist cmd])
    (fun l cmd hp => renderCommand_handled env clist vertices indices l cmd hp) cmds l hnp
  rw [flatten_map_singleton] at this
  exact this

theorem renderCommandList_handled (env : Env) (clist : CommandList) (s : RenderState)
    (hnp : s.panicked = false) :
    ∃ t, handled (renderCommandList env clist s).events = handled s.events ++ t ∧
      t <+: clist.Commands.map (expectedHandling clist) ∧
      ((renderCommandList env clist s).panicked = false →
        t = clist.Commands.map (expectedHandling clist)) := by
  rcases renderCommandList_spec env clist s with hr | ⟨hr, -⟩ | ⟨vertices, indices, -, -, hr⟩
  · refine ⟨[], ?_, List.nil_prefix, ?_⟩
    · rw [hr]; simp [handled_append, handled]
    · rw [hr]; intro h; exact absurd h (by simp)
  · refine ⟨[], ?_, List.nil_prefix, ?_⟩
    · rw [hr]; simp [handled_append, handled]
    · rw [hr]; intro h; exact absurd h (by simp)
  · obtain ⟨t, h1, h2, h3⟩ := renderCommands_handled env clist vertices indices clist.Commands
      { st := { s with events := s.events ++ [.decodeVertices clist, .decodeIndices clist] }
        indexBufferOffset := 0
        vbuf := vcopy vertices } hnp
    rw [hr]
    refine ⟨t, ?_, h2, h3⟩
    rw [h1]
    simp [handled_append, handled]

theorem Render_handled (env : Env) (drawData : DrawData) (txcache : TxCache)
    (hv : drawData.Valid = true) :
    handled (Render env drawData txcache).events <+: expectedHandled drawData ∧
    ((Render env drawData txcache).panicked = false →
      handled (Render env drawData txcache).events = expectedHandled drawData) := by
  obtain ⟨t, h1, h2, h3⟩ := guarded_foldl_obs RenderState.panicked RenderState.events
    (fun s clist => renderCommandList env clist s) handled
    (fun clist => clist.Commands.map (expectedHandling clist))
    (fun s clist hs => renderCommandList_handled env clist s hs)
    drawData.CommandLists { txcache := txcache, events := [], panicked := false } rfl
  have hR : Render env drawData txcache =
      drawData.CommandLists.foldl
        (fun s clist => if s.panicked then s else renderCommandList env clist s)
        { txcache := txcache, events := [], panicked := false } := by
    simp [Render, hv]
  have hE : expectedHandled drawData
      = (drawData.CommandLists.map fun clist =>
          clist.Commands.map (expectedHandling clist)).flatten := rfl
  rw [hR, h1, hE]
  refine ⟨by simpa [handled] using h2, fun h => ?_⟩
  rw [h3 h]
  simp [handled]

theorem countP_isDraw_handled (evs : List Event) :
    evs.countP Event.isDraw = (handled evs).countP Handled.isDraw := by
  induction evs with
  | nil => rfl
  | cons e rest ih =>
    have hc : handled (e :: rest) = handled [e] ++ handled rest := by
      rw [← handled_append]; rfl
    rw [hc, List.countP_append, List.countP_cons, ih, Nat.add_comm]
    cases e <;> rfl

theorem countP_isCallback_handled (evs : List Event) :
    evs.countP Event.isCallback = (handled evs).countP Handled.isCallback := by
  induction evs with
  | nil => rfl
  | cons e rest ih =>
    have hc : handled (e :: rest) = handled [e] ++ handled rest := by
      rw [← handled_append]; rfl
    rw [hc, List.countP_append, List.countP_cons, ih, Nat.add_comm]
    cases e <;> rfl

theorem expectedHandled_countP_isDraw (drawData : DrawData) :
    (expectedHandled drawData).countP Handled.isDraw
      = (allCommands drawData).countP (fun c => !c.HasUserCallback) := by
  unfold expectedHandled allCommands
  induction drawData.CommandLists with
  | nil => rfl
  | cons clist rest ih =>
    simp only [List.map_cons, List.flatten_cons, List.countP_append, ih, List.countP_map]
    congr 1
    apply List.countP_congr
    intro c _
    cases hc : c.HasUserCallback <;> simp [expectedHandling, hc, Handled.isDraw]

theorem expectedHandled_countP_isCallback (drawData : DrawData) :
    (expectedHandled drawData).countP Handled.isCallback
      = (allCommands drawData).countP (fun c => c.HasUserCallback) := by
  unfold expectedHandled allCommands
  induction drawData.CommandLists with
  | nil => rfl
  | cons clist rest ih =>
    simp only [List.map_cons, List.flatten_cons, List.countP_append, ih, List.countP_map]
    congr 1
    apply List.countP_congr
    intro c _
    cases hc : c.HasUserCallback <;> simp [expectedHandling, hc, Handled.isCallback]

theorem mem_expectedHandled_draw (drawData : DrawData) (id : TextureID) :
    Handled.draw id ∈ expectedHandled drawData ↔
      ∃ cmd ∈ allCommands drawData, cmd.HasUserCallback = false ∧ cmd.TextureID = id := by
  simp only [expectedHandled, allCommands, List.mem_flatten, List.mem_map]
  constructor
  · rintro ⟨l, ⟨clist, hcl, rfl⟩, hm⟩
    simp only [List.mem_map] at hm
    obtain ⟨cmd, hcmd, he⟩ := hm
    refine ⟨cmd, ⟨_, ⟨clist, hcl, rfl⟩, hcmd⟩, ?_⟩
    cases hc : cmd.HasUserCallback with
    | true => simp [expectedHandling, hc] at he
    | false =>
      simp only [expectedHandling, hc, Bool.false_eq_true, if_false] at he
      injection he with he
      exact ⟨rfl, he⟩
  · rintro ⟨cmd, ⟨l, ⟨clist, hcl, rfl⟩, hcmd⟩, hc, rfl⟩
    refine ⟨_, ⟨clist, hcl, rfl⟩, ?_⟩
    simp only [List.mem_map]
    exact ⟨cmd, hcmd, by simp [expectedHandling, hc]⟩

/-! ## Theorems about `Render` -/

/-- C6: in every command list the index cursor starts at 0 and, after the first
`k` commands have run, stands at `c_0 + ... + c_{k-1}`, callback or not; the
index slices handed to the draws are, in order, the sub-ranges
`[c_0 + ... + c_{k-1}, c_0 + ... + c_k)` of the list's decoded indices for
the non-callback commands `k`: always an initial segment of them, and all of
them when the frame is valid and `Render` does not panic.  Counts 3, 5, 2
give the cursor values 0, 3, 8, 10 and the draws `[0,1,2]` and `[8,9]`. -/
theorem Render_index_cursor (env : Env) (drawData : DrawData) (txcache : TxCache) :
    (∀ (clist : CommandList) (vertices : List Vertex) (indices : List Nat)
        (s : RenderState) (vbuf : List Vertex) (k : Nat),
      (renderCommands env clist vertices indices (clist.Commands.take k)
          ⟨s, 0, vbuf⟩).st.panicked = false →
      (renderCommands env clist vertices indices (clist.Commands.take k)
          ⟨s, 0, vbuf⟩).indexBufferOffset = cursorAt clist.Commands k) ∧
    drawnIndices (Render env drawData txcache).events <+: expectedDrawnIndices env drawData ∧
    (drawData.Valid = true → (Render env drawData txcache).panicked = false →
      drawnIndices (Render env drawData txcache).events = expectedDrawnIndices env drawData) ∧
    ((List.range 4).map (fun k =>
        (renderCommands exampleEnv exampleList [] (List.range 10) (exampleCommands.take k)
          ⟨⟨emptyCache, [], false⟩, 0, []⟩).indexBufferOffset) = [0, 3, 8, 10] ∧
      (Render exampleEnv exampleDrawData emptyCache).panicked = false ∧
      drawnIndices (Render exampleEnv exampleDrawData emptyCache).events
        = [[0, 1, 2], [8, 9]]) := by
  refine ⟨?_, ?_, ?_, by decide, by decide, by decide⟩
  · intro clist vertices indices s vbuf k h
    cases hs : s.panicked with
    | true =>
      rw [renderCommands_panicked _ _ _ _ _ _ hs] at h
      rw [hs] at h
      exact absurd h (by simp)
    | false =>
      obtain ⟨t, -, -, h3⟩ := renderCommands_drawn env clist vertices indices
        (clist.Commands.take k) ⟨s, 0, vbuf⟩ hs
      rw [(h3 h).2]
      simp [cursorAt]
  · cases hv : drawData.Valid with
    | true => exact (Render_drawn env drawData txcache hv).1
    | false =>
      rw [Render_invalid env drawData txcache hv]
      exact List.nil_prefix
  · intro hv
    exact (Render_drawn env drawData txcache hv).2

/-- C7: for every run of `Render`, an entry `txcache id = some img` present
before the call is still present, with the same texture, after the call
(whether or not the call panics), and no insertion for that key occurs in the
trace. -/
theorem Render_keeps_cache_entries (env : Env) (drawData : DrawData) (txcache : TxCache)
    (id : TextureID) (img : Image) (h : txcache id = some img) :
    (Render env drawData txcache).txcache id = some img ∧
    ∀ img', Event.insert id img' ∉ (Render env drawData txcache).events := by
  have hI := Render_inv env drawData txcache
  refine ⟨hI.keeps id img h, fun img' hm => ?_⟩
  have := hI.inserts id img' hm
  rw [h] at this
  exact Option.noConfusion this

/-- C7, on the synthetic frame with key 7 cached beforehand. -/
theorem Render_keeps_cache_entries_witness :
    seededCache 7 = some exampleImage ∧
    (Render exampleEnv exampleDrawData seededCache).txcache 7 = some exampleImage ∧
    ∀ img', Event.insert 7 img' ∉ (Render exampleEnv exampleDrawData seededCache).events :=
  ⟨rfl, Render_keeps_cache_entries exampleEnv exampleDrawData seededCache 7 exampleImage rfl⟩

/-- C9: when the validity check returns false, `Render` takes no step at all
(the trace is empty: no draw, no cache lookup or insertion, no callback, no
decode), leaves the cache unchanged and does not panic. -/
theorem Render_invalid_is_noop (env : Env) (drawData : DrawData) (txcache : TxCache)
    (h : drawData.Valid = false) :
    (Render env drawData txcache).events = [] ∧
    (Render env drawData txcache).txcache = txcache ∧
    (Render env drawData txcache).panicked = false := by
  rw [Render_invalid env drawData txcache h]
  exact ⟨rfl, rfl, rfl⟩

/-- C9, on the synthetic frame reported invalid. -/
theorem Render_invalid_is_noop_witness :
    invalidDrawData.Valid = false ∧
    (Render exampleEnv invalidDrawData seededCache).events = [] ∧
    (Render exampleEnv invalidDrawData seededCache).txcache = seededCache ∧
    (Render exampleEnv invalidDrawData seededCache).panicked = false :=
  ⟨rfl, Render_invalid_is_noop exampleEnv invalidDrawData seededCache rfl⟩

/-- C8 (as stated, refuted): on a valid frame `Render` can stop with a panic
before a missing key is realised.  With the unsupported index width 3 the key
7 of the synthetic frame is never realised; with a first command that
overruns the empty index buffer the key 8 of the second command is never
realised.  Both keys are absent from the cache and sit on non-callback
commands. -/
theorem Render_panic_skips_realization :
    exampleDrawData.Valid = true ∧ emptyCache 7 = none ∧
    (∃ cmd ∈ allCommands exampleDrawData, cmd.HasUserCallback = false ∧ cmd.TextureID = 7) ∧
    realizations 7 (Render badWidthEnv exampleDrawData emptyCache).events = 0 ∧
    overrunDrawData.Valid = true ∧ emptyCache 8 = none ∧
    (∃ cmd ∈ allCommands overrunDrawData, cmd.HasUserCallback = false ∧ cmd.TextureID = 8) ∧
    realizations 8 (Render exampleEnv overrunDrawData emptyCache).events = 0 := by
  refine ⟨rfl, rfl, ⟨⟨3, false, 7⟩, ?_, rfl, rfl⟩, by decide, rfl, rfl,
    ⟨⟨0, false, 8⟩, ?_, rfl, rfl⟩, by decide⟩
  · simp [allCommands, exampleDrawData, exampleList, exampleCommands]
  · simp [allCommands, overrunDrawData]

/-- C8 (amended): for every run of `Render` on a valid frame, the texture
realisation is invoked at most once per key and never for a key cached at the
start; when the run does not panic it is invoked exactly once for each key
that is absent from the initial cache and occurs on a non-callback command,
and for no other key; and every draw is issued with the texture the cache
holds for the command's key, so all draws of one key use the same texture. -/
theorem Render_realizes_missing_keys_once (env : Env) (drawData : DrawData)
    (txcache : TxCache) (hv : drawData.Valid = true) :
    (∀ id, realizations id (Render env drawData txcache).events ≤ 1) ∧
    (∀ id, txcache id ≠ none → realizations id (Render env drawData txcache).events = 0) ∧
    ((Render env drawData txcache).panicked = false →
      ∀ id, (realizations id (Render env drawData txcache).events = 1 ↔
        txcache id = none ∧
          ∃ cmd ∈ allCommands drawData, cmd.HasUserCallback = false ∧ cmd.TextureID = id)) ∧
    (∀ p, p ∈ drawnTextures (Render env drawData txcache).events →
      p.2 = (Render env drawData txcache).txcache p.1 ∧ p.2 ≠ none) := by
  have hI := Render_inv env drawData txcache
  refine ⟨hI.atMostOnce, ?_, ?_, hI.drawsCached⟩
  · intro id hne
    have h1 := hI.atMostOnce id
    have h2 := hI.onlyMissing id
    by_contra h0
    exact hne (h2 (by omega))
  · intro hnp id
    rw [hI.realized hnp id, hI.cached hnp id, (Render_handled env drawData txcache hv).2 hnp,
      mem_expectedHandled_draw]
    constructor
    · rintro ⟨h0, h | h⟩
      · exact absurd h0 h
      · exact ⟨h0, h⟩
    · rintro ⟨h0, h⟩
      exact ⟨h0, Or.inr h⟩

/-- C8 (amended), on the synthetic frame with an empty cache: the run
completes and key 7, used by two commands, is realised once. -/
theorem Render_realizes_missing_keys_once_witness :
    exampleDrawData.Valid = true ∧
    (Render exampleEnv exampleDrawData emptyCache).panicked = false ∧
    realizations 7 (Render exampleEnv exampleDrawData emptyCache).events = 1 ∧
    ((∀ id, realizations id (Render exampleEnv exampleDrawData emptyCache).events ≤ 1) ∧
    (∀ id, emptyCache id ≠ none →
      realizations id (Render exampleEnv exampleDrawData emptyCache).events = 0) ∧
    ((Render exampleEnv exampleDrawData emptyCache).panicked = false →
      ∀ id, (realizations id (Render exampleEnv exampleDrawData emptyCache).events = 1 ↔
        emptyCache id = none ∧
          ∃ cmd ∈ allCommands exampleDrawData,
            cmd.HasUserCallback = false ∧ cmd.TextureID = id)) ∧
    (∀ p, p ∈ drawnTextures (Render exampleEnv exampleDrawData emptyCache).events →
      p.2 = (Render exampleEnv exampleDrawData emptyCache).txcache p.1 ∧ p.2 ≠ none)) :=
  ⟨rfl, by decide, by decide,
    Render_realizes_missing_keys_once exampleEnv exampleDrawData emptyCache rfl⟩

/-- C10 (as stated, refuted): on a valid frame the number of draws can fall
short of the number of non-callback commands.  A first command overrunning
the empty index buffer panics before any draw (0 draws, 2 non-callback
commands); with the unsupported index width 3 the synthetic frame panics in
the index decode (0 draws and 0 callbacks for 2 non-callback and 1 callback
command). -/
theorem Render_panic_skips_commands :
    overrunDrawData.Valid = true ∧
    (allCommands overrunDrawData).countP (fun c => !c.HasUserCallback) = 2 ∧
    (Render exampleEnv overrunDrawData emptyCache).events.countP Event.isDraw = 0 ∧
    exampleDrawData.Valid = true ∧
    (allCommands exampleDrawData).countP (fun c => !c.HasUserCallback) = 2 ∧
    (allCommands exampleDrawData).countP (fun c => c.HasUserCallback) = 1 ∧
    (Render badWidthEnv exampleDrawData emptyCache).events.countP Event.isDraw = 0 ∧
    (Render badWidthEnv exampleDrawData emptyCache).events.countP Event.isCallback = 0 := by
  decide

/-- C10 (amended): for every valid frame, the callbacks and draws of the trace
are, in command order, an initial segment of one handling per command (the
callback for a callback command, a draw for any other); when `Render` does not
panic they are exactly one handling per command, hence the number of draws
equals the number of non-callback commands and the number of callback
invocations equals the number of callback commands.  A callback command only
appends its callback (with its command list) to the trace: no lookup, no
insertion, no draw, cache unchanged.  A non-callback command that does not
panic appends cache steps followed by exactly one draw. -/
theorem Render_one_handling_per_command (env : Env) (drawData : DrawData) (txcache : TxCache)
    (hv : drawData.Valid = true) :
    handled (Render env drawData txcache).events <+: expectedHandled drawData ∧
    ((Render env drawData txcache).panicked = false →
      handled (Render env drawData txcache).events = expectedHandled drawData ∧
      (Render env drawData txcache).events.countP Event.isDraw
        = (allCommands drawData).countP (fun c => !c.HasUserCallback) ∧
      (Render env drawData txcache).events.countP Event.isCallback
        = (allCommands drawData).countP (fun c => c.HasUserCallback)) ∧
    (∀ (clist : CommandList) (vertices : List Vertex) (indices : List Nat)
        (cmd : DrawCommand) (l : CmdLoop), cmd.HasUserCallback = true →
      renderCommand env clist vertices indices cmd l =
        { st := { l.st with events := l.st.events ++ [.callback clist cmd] }
          indexBufferOffset := l.indexBufferOffset + cmd.ElementCount
          vbuf := l.vbuf }) ∧
    (∀ (clist : CommandList) (vertices : List Vertex) (indices : List Nat)
        (cmd : DrawCommand) (l : CmdLoop), cmd.HasUserCallback = false →
      l.st.panicked = false →
      (renderCommand env clist vertices indices cmd l).st.panicked = false →
      ∃ pre vb sl tex,
        (renderCommand env clist vertices indices cmd l).st.events
          = l.st.events ++ pre ++ [.draw cmd.TextureID vb sl tex] ∧
        ∀ e ∈ pre, e.isCacheStep = true) := by
  refine ⟨(Render_handled env drawData txcache hv).1, ?_, ?_, ?_⟩
  · intro hnp
    have hh := (Render_handled env drawData txcache hv).2 hnp
    refine ⟨hh, ?_, ?_⟩
    · rw [countP_isDraw_handled, hh, expectedHandled_countP_isDraw]
    · rw [countP_isCallback_handled, hh, expectedHandled_countP_isCallback]
  · intro clist vertices indices cmd l hcb
    simp [renderCommand, hcb, RenderState.emit]
  · intro clist vertices indices cmd l hcb hl hr
    rcases renderCommand_spec env clist vertices indices cmd l hl with
      ⟨hcb', -⟩ | ⟨-, pre, cache, tx, vb, hres, -, -, -, he⟩ | ⟨-, pre, cache, he, -⟩
    · rw [hcb] at hcb'; exact absurd hcb' (by simp)
    · refine ⟨pre ++ [.lookup cmd.TextureID, .lookup cmd.TextureID], vb,
        (indices.drop l.indexBufferOffset).take cmd.ElementCount, some tx, ?_, ?_⟩
      · rw [he]; simp
      · intro e hm
        simp only [List.mem_append, List.mem_cons, List.mem_singleton, List.not_mem_nil,
          or_false] at hm
        rcases hres with ⟨_, -, -, rfl⟩ | ⟨-, _, -, -, rfl⟩
        · rcases hm with hm | hm | hm
          · simp only [List.mem_singleton] at hm; subst hm; rfl
          · subst hm; rfl
          · subst hm; rfl
        · rcases hm with hm | hm | hm
          · simp only [List.mem_cons, List.mem_singleton, List.not_mem_nil, or_false] at hm
            rcases hm with hm | hm | hm <;> subst hm <;> rfl
          · subst hm; rfl
          · subst hm; rfl
    · rw [he] at hr; exact absurd hr (by simp)

/-- C10 (amended), on the synthetic frame: the run completes with 2 draws and
1 callback for its 2 non-callback commands and 1 callback command. -/
theorem Render_one_handling_per_command_witness :
    exampleDrawData.Valid = true ∧
    (Render exampleEnv exampleDrawData emptyCache).panicked = false ∧
    (Render exampleEnv exampleDrawData emptyCache).events.countP Event.isDraw = 2 ∧
    (Render exampleEnv exampleDrawData emptyCache).events.countP Event.isCallback = 1 ∧
    handled (Render exampleEnv exampleDrawData emptyCache).events
      = expectedHandled exampleDrawData :=
  ⟨rfl, by decide, by decide, by decide,
    ((Render_one_handling_per_command exampleEnv exampleDrawData emptyCache rfl).2.1
      (by decide)).1⟩

/-! ## UV rescaling -/

theorem vmultiply_some (v vbuf : List Vertex) (bmin bmax : Point)
    (h : vbuf.length ≤ v.length) :
    vmultiply v vbuf bmin bmax =
      some (List.zipWith
        (fun (b a : Vertex) =>
          { b with SrcX := lerp bmin.X bmax.X a.SrcX, SrcY := lerp bmin.Y bmax.Y a.SrcY })
        vbuf v) := by
  have : ¬ v.length < vbuf.length := by omega
  simp [vmultiply, this]

theorem vmultiply_length (v vbuf out : List Vertex) (bmin bmax : Point)
    (h : vmultiply v vbuf bmin bmax = some out) :
    out.length = vbuf.length ∧ vbuf.length ≤ v.length := by
  unfold vmultiply at h
  by_cases hl : v.length < vbuf.length
  · simp [hl] at h
  · simp only [hl, if_false, Option.some.injEq] at h
    subst h
    simp
    omega

theorem vmultiply_vcopy (v : List Vertex) (bmin bmax : Point) :
    vmultiply v (vcopy v) bmin bmax = some (v.map (rescaleUV bmin bmax)) := by
  rw [vmultiply_some v (vcopy v) bmin bmax (by simp [vcopy])]
  simp [vcopy, rescaleUV]

theorem lerp_eq (a b : Int) (t : ℚ) : lerp a b t = (a : ℚ) + t * ((b : ℚ) - (a : ℚ)) := by
  unfold lerp; ring

/-- C11 (as stated, refuted): for the vertex with UV `(0, 1)` and bounds
`(0,0)-(64,32)`, `vmultiply` gives `v' = 32`, computed from `v`, where the
formula `min.y + u * (max.y - min.y)` written with `u` gives 0. -/
theorem vmultiply_v_axis_uses_v :
    ∃ out, vmultiply [uvVertex 0 1] (vcopy [uvVertex 0 1]) ⟨0, 0⟩ ⟨64, 32⟩ = some [out] ∧
      out.SrcY = 32 ∧
      ((0 : Int) : ℚ) + (uvVertex 0 1).SrcX * (((32 : Int) : ℚ) - ((0 : Int) : ℚ)) = 0 ∧
      out.SrcY ≠ ((0 : Int) : ℚ) + (uvVertex 0 1).SrcX * (((32 : Int) : ℚ) - ((0 : Int) : ℚ)) := by
  refine ⟨_, by simp [vmultiply, vcopy]; rfl, ?_, ?_, ?_⟩ <;> norm_num [lerp, uvVertex]

/-- C11 (amended): for every source sequence `v`, working copy `vbuf` no
longer than `v`, and bounds `(min, max)`, `vmultiply` gives each vertex with
input UV `(u, v)` the output UV `u' = min.x + u * (max.x - min.x)` and
`v' = min.y + v * (max.y - min.y)`, each axis from its own coordinate, in
exact arithmetic. -/
theorem vmultiply_formula (v vbuf : List Vertex) (bmin bmax : Point)
    (h : vbuf.length ≤ v.length) :
    ∃ out, vmultiply v vbuf bmin bmax = some out ∧ out.length = vbuf.length ∧
      ∀ (i : Nat) (a b : Vertex), v[i]? = some a → vbuf[i]? = some b →
        ∃ c, out[i]? = some c ∧
          c.SrcX = (bmin.X : ℚ) + a.SrcX * ((bmax.X : ℚ) - (bmin.X : ℚ)) ∧
          c.SrcY = (bmin.Y : ℚ) + a.SrcY * ((bmax.Y : ℚ) - (bmin.Y : ℚ)) := by
  refine ⟨_, vmultiply_some v vbuf bmin bmax h, by simp [h], ?_⟩
  intro i a b ha hb
  refine ⟨_, by simp [List.getElem?_zipWith, ha, hb]; rfl, ?_, ?_⟩
  · exact lerp_eq _ _ _
  · exact lerp_eq _ _ _

/-- C11 (amended), at the one-vertex sequence with UV `(0, 1)`. -/
theorem vmultiply_formula_witness :
    [uvVertex 0 1].length ≤ [uvVertex 0 1].length ∧
    ∃ out, vmultiply [uvVertex 0 1] [uvVertex 0 1] ⟨0, 0⟩ ⟨64, 32⟩ = some out ∧
      out.length = [uvVertex 0 1].length ∧
      ∀ (i : Nat) (a b : Vertex), [uvVertex 0 1][i]? = some a → [uvVertex 0 1][i]? = some b →
        ∃ c, out[i]? = some c ∧
          c.SrcX = ((0 : Int) : ℚ) + a.SrcX * (((64 : Int) : ℚ) - ((0 : Int) : ℚ)) ∧
          c.SrcY = ((0 : Int) : ℚ) + a.SrcY * (((32 : Int) : ℚ) - ((0 : Int) : ℚ)) :=
  ⟨Nat.le_refl _, vmultiply_formula [uvVertex 0 1] [uvVertex 0 1] ⟨0, 0⟩ ⟨64, 32⟩ (Nat.le_refl _)⟩

/-- C12: for every vertex sequence and bounds `(min, max)`, `vmultiply` sends
a vertex with UV `(0,0)` to `(min.x, min.y)`, one with UV `(1,1)` to
`(max.x, max.y)` and one with UV `(1/2,1/2)` to the midpoint
`((min.x+max.x)/2, (min.y+max.y)/2)`; for bounds `(0,0)-(64,32)` the midpoint
is `(32, 16)`. -/
theorem vmultiply_corners (v : List Vertex) (bmin bmax : Point) :
    (∃ out, vmultiply v (vcopy v) bmin bmax = some out ∧
      ∀ (i : Nat) (a : Vertex), v[i]? = some a →
        ∃ c, out[i]? = some c ∧
          (a.SrcX = 0 → a.SrcY = 0 → c.SrcX = bmin.X ∧ c.SrcY = bmin.Y) ∧
          (a.SrcX = 1 → a.SrcY = 1 → c.SrcX = bmax.X ∧ c.SrcY = bmax.Y) ∧
          (a.SrcX = 1 / 2 → a.SrcY = 1 / 2 →
            c.SrcX = ((bmin.X : ℚ) + bmax.X) / 2 ∧ c.SrcY = ((bmin.Y : ℚ) + bmax.Y) / 2)) ∧
    (vmultiply [uvVertex (1 / 2) (1 / 2)] (vcopy [uvVertex (1 / 2) (1 / 2)]) ⟨0, 0⟩ ⟨64, 32⟩).map
        (List.map fun c => (c.SrcX, c.SrcY)) = some [(32, 16)] := by
  constructor
  · refine ⟨_, vmultiply_vcopy v bmin bmax, ?_⟩
    intro i a ha
    refine ⟨rescaleUV bmin bmax a, by simp [ha], ?_, ?_, ?_⟩
    · intro h1 h2; simp [rescaleUV, lerp, h1, h2]
    · intro h1 h2; simp [rescaleUV, lerp, h1, h2]
    · intro h1 h2
      simp only [rescaleUV, lerp, h1, h2]
      constructor <;> ring
  · rw [vmultiply_vcopy]
    simp [rescaleUV, lerp, uvVertex]
    norm_num

/-! ## `vcopy` and `vmultiply` on explicit storage -/

theorem vmultiplyIter_eq (bmin bmax : Point) (τ : VertexStore) (v vbuf k : Nat)
    (a b : Vertex) (hne : v ≠ vbuf) (ha : (τ v)[k]? = some a) (hb : (τ vbuf)[k]? = some b) :
    vmultiplyIter bmin bmax v vbuf τ k =
      some (fun c => if c = vbuf then
          (τ vbuf).set k
            { b with SrcX := lerp bmin.X bmax.X a.SrcX, SrcY := lerp bmin.Y bmax.Y a.SrcY }
        else τ c) := by
  have hne' : ¬ v = vbuf := hne
  have hk : k < (τ vbuf).length := by
    rcases Nat.lt_or_ge k (τ vbuf).length with h | h
    · exact h
    · rw [List.getElem?_eq_none h] at hb; exact Option.noConfusion hb
  simp only [vmultiplyIter, storeUpdate, ha, hb, hne', if_false, if_true,
    List.getElem?_set, hk, List.set_set]
  congr 1
  funext c
  by_cases hc : c = vbuf <;> simp [hc]

theorem vmultiplyIter_step (bmin bmax : Point) (σ : VertexStore) (v vbuf k : Nat)
    (τ : VertexStore) (hne : v ≠ vbuf) (h : AfterIters bmin bmax σ v vbuf k τ)
    (hk : k < (σ vbuf).length) (hk' : k < (σ v).length) :
    ∃ τ', vmultiplyIter bmin bmax v vbuf τ k = some τ' ∧
      AfterIters bmin bmax σ v vbuf (k + 1) τ' := by
  obtain ⟨h1, h2, h3⟩ := h
  have hv : τ v = σ v := h1 v hne
  have ha : (τ v)[k]? = some ((σ v)[k]) := by rw [hv]; exact List.getElem?_eq_getElem hk'
  have hb : (τ vbuf)[k]? = some ((σ vbuf)[k]) := by
    rw [h3 k]; simp [List.getElem?_eq_getElem hk]
  refine ⟨_, vmultiplyIter_eq bmin bmax τ v vbuf k _ _ hne ha hb, ?_, ?_, ?_⟩
  · intro a hane
    simp [hane, h1 a hane]
  · simp [h2]
  · intro j
    simp only [if_true]
    by_cases hj : j = k
    · subst hj
      simp [List.getElem?_set, h2, hk, List.getElem?_zipWith,
        List.getElem?_eq_getElem hk, List.getElem?_eq_getElem hk']
    · have hjk : ¬ k = j := fun e => hj e.symm
      simp only [List.getElem?_set, hjk, if_false]
      rw [h3 j]
      by_cases hlt : j < k
      · have : j < k + 1 := by omega
        simp [hlt, this]
      · have : ¬ j < k + 1 := by omega
        simp [hlt, this]

theorem vmultiplyInPlace_iters (bmin bmax : Point) (σ : VertexStore) (v vbuf : Nat)
    (hne : v ≠ vbuf) :
    ∀ k, k ≤ (σ vbuf).length → k ≤ (σ v).length →
      ∃ τ, (List.range k).foldlM (fun τ i => vmultiplyIter bmin bmax v vbuf τ i) σ = some τ ∧
        AfterIters bmin bmax σ v vbuf k τ := by
  intro k
  induction k with
  | zero =>
    intro _ _
    exact ⟨σ, rfl, fun _ _ => rfl, rfl, fun j => by simp⟩
  | succ k ih =>
    intro h1 h2
    obtain ⟨τ, ht, hI⟩ := ih (by omega) (by omega)
    obtain ⟨τ', ht', hI'⟩ := vmultiplyIter_step bmin bmax σ v vbuf k τ hne hI (by omega) (by omega)
    refine ⟨τ', ?_, hI'⟩
    rw [List.range_succ, List.foldlM_append, ht]
    simp [ht']

theorem vmultiplyInPlace_short (bmin bmax : Point) (σ : VertexStore) (v vbuf : Nat)
    (hne : v ≠ vbuf) :
    ∀ n, (σ v).length < n → n ≤ (σ vbuf).length →
      (List.range n).foldlM (fun τ i => vmultiplyIter bmin bmax v vbuf τ i) σ = none := by
  intro n
  induction n with
  | zero => intro h; omega
  | succ n ih =>
    intro h1 h2
    rw [List.range_succ, List.foldlM_append]
    rcases Nat.lt_or_ge (σ v).length n with hlt | hge
    · rw [ih hlt (by omega)]; rfl
    · have hn : n = (σ v).length := by omega
      obtain ⟨τ, ht, hI⟩ := vmultiplyInPlace_iters bmin bmax σ v vbuf hne n (by omega) (by omega)
      rw [ht]
      have hv : τ v = σ v := hI.1 v hne
      have : (τ v)[n]? = none := by
        rw [hv]; exact List.getElem?_eq_none (by omega)
      simp [vmultiplyIter, this]

/-- On distinct arrays the loop on the store computes `vmultiply` on the
contents: it panics in the same case, and otherwise replaces the array of
`vbuf` and nothing else. -/
theorem vmultiplyInPlace_eq (bmin bmax : Point) (σ : VertexStore) (v vbuf : Nat)
    (hne : v ≠ vbuf) :
    vmultiplyInPlace σ v vbuf bmin bmax =
      (vmultiply (σ v) (σ vbuf) bmin bmax).map
        (fun out => fun a => if a = vbuf then out else σ a) := by
  unfold vmultiplyInPlace
  rcases Nat.lt_or_ge (σ v).length (σ vbuf).length with hlt | hge
  · rw [vmultiplyInPlace_short bmin bmax σ v vbuf hne _ hlt (Nat.le_refl _)]
    simp [vmultiply, hlt]
  · obtain ⟨τ, ht, h1, h2, h3⟩ :=
      vmultiplyInPlace_iters bmin bmax σ v vbuf hne _ (Nat.le_refl _) hge
    rw [ht]
    have hnl : ¬ (σ v).length < (σ vbuf).length := by omega
    simp only [vmultiply, hnl, if_false, Option.map_some', Option.some.injEq]
    funext a
    by_cases ha : a = vbuf
    · subst ha
      simp only [if_true]
      apply List.ext_getElem?
      intro j
      rw [h3 j]
      by_cases hj : j < (σ a).length
      · simp [hj]
      · simp only [hj, if_false]
        rw [List.getElem?_eq_none (by omega), List.getElem?_eq_none (by simp; omega)]
    · simp [ha, h1 a ha]

/-- C13: take any store, a source slice `v` and the fresh array `vcopy`
allocates.  After `vbuf = vcopy(v)` and `vmultiply(v, vbuf, min, max)` the
call has succeeded, the array of `v` and every array other than the working
copy are unchanged, the working copy has the length of `v` (it holds what
`vmultiply` computes on the contents), and each of its vertices has `DstX`,
`DstY`, `ColorR`, `ColorG`, `ColorB`, `ColorA` of the corresponding vertex of
`v`. -/
theorem vcopy_vmultiply_frame (σ : VertexStore) (v fresh : Nat) (bmin bmax : Point)
    (hf : fresh ≠ v) :
    ∃ τ, vmultiplyInPlace (vcopyInto σ fresh v) v fresh bmin bmax = some τ ∧
      τ v = σ v ∧ (∀ a, a ≠ fresh → τ a = σ a) ∧
      (τ fresh).length = (σ v).length ∧
      vmultiply (σ v) (vcopy (σ v)) bmin bmax = some (τ fresh) ∧
      ∀ (i : Nat) (a : Vertex), (σ v)[i]? = some a →
        ∃ c, (τ fresh)[i]? = some c ∧
          c.DstX = a.DstX ∧ c.DstY = a.DstY ∧ c.ColorR = a.ColorR ∧ c.ColorG = a.ColorG ∧
          c.ColorB = a.ColorB ∧ c.ColorA = a.ColorA := by
  have hne : v ≠ fresh := fun e => hf e.symm
  have hv : vcopyInto σ fresh v v = σ v := by simp [vcopyInto, hne]
  have hb : vcopyInto σ fresh v fresh = σ v := by simp [vcopyInto]
  have hm := vmultiply_vcopy (σ v) bmin bmax
  refine ⟨fun a => if a = fresh then (σ v).map (rescaleUV bmin bmax) else vcopyInto σ fresh v a,
    ?_, ?_, ?_, ?_, ?_, ?_⟩
  · rw [vmultiplyInPlace_eq bmin bmax _ v fresh hne, hv, hb]
    simp only [vcopy] at hm
    rw [hm]
    rfl
  · simp [hne, hv]
  · intro a ha
    simp [ha, vcopyInto]
  · simp
  · simp only [if_true]
    exact hm
  · intro i a ha
    refine ⟨rescaleUV bmin bmax a, by simp [ha], ?_⟩
    simp [rescaleUV]

/-- C13, on the example store with source array 0 and fresh array 1. -/
theorem vcopy_vmultiply_frame_witness :
    (1 : Nat) ≠ 0 ∧
    ∃ τ, vmultiplyInPlace (vcopyInto exampleStore 1 0) 0 1 ⟨0, 0⟩ ⟨64, 32⟩ = some τ ∧
      τ 0 = exampleStore 0 ∧ (∀ a, a ≠ 1 → τ a = exampleStore a) ∧
      (τ 1).length = (exampleStore 0).length ∧
      vmultiply (exampleStore 0) (vcopy (exampleStore 0)) ⟨0, 0⟩ ⟨64, 32⟩ = some (τ 1) ∧
      ∀ (i : Nat) (a : Vertex), (exampleStore 0)[i]? = some a →
        ∃ c, (τ 1)[i]? = some c ∧
          c.DstX = a.DstX ∧ c.DstY = a.DstY ∧ c.ColorR = a.ColorR ∧ c.ColorG = a.ColorG ∧
          c.ColorB = a.ColorB ∧ c.ColorA = a.ColorA :=
  ⟨by decide, vcopy_vmultiply_frame exampleStore 0 1 ⟨0, 0⟩ ⟨64, 32⟩ (by decide)⟩

/-! ## Unsupported widths -/

/-- C14 (as stated, refuted): width 2 is a supported width, and `getIndices`
still fails on it: on an empty buffer handed over as a nil pointer (length
0), where the array overlay is sliced through the nil pointer, and on a
buffer of `2 * (2^28 + 1)` bytes, whose `2^28 + 1` elements exceed the array
capacity `1 << 28`. -/
theorem getIndices_width2_can_fail :
    getIndices .nil 0 2 = none ∧
    getIndices (.ref (fun _ => 0)) (2 * (2 ^ 28 + 1)) 2 = none ∧
    ¬ ((getIndices .nil 0 2).isSome = true ↔
        ((2 : Nat) = 2 ∨ (2 : Nat) = 4 ∨ (2 : Nat) = 8)) ∧
    ¬ ((getIndices (.ref (fun _ => 0)) (2 * (2 ^ 28 + 1)) 2).isSome = true ↔
        ((2 : Nat) = 2 ∨ (2 : Nat) = 4 ∨ (2 : Nat) = 8)) := by
  have n1 : getIndices .nil 0 2 = none := by simp [getIndices]
  have e1 : getIndices (.ref (fun _ => 0)) (2 * (2 ^ 28 + 1)) 2 = none := by
    simp [getIndices, arrayCap]
  refine ⟨n1, e1, ?_, ?_⟩
  · rw [n1]
    simp
  · rw [e1]
    simp

/-- C14 (amended): for every buffer pointer, length `L` and width `w`,
`getIndices` returns a sequence exactly in these cases: `w` is 2, the pointer
is not nil and `L / 2 ≤ 2^28`; or `w` is 4 or 8 and the pointer is not nil or
`L / w = 0`.  It fails in every other case: for every width other than 2, 4
and 8; at width 2 on a nil pointer (whatever the length) or beyond `2^28`
elements; at widths 4 and 8 on a nil pointer with `L / w > 0`. -/
theorem getIndices_fails_iff (ibuf : Pointer) (L w : Nat) :
    ((∃ l, getIndices ibuf L w = some l) ↔
      ((w = 2 ∧ ibuf ≠ .nil ∧ L / 2 ≤ 2 ^ 28) ∨
        ((w = 4 ∨ w = 8) ∧ (ibuf ≠ .nil ∨ L / w = 0)))) ∧
    (getIndices ibuf L w = none ↔
      ¬ ((w = 2 ∧ ibuf ≠ .nil ∧ L / 2 ≤ 2 ^ 28) ∨
        ((w = 4 ∨ w = 8) ∧ (ibuf ≠ .nil ∨ L / w = 0)))) ∧
    (w ≠ 2 → w ≠ 4 → w ≠ 8 → getIndices ibuf L w = none) ∧
    getIndices .nil L 2 = none := by
  have key : (∃ l, getIndices ibuf L w = some l) ↔
      ((w = 2 ∧ ibuf ≠ .nil ∧ L / 2 ≤ 2 ^ 28) ∨
        ((w = 4 ∨ w = 8) ∧ (ibuf ≠ .nil ∨ L / w = 0))) := by
    unfold getIndices
    by_cases h0 : w = 0
    · subst h0; simp
    by_cases h2 : w = 2
    · subst h2
      cases ibuf with
      | nil => simp
      | ref m =>
        by_cases hc : arrayCap < L / 2
        · simp [hc]
          simp only [arrayCap] at hc; omega
        · simp [hc]
          simp only [arrayCap] at hc; omega
    by_cases h4 : w = 4
    · subst h4
      cases ibuf with
      | nil =>
        by_cases hn : L / 4 = 0
        · simp [hn]
        · simp [hn]
      | ref m => simp
    by_cases h8 : w = 8
    · subst h8
      cases ibuf with
      | nil =>
        by_cases hn : L / 8 = 0
        · simp [hn]
        · simp [hn]
      | ref m => simp
    simp [h0, h2, h4, h8]
  refine ⟨key, ?_, ?_, ?_⟩
  · rw [← key]
    cases getIndices ibuf L w <;> simp
  · intro h2 h4 h8
    cases hg : getIndices ibuf L w with
    | none => rfl
    | some l =>
      have := key.1 ⟨l, hg⟩
      omega
  · simp [getIndices]

/-- C15 (as stated, refuted): at the supported widths 4 and 8 `getVertices`
still fails: on an empty buffer handed over as a nil pointer (length 0),
where the array overlay is sliced through the nil pointer, and on a buffer
holding `2^28 + 1` records. -/
theorem getVertices_supported_width_can_fail :
    getVertices ieee 4 .nil 0 20 0 8 16 = none ∧
    getVertices ieee 8 .nil 0 40 0 16 32 = none ∧
    getVertices ieee 4 (.ref (fun _ => 0)) (20 * (2 ^ 28 + 1)) 20 0 8 16 = none ∧
    getVertices ieee 8 (.ref (fun _ => 0)) (40 * (2 ^ 28 + 1)) 40 0 16 32 = none := by
  refine ⟨?_, ?_, ?_, ?_⟩
  · simp [getVertices, getVerticesx32]
  · simp [getVertices, getVerticesx64]
  · simp [getVertices, getVerticesx32, arrayCap]
  · simp [getVertices, getVerticesx64, arrayCap]

/-- C15 (amended): for every buffer pointer, length `L` and stride `S > 0`,
`getVertices` returns a vertex sequence exactly when the recorded float width
is 4 or 8, the pointer is not nil and `L / S ≤ 2^28`; it fails in every other
case: for every other recorded width, on a nil pointer (also with `L = 0`),
and beyond `2^28` records. -/
theorem getVertices_fails_iff (fs : FloatSem) (w : Nat) (vbuf : Pointer)
    (L S offpos offuv offcol : Nat) (hS : 0 < S) :
    ((∃ vs, getVertices fs w vbuf L S offpos offuv offcol = some vs) ↔
      ((w = 4 ∨ w = 8) ∧ vbuf ≠ .nil ∧ L / S ≤ 2 ^ 28)) ∧
    (getVertices fs w vbuf L S offpos offuv offcol = none ↔
      ¬ ((w = 4 ∨ w = 8) ∧ vbuf ≠ .nil ∧ L / S ≤ 2 ^ 28)) ∧
    (w ≠ 4 → w ≠ 8 → getVertices fs w vbuf L S offpos offuv offcol = none) ∧
    getVertices fs w .nil L S offpos offuv offcol = none := by
  have hS0 : S ≠ 0 := by omega
  have key : (∃ vs, getVertices fs w vbuf L S offpos offuv offcol = some vs) ↔
      ((w = 4 ∨ w = 8) ∧ vbuf ≠ .nil ∧ L / S ≤ 2 ^ 28) := by
    unfold getVertices getVerticesx32 getVerticesx64
    by_cases h4 : w = 4
    · subst h4
      cases vbuf with
      | nil => simp [hS0]
      | ref m =>
        by_cases hc : arrayCap < L / S
        · simp [hS0, hc]
          simp only [arrayCap] at hc; omega
        · simp [hS0, hc]
          simp only [arrayCap] at hc; omega
    by_cases h8 : w = 8
    · subst h8
      cases vbuf with
      | nil => simp [hS0]
      | ref m =>
        by_cases hc : arrayCap < L / S
        · simp [hS0, hc]
          simp only [arrayCap] at hc; omega
        · simp [hS0, hc]
          simp only [arrayCap] at hc; omega
    simp [h4, h8]
  refine ⟨key, ?_, ?_, ?_⟩
  · rw [← key]
    cases getVertices fs w vbuf L S offpos offuv offcol <;> simp
  · intro h4 h8
    simp [getVertices, h4, h8]
  · unfold getVertices getVerticesx32 getVerticesx64
    simp [hS0]

/-- C15 (amended), at a 45-byte buffer with stride 20 and float width 4. -/
theorem getVertices_fails_iff_witness :
    ((∃ vs, getVertices ieee 4 (.ref (fun _ => 0)) 45 20 0 8 16 = some vs) ↔
      (((4 : Nat) = 4 ∨ (4 : Nat) = 8) ∧ Pointer.ref (fun _ => 0) ≠ .nil ∧ 45 / 20 ≤ 2 ^ 28)) ∧
    (getVertices ieee 4 (.ref (fun _ => 0)) 45 20 0 8 16 = none ↔
      ¬ (((4 : Nat) = 4 ∨ (4 : Nat) = 8) ∧ Pointer.ref (fun _ => 0) ≠ .nil ∧
        45 / 20 ≤ 2 ^ 28)) ∧
    ((4 : Nat) ≠ 4 → (4 : Nat) ≠ 8 →
      getVertices ieee 4 (.ref (fun _ => 0)) 45 20 0 8 16 = none) ∧
    getVertices ieee 4 .nil 45 20 0 8 16 = none :=
  getVertices_fails_iff ieee 4 (.ref (fun _ => 0)) 45 20 0 8 16 (by decide)

/-- C16 (as stated, refuted): initialisation with the probed width 2 succeeds
and records 2; the failure only shows when `getVertices` is called. -/
theorem init_accepts_unsupported_width :
    init 2 = some 2 ∧ (2 : Nat) ≠ 4 ∧ (2 : Nat) ≠ 8 ∧
    getVertices ieee 2 (.ref (fun _ => 0)) 20 20 0 8 16 = none := by
  refine ⟨rfl, by decide, by decide, ?_⟩
  simp [getVertices]

/-- C16 (amended): `init` records whatever width is probed and never fails;
for every recorded width other than 4 and 8 each call of `getVertices` fails,
so `Render` on a valid frame with at least one command list panics at its
first vertex decode: the error is raised per frame, at decode, not at
startup. -/
theorem init_records_any_width (w : Nat) :
    init w = some w ∧
    (w ≠ 4 → w ≠ 8 →
      ∀ (fs : FloatSem) (vbuf : Pointer) (L S offpos offuv offcol : Nat),
        getVertices fs w vbuf L S offpos offuv offcol = none) ∧
    (w ≠ 4 → w ≠ 8 →
      ∀ (env : Env) (clist : CommandList) (rest : List CommandList) (txcache : TxCache),
        env.szfloat = w →
        (Render env ⟨true, clist :: rest⟩ txcache).panicked = true ∧
        (Render env ⟨true, clist :: rest⟩ txcache).events = [.decodeVertices clist]) := by
  refine ⟨rfl, ?_, ?_⟩
  · intro h4 h8 fs vbuf L S offpos offuv offcol
    simp [getVertices, h4, h8]
  · intro h4 h8 env clist rest txcache hw
    have hg : getVertices env.fs env.szfloat clist.VertexBuffer.1 clist.VertexBuffer.2
        env.VertexBufferLayout.1 env.VertexBufferLayout.2.1 env.VertexBufferLayout.2.2.1
        env.VertexBufferLayout.2.2.2 = none := by
      simp [getVertices, hw, h4, h8]
    have hl : renderCommandList env clist { txcache := txcache, events := [], panicked := false }
        = { txcache := txcache, events := [.decodeVertices clist], panicked := true } := by
      simp [renderCommandList, hg, RenderState.emit, RenderState.panic]
    have hR : Render env ⟨true, clist :: rest⟩ txcache
        = { txcache := txcache, events := [.decodeVertices clist], panicked := true } := by
      simp only [Render, Bool.true_eq_false, if_false, List.foldl_cons, hl]
      exact guarded_foldl_panicked RenderState.panicked
        (fun s clist => renderCommandList env clist s) rest _ rfl
    rw [hR]
    exact ⟨rfl, rfl⟩

/-! ## The colour defect of the 8-byte path -/

theorem cast_div_255_eq_zero (x : Nat) : ((x : ℚ) / 255 = 0) ↔ x = 0 := by
  constructor
  · intro h
    have h2 : (x : ℚ) = 0 := by
      have := div_eq_zero_iff.1 h
      rcases this with h | h
      · exact h
      · norm_num at h
    exact_mod_cast h2
  · intro h; subst h; simp

/-- C19: in the 8-byte path every decoded vertex has
`ColorR = (word mod 256) / 255` and `ColorG = ColorB = ColorA = 0`, whatever
the colour word; decoding the same colour word with the 4-byte path gives the
same four channels exactly when the word's upper three bytes are zero
(`word / 256 = 0`). -/
theorem getVerticesx64_colour_defect (fs : FloatSem) (vb32 vb64 : Mem)
    (L32 S32 L64 S64 op ou oc op' ou' oc' i : Nat)
    (h1 : 0 < S32) (h2 : 0 < S64) (h3 : L32 / S32 ≤ 2 ^ 28) (h4 : L64 / S64 ≤ 2 ^ 28)
    (h5 : i < L32 / S32) (h6 : i < L64 / S64)
    (hw : readU32 vb32 (i * 20 + 16) = readU32 vb64 (i * 40 + 32)) :
    ∃ vs32 vs64 v32 v64,
      getVertices fs 4 (.ref vb32) L32 S32 op ou oc = some vs32 ∧
      getVertices fs 8 (.ref vb64) L64 S64 op' ou' oc' = some vs64 ∧
      vs32[i]? = some v32 ∧ vs64[i]? = some v64 ∧
      v64.ColorR = ((readU32 vb64 (i * 40 + 32) % 256 : Nat) : ℚ) / 255 ∧
      v64.ColorG = 0 ∧ v64.ColorB = 0 ∧ v64.ColorA = 0 ∧
      ((v32.ColorR = v64.ColorR ∧ v32.ColorG = v64.ColorG ∧ v32.ColorB = v64.ColorB ∧
          v32.ColorA = v64.ColorA) ↔ readU32 vb64 (i * 40 + 32) / 256 = 0) := by
  have hS1 : S32 ≠ 0 := by omega
  have hS2 : S64 ≠ 0 := by omega
  have hc1 : ¬ arrayCap < L32 / S32 := by simp only [arrayCap]; omega
  have hc2 : ¬ arrayCap < L64 / S64 := by simp only [arrayCap]; omega
  have hlt := readU32_lt vb64 (i * 40 + 32)
  simp only [getVertices, getVerticesx32, getVerticesx64, hS1, hS2, hc1, hc2, if_false, if_true,
    show ¬ (8 : Nat) = 4 by decide]
  refine ⟨_, _, _, _, rfl, rfl, getElem?_map_range _ _ _ h5, getElem?_map_range _ _ _ h6, ?_⟩
  simp only [rawvertsx32, rawvertsx64, hw, and_255, Nat.shiftRight_eq_div_pow, Nat.shiftLeft_eq]
  generalize readU32 vb64 (i * 40 + 32) = c at hlt
  have z1 : c * 2 ^ 8 % 2 ^ 32 % 2 ^ 8 = 0 := by omega
  have z2 : c * 2 ^ 16 % 2 ^ 32 % 2 ^ 8 = 0 := by omega
  have z3 : c * 2 ^ 24 % 2 ^ 32 % 2 ^ 8 = 0 := by omega
  rw [z1, z2, z3]
  refine ⟨by norm_num, by simp, by simp, by simp, ?_⟩
  simp only [Nat.cast_zero, zero_div, cast_div_255_eq_zero]
  constructor
  · rintro ⟨-, g, b, a⟩
    omega
  · intro h
    refine ⟨by norm_num, ?_, ?_, ?_⟩ <;> omega

/-- C19, on one record with colour bytes 1, 2, 3, 4 in each layout. -/
theorem getVerticesx64_colour_defect_witness :
    ∃ vs32 vs64 v32 v64,
      getVertices ieee 4 (.ref colourBuffer32) 20 20 0 8 16 = some vs32 ∧
      getVertices ieee 8 (.ref colourBuffer64) 40 40 0 16 32 = some vs64 ∧
      vs32[0]? = some v32 ∧ vs64[0]? = some v64 ∧
      v64.ColorR = ((readU32 colourBuffer64 (0 * 40 + 32) % 256 : Nat) : ℚ) / 255 ∧
      v64.ColorG = 0 ∧ v64.ColorB = 0 ∧ v64.ColorA = 0 ∧
      ((v32.ColorR = v64.ColorR ∧ v32.ColorG = v64.ColorG ∧ v32.ColorB = v64.ColorB ∧
          v32.ColorA = v64.ColorA) ↔ readU32 colourBuffer64 (0 * 40 + 32) / 256 = 0) :=
  getVerticesx64_colour_defect ieee colourBuffer32 colourBuffer64 20 20 40 40 0 8 16 0 16 32 0
    (by decide) (by decide) (by decide) (by decide) (by decide) (by decide) (by decide)

/-! ## More about `Render` -/

theorem guarded_foldl_inv_mem {σ α : Type} (pan : σ → Bool) (step : σ → α → σ) (I : σ → Prop)
    (xs : List α) (hstep : ∀ s a, a ∈ xs → pan s = false → I s → I (step s a)) :
    ∀ s, I s → I (xs.foldl (fun s a => if pan s then s else step s a) s) := by
  induction xs with
  | nil => intro s hs; exact hs
  | cons a rest ih =>
    intro s hs
    simp only [List.foldl_cons]
    have ih' := ih (fun s b hb => hstep s b (List.mem_cons_of_mem _ hb))
    cases hp : pan s with
    | true =>
      simp only [if_true]
      exact ih' s hs
    | false =>
      simp only [Bool.false_eq_true, if_false]
      exact ih' _ (hstep s a (List.mem_cons_self _ _) hp hs)

theorem Resolved.inserts {env : Env} {s : RenderState} {id : TextureID}
    {pre : List Event} {cache : TxCache} (h : Resolved env s id pre cache) :
    ∀ k img, Event.insert k img ∈ pre →
      getTexture env.TextureDataRGBA32 env.Filter = some img := by
  intro k img hm
  rcases h with ⟨tx, -, -, rfl⟩ | ⟨-, img0, hg, -, rfl⟩
  · simp at hm
  · simp only [List.mem_cons, List.mem_singleton, List.not_mem_nil, or_false] at hm
    rcases hm with hm | hm | hm
    · exact Event.noConfusion hm
    · exact Event.noConfusion hm
    · injection hm with e1 e2
      rw [e2]; exact hg

theorem renderCommand_insertsAtlas (env : Env) (clist : CommandList) (vertices : List Vertex)
    (indices : List Nat) (l : CmdLoop) (cmd : DrawCommand)
    (hnp : l.st.panicked = false) (h : InsertsAtlas env l.st) :
    InsertsAtlas env (renderCommand env clist vertices indices cmd l).st := by
  intro k img hm
  rcases renderCommand_spec env clist vertices indices cmd l hnp with
    ⟨-, hr⟩ | ⟨-, pre, cache, tx, vb, hres, htx, -, -, hr⟩ | ⟨-, pre, cache, hr, hpre⟩
  · rw [hr] at hm
    simp only [List.mem_append, List.mem_singleton] at hm
    rcases hm with hm | hm
    · exact h k img hm
    · exact Event.noConfusion hm
  · rw [hr] at hm
    simp only [List.mem_append, List.mem_cons, List.mem_singleton, List.not_mem_nil,
      or_false] at hm
    rcases hm with (hm | hm) | hm | hm | hm
    · exact h k img hm
    · exact hres.inserts k img hm
    · exact Event.noConfusion hm
    · exact Event.noConfusion hm
    · exact Event.noConfusion hm
  · rw [hr] at hm
    rcases hpre with ⟨pre0, hres, rfl⟩ | ⟨-, -, -, rfl⟩
    · simp only [List.mem_append, List.mem_singleton] at hm
      rcases hm with hm | hm | hm
      · exact h k img hm
      · exact hres.inserts k img hm
      · exact Event.noConfusion hm
    · simp only [List.mem_append, List.mem_cons, List.mem_singleton, List.not_mem_nil,
        or_false] at hm
      rcases hm with hm | hm | hm
      · exact h k img hm
      · exact Event.noConfusion hm
      · exact Event.noConfusion hm

theorem renderCommandList_insertsAtlas (env : Env) (s : RenderState) (clist : CommandList)
    (h : InsertsAtlas env s) :
    InsertsAtlas env (renderCommandList env clist s) := by
  have hn : ∀ es : List Event, (∀ e ∈ es, e.isNeutral = true) → ∀ p,
      InsertsAtlas env { txcache := s.txcache, events := s.events ++ es, panicked := p } := by
    intro es hes p k img hm
    simp only [List.mem_append] at hm
    rcases hm with hm | hm
    · exact h k img hm
    · have := hes _ hm
      simp [Event.isNeutral] at this
  rcases renderCommandList_spec env clist s with hr | ⟨hr, -⟩ | ⟨vertices, indices, -, -, hr⟩
  · rw [hr]; exact hn _ (by simp [Event.isNeutral]) true
  · rw [hr]; exact hn _ (by simp [Event.isNeutral]) true
  · rw [hr]
    exact guarded_foldl_inv (fun l : CmdLoop => l.st.panicked)
      (fun l cmd => renderCommand env clist vertices indices cmd l)
      (fun l => InsertsAtlas env l.st)
      (fun l cmd hp hI => renderCommand_insertsAtlas env clist vertices indices l cmd hp hI)
      clist.Commands _ (hn _ (by simp [Event.isNeutral]) s.panicked)

theorem Render_insertsAtlas (env : Env) (drawData : DrawData) (txcache : TxCache) :
    InsertsAtlas env (Render env drawData txcache) := by
  have h0 : InsertsAtlas env { txcache := txcache, events := [], panicked := false } := by
    intro k img hm; simp at hm
  cases hv : drawData.Valid with
  | false =>
    rw [Render_invalid env drawData txcache hv]; exact h0
  | true =>
    have hR : Render env drawData txcache =
        drawData.CommandLists.foldl
          (fun s clist => if s.panicked then s else renderCommandList env clist s)
          { txcache := txcache, events := [], panicked := false } := by
      simp [Render, hv]
    rw [hR]
    exact guarded_foldl_inv RenderState.panicked (fun s clist => renderCommandList env clist s)
      (InsertsAtlas env)
      (fun s clist _ hI => renderCommandList_insertsAtlas env s clist hI)
      drawData.CommandLists _ h0

theorem getTexture_some_iff (tex : RGBA32Image) (filter : Nat) (img : Image) :
    getTexture tex filter = some img ↔
      ∃ m, tex.Pixels = .ref m ∧ tex.Width * tex.Height * 4 ≤ 2 ^ 28 ∧
        img = { Bounds := ⟨⟨0, 0⟩, ⟨(tex.Width : Int), (tex.Height : Int)⟩⟩
                Pix := (List.range (tex.Width * tex.Height * 4)).map (readU8 m)
                Filter := filter } := by
  unfold getTexture
  cases hp : tex.Pixels with
  | nil => simp
  | ref m =>
    by_cases hc : arrayCap < tex.Width * tex.Height * 4
    · simp [hc]
      intro h; simp only [arrayCap] at hc; omega
    · simp [hc]
      constructor
      · intro h
        refine ⟨by simp only [arrayCap] at hc; omega, h.symm⟩
      · intro h; exact h.2.symm

/-- C17: every texture `Render` inserts into the cache is the one `getTexture`
builds from the font atlas and the configured filter, whatever key missed:
bounds `(0,0)-(Width,Height)`, the `4 * Width * Height` atlas bytes (read
behind the atlas pixel pointer, which is then not nil), the configured
filter.  Any two inserted textures are therefore equal, and resolving two
missing keys from the same state stores the same texture under both. -/
theorem Render_inserts_font_atlas (env : Env) (drawData : DrawData) (txcache : TxCache) :
    (∀ id img, Event.insert id img ∈ (Render env drawData txcache).events →
      getTexture env.TextureDataRGBA32 env.Filter = some img ∧
      img.Bounds = ⟨⟨0, 0⟩,
        ⟨(env.TextureDataRGBA32.Width : Int), (env.TextureDataRGBA32.Height : Int)⟩⟩ ∧
      (∃ m, env.TextureDataRGBA32.Pixels = .ref m ∧
        img.Pix
          = (List.range (env.TextureDataRGBA32.Width * env.TextureDataRGBA32.Height * 4)).map
              (readU8 m)) ∧
      img.Pix.length = 4 * env.TextureDataRGBA32.Width * env.TextureDataRGBA32.Height ∧
      img.Filter = env.Filter) ∧
    (∀ id1 img1 id2 img2, Event.insert id1 img1 ∈ (Render env drawData txcache).events →
      Event.insert id2 img2 ∈ (Render env drawData txcache).events → img1 = img2) ∧
    (∀ (s : RenderState) (id1 id2 : TextureID), s.txcache id1 = none → s.txcache id2 = none →
      (resolveTexture env id1 s).txcache id1 = (resolveTexture env id2 s).txcache id2) := by
  have hI := Render_insertsAtlas env drawData txcache
  refine ⟨?_, ?_, ?_⟩
  · intro id img hm
    have hg := hI id img hm
    obtain ⟨m, hp, -, he⟩ := (getTexture_some_iff _ _ _).1 hg
    refine ⟨hg, ?_, ⟨m, hp, ?_⟩, ?_, ?_⟩
    · rw [he]
    · rw [he]
    · rw [he]; simp; ring
    · rw [he]
  · intro id1 img1 id2 img2 h1 h2
    have g1 := hI id1 img1 h1
    have g2 := hI id2 img2 h2
    rw [g1] at g2
    exact Option.some.inj g2
  · intro s id1 id2 h1 h2
    rcases resolveTexture_spec env id1 s with ⟨tx, hc, -⟩ | ⟨-, hg, hr⟩ | ⟨-, img, hg, hr⟩
    · rw [h1] at hc; exact Option.noConfusion hc
    · rcases resolveTexture_spec env id2 s with ⟨tx, hc, -⟩ | ⟨-, -, hr2⟩ | ⟨-, img2, hg2, -⟩
      · rw [h2] at hc; exact Option.noConfusion hc
      · rw [hr, hr2]; simp [h1, h2]
      · rw [hg] at hg2; exact Option.noConfusion hg2
    · rcases resolveTexture_spec env id2 s with ⟨tx, hc, -⟩ | ⟨-, hg2, -⟩ | ⟨-, img2, hg2, hr2⟩
      · rw [h2] at hc; exact Option.noConfusion hc
      · rw [hg] at hg2; exact Option.noConfusion hg2
      · rw [hr, hr2]
        rw [hg] at hg2
        simp [Option.some.inj hg2]

/-- C17, on the synthetic frame with an empty cache, where one texture is
inserted. -/
theorem Render_inserts_font_atlas_witness :
    (Render exampleEnv exampleDrawData emptyCache).events.countP Event.isInsert = 1 ∧
    ∀ id img, Event.insert id img ∈ (Render exampleEnv exampleDrawData emptyCache).events →
      getTexture exampleEnv.TextureDataRGBA32 exampleEnv.Filter = some img ∧
      img.Bounds = ⟨⟨0, 0⟩,
        ⟨(exampleEnv.TextureDataRGBA32.Width : Int),
          (exampleEnv.TextureDataRGBA32.Height : Int)⟩⟩ ∧
      (∃ m, exampleEnv.TextureDataRGBA32.Pixels = .ref m ∧
        img.Pix = (List.range
            (exampleEnv.TextureDataRGBA32.Width * exampleEnv.TextureDataRGBA32.Height * 4)).map
          (readU8 m)) ∧
      img.Pix.length
        = 4 * exampleEnv.TextureDataRGBA32.Width * exampleEnv.TextureDataRGBA32.Height ∧
      img.Filter = exampleEnv.Filter :=
  ⟨by decide, (Render_inserts_font_atlas exampleEnv exampleDrawData emptyCache).1⟩

/-- What keeps a non-callback command from panicking: the texture can be
resolved, the working copy is not longer than the decoded vertices, and the
index range fits. -/
theorem renderCommand_completes (env : Env) (clist : CommandList) (vertices : List Vertex)
    (indices : List Nat) (cmd : DrawCommand) (l : CmdLoop) (hnp : l.st.panicked = false)
    (hatlas : getTexture env.TextureDataRGBA32 env.Filter ≠ none)
    (hlen : l.vbuf.length ≤ vertices.length)
    (hfit : l.indexBufferOffset + cmd.ElementCount ≤ indices.length) :
    (renderCommand env clist vertices indices cmd l).st.panicked = false ∧
    (renderCommand env clist vertices indices cmd l).vbuf.length = l.vbuf.length ∧
    (renderCommand env clist vertices indices cmd l).indexBufferOffset
      = l.indexBufferOffset + cmd.ElementCount := by
  rcases renderCommand_spec env clist vertices indices cmd l hnp with
    ⟨-, hr⟩ | ⟨-, pre, cache, tx, vb, -, -, hv, -, hr⟩ | ⟨hcb, pre, cache, hr, hpre⟩
  · rw [hr]; exact ⟨hnp, rfl, rfl⟩
  · rw [hr]; exact ⟨rfl, (vmultiply_length _ _ _ _ _ hv).1, rfl⟩
  · exfalso
    -- retrace the body: none of its three panics can occur
    rcases resolveTexture_spec env cmd.TextureID l.st with
      ⟨tx, hc, hres⟩ | ⟨-, hg, -⟩ | ⟨hc, img, hg, hres⟩
    · rcases drawCommand_spec vertices indices cmd.TextureID cmd.ElementCount
          { l with st := resolveTexture env cmd.TextureID l.st } tx (by rw [hres]; exact hc) with
        ⟨hv, -⟩ | ⟨vb, -, hb, -⟩ | ⟨vb, hv, hb, hd⟩
      · rw [vmultiply_some _ _ _ _ hlen] at hv; exact Option.noConfusion hv
      · exact hb hfit
      · have hp : (renderCommand env clist vertices indices cmd l).st.panicked = false := by
          simp only [renderCommand, hcb, Bool.false_eq_true, if_false, hd]
          simp [hres, hnp]
        rw [hr] at hp; exact absurd hp (by simp)
    · exact hatlas hg
    · rcases drawCommand_spec vertices indices cmd.TextureID cmd.ElementCount
          { l with st := resolveTexture env cmd.TextureID l.st } img (by rw [hres]; simp) with
        ⟨hv, -⟩ | ⟨vb, -, hb, -⟩ | ⟨vb, hv, hb, hd⟩
      · rw [vmultiply_some _ _ _ _ hlen] at hv; exact Option.noConfusion hv
      · exact hb hfit
      · have hp : (renderCommand env clist vertices indices cmd l).st.panicked = false := by
          simp only [renderCommand, hcb, Bool.false_eq_true, if_false, hd]
          simp [hres, hnp]
        rw [hr] at hp; exact absurd hp (by simp)

theorem renderCommands_completes (env : Env) (clist : CommandList) (vertices : List Vertex)
    (indices : List Nat) (hatlas : getTexture env.TextureDataRGBA32 env.Filter ≠ none)
    (cmds : List DrawCommand) :
    ∀ l : CmdLoop, l.st.panicked = false → l.vbuf.length ≤ vertices.length →
      l.indexBufferOffset + (cmds.map DrawCommand.ElementCount).sum ≤ indices.length →
      (renderCommands env clist vertices indices cmds l).st.panicked = false := by
  induction cmds with
  | nil => intro l hnp _ _; exact hnp
  | cons cmd rest ih =>
    intro l hnp hlen hfit
    rw [renderCommands_cons _ _ _ _ _ _ _ hnp]
    simp only [List.map_cons, List.sum_cons] at hfit
    obtain ⟨h1, h2, h3⟩ := renderCommand_completes env clist vertices indices cmd l hnp hatlas
      hlen (by omega)
    exact ih _ h1 (by omega) (by omega)

theorem cursorAt_fits (cmds : List DrawCommand) (n : Nat)
    (hsum : (cmds.map DrawCommand.ElementCount).sum ≤ n) (k : Nat) (cmd : DrawCommand)
    (hk : cmds[k]? = some cmd) :
    cursorAt cmds k + cmd.ElementCount ≤ n ∧
    cursorAt cmds (k + 1) = cursorAt cmds k + cmd.ElementCount := by
  induction cmds generalizing k n with
  | nil => simp at hk
  | cons c rest ih =>
    simp only [List.map_cons, List.sum_cons] at hsum
    cases k with
    | zero =>
      simp only [List.getElem?_cons_zero, Option.some.injEq] at hk
      subst hk
      simp [cursorAt]
      omega
    | succ k =>
      simp only [List.getElem?_cons_succ] at hk
      obtain ⟨h1, h2⟩ := ih (n - c.ElementCount) (by omega) k hk
      rw [cursorAt_cons_succ, cursorAt_cons_succ, h2]
      omega

/-- C18: for every command list whose element counts sum to at most the
length of the decoded indices, every sub-range `[cursor, cursor + count)`
lies within the decoded indices (and so has exactly `count` elements); the
cursor the loop has reached before command `k` satisfies
`cursor + count ≤ length`, so the slice at line 178 is never out of range; and
when the other run-time checks pass as well (texture realisable, working copy
not longer than the decoded vertices) the loop does not panic and draws
exactly the expected sub-ranges. -/
theorem renderCommands_no_overrun (env : Env) (clist : CommandList) (vertices : List Vertex)
    (indices : List Nat) (cmds : List DrawCommand) (s : RenderState) (vbuf : List Vertex)
    (hsum : (cmds.map DrawCommand.ElementCount).sum ≤ indices.length) :
    (∀ k cmd, cmds[k]? = some cmd →
      cursorAt cmds k + cmd.ElementCount ≤ indices.length ∧
      (subRange indices (cursorAt cmds k) (cursorAt cmds (k + 1))).length = cmd.ElementCount) ∧
    (∀ k cmd, cmds[k]? = some cmd →
      (renderCommands env clist vertices indices (cmds.take k) ⟨s, 0, vbuf⟩).st.panicked = false →
      (renderCommands env clist vertices indices (cmds.take k) ⟨s, 0, vbuf⟩).indexBufferOffset
        + cmd.ElementCount ≤ indices.length) ∧
    (s.panicked = false → vbuf.length ≤ vertices.length →
      getTexture env.TextureDataRGBA32 env.Filter ≠ none →
      (renderCommands env clist vertices indices cmds ⟨s, 0, vbuf⟩).st.panicked = false ∧
      drawnIndices (renderCommands env clist vertices indices cmds ⟨s, 0, vbuf⟩).st.events
        = drawnIndices s.events ++ expectedSlices indices cmds) := by
  refine ⟨?_, ?_, ?_⟩
  · intro k cmd hk
    obtain ⟨h1, h2⟩ := cursorAt_fits cmds indices.length hsum k cmd hk
    refine ⟨h1, ?_⟩
    simp only [subRange, h2, List.length_take, List.length_drop]
    omega
  · intro k cmd hk hnp
    obtain ⟨h1, -⟩ := cursorAt_fits cmds indices.length hsum k cmd hk
    cases hs : s.panicked with
    | true =>
      rw [renderCommands_panicked _ _ _ _ _ _ hs] at hnp
      rw [hs] at hnp
      exact absurd hnp (by simp)
    | false =>
      obtain ⟨t, -, -, h3⟩ := renderCommands_drawn env clist vertices indices
        (cmds.take k) ⟨s, 0, vbuf⟩ hs
      rw [(h3 hnp).2]
      simpa [cursorAt] using h1
  · intro hs hlen hatlas
    have hc := renderCommands_completes env clist vertices indices hatlas cmds ⟨s, 0, vbuf⟩
      hs hlen (by simpa using hsum)
    refine ⟨hc, ?_⟩
    obtain ⟨t, h1, -, h3⟩ := renderCommands_drawn env clist vertices indices cmds
      ⟨s, 0, vbuf⟩ hs
    rw [h1, (h3 hc).1, expectedSlices_eq]

/-- C18, on the commands with counts 3, 5, 2 over ten indices. -/
theorem renderCommands_no_overrun_witness :
    (exampleCommands.map DrawCommand.ElementCount).sum ≤ (List.range 10).length ∧
    (renderCommands exampleEnv exampleList [] (List.range 10) exampleCommands
      ⟨⟨emptyCache, [], false⟩, 0, []⟩).st.panicked = false ∧
    ∀ k cmd, exampleCommands[k]? = some cmd →
      cursorAt exampleCommands k + cmd.ElementCount ≤ (List.range 10).length ∧
      (subRange (List.range 10) (cursorAt exampleCommands k)
        (cursorAt exampleCommands (k + 1))).length = cmd.ElementCount :=
  ⟨by decide, by decide,
    (renderCommands_no_overrun exampleEnv exampleList [] (List.range 10) exampleCommands
      ⟨emptyCache, [], false⟩ [] (by decide)).1⟩

/-- `Render` completes on a frame whose lists decode and whose element counts
fit their decoded indices, when the font atlas can be realised. -/
theorem Render_completes (env : Env) (drawData : DrawData) (txcache : TxCache)
    (hatlas : getTexture env.TextureDataRGBA32 env.Filter ≠ none)
    (hlists : ∀ clist ∈ drawData.CommandLists, ∃ vertices indices,
      decodedVertices env clist = some vertices ∧
      getIndices clist.IndexBuffer.1 clist.IndexBuffer.2 env.IndexBufferLayout = some indices ∧
      (clist.Commands.map DrawCommand.ElementCount).sum ≤ indices.length) :
    (Render env drawData txcache).panicked = false := by
  cases hv : drawData.Valid with
  | false => rw [Render_invalid env drawData txcache hv]
  | true =>
    have hR : Render env drawData txcache =
        drawData.CommandLists.foldl
          (fun s clist => if s.panicked then s else renderCommandList env clist s)
          { txcache := txcache, events := [], panicked := false } := by
      simp [Render, hv]
    rw [hR]
    refine guarded_foldl_inv_mem RenderState.panicked
      (fun s clist => renderCommandList env clist s) (fun s => s.panicked = false)
      drawData.CommandLists ?_ _ rfl
    intro s clist hm hs _
    obtain ⟨vertices, indices, hdv, hdi, hsum⟩ := hlists clist hm
    have hl : renderCommandList env clist s =
        (renderCommands env clist vertices indices clist.Commands
          { st := (s.emit (.decodeVertices clist)).emit (.decodeIndices clist)
            indexBufferOffset := 0
            vbuf := vcopy vertices }).st := by
      simp only [decodedVertices] at hdv
      simp [renderCommandList, hdv, hdi]
    show (renderCommandList env clist s).panicked = false
    rw [hl]
    exact renderCommands_completes env clist vertices indices hatlas clist.Commands _ hs
      (by simp [vcopy]) (by simpa using hsum)

theorem zipWith_of_sameButUV (bmin bmax : Point) (vbuf : List Vertex) :
    ∀ vertices : List Vertex, SameButUV vbuf vertices →
      List.zipWith
        (fun (b a : Vertex) =>
          { b with SrcX := lerp bmin.X bmax.X a.SrcX, SrcY := lerp bmin.Y bmax.Y a.SrcY })
        vbuf vertices = vertices.map (rescaleUV bmin bmax) := by
  induction vbuf with
  | nil =>
    intro vertices h
    cases vertices with
    | nil => rfl
    | cons a rest => simp [SameButUV] at h
  | cons b bs ih =>
    intro vertices h
    cases vertices with
    | nil => simp [SameButUV] at h
    | cons a rest =>
      simp only [SameButUV, List.map_cons, List.cons.injEq] at h
      obtain ⟨h1, h2⟩ := h
      simp only [List.zipWith_cons_cons, List.map_cons, ih rest h2, List.cons.injEq, and_true]
      simp only [clearUV, Vertex.mk.injEq] at h1
      obtain ⟨e1, e2, -, -, e3, e4, e5, e6⟩ := h1
      simp [rescaleUV, e1, e2, e3, e4, e5, e6]

theorem vmultiply_of_sameButUV (vertices vbuf : List Vertex) (bmin bmax : Point)
    (h : SameButUV vbuf vertices) :
    vmultiply vertices vbuf bmin bmax = some (vertices.map (rescaleUV bmin bmax)) := by
  have hl : vbuf.length = vertices.length := by
    simpa using congrArg List.length h
  rw [vmultiply_some _ _ _ _ (by omega), zipWith_of_sameButUV bmin bmax vbuf vertices h]

theorem sameButUV_rescale (vertices : List Vertex) (bmin bmax : Point) :
    SameButUV (vertices.map (rescaleUV bmin bmax)) vertices := by
  simp [SameButUV, rescaleUV, clearUV]

theorem sameButUV_vcopy (vertices : List Vertex) : SameButUV (vcopy vertices) vertices := rfl

/-! ## Each draw and the command it belongs to -/

theorem draws_append (xs ys : List Event) : draws (xs ++ ys) = draws xs ++ draws ys := by
  simp [draws, List.filterMap_append]

theorem Resolved.draws_eq {env : Env} {s : RenderState} {id : TextureID}
    {pre : List Event} {cache : TxCache} (h : Resolved env s id pre cache) : draws pre = [] := by
  rcases h with ⟨_, -, -, rfl⟩ | ⟨-, _, -, -, rfl⟩ <;> rfl

theorem guarded_foldl_rel {σ α β γ : Type} (pan : σ → Bool) (ev : σ → List Event)
    (step : σ → α → σ) (obs : List Event → List β) (exp : α → List γ) (R : γ → β → Prop)
    (I : σ → Prop)
    (hstep : ∀ s a, pan s = false → I s →
      ∃ t e, obs (ev (step s a)) = obs (ev s) ++ t ∧ e <+: exp a ∧ List.Forall₂ R e t ∧
        (pan (step s a) = false → e = exp a ∧ I (step s a)))
    (xs : List α) :
    ∀ s, pan s = false → I s →
      ∃ t e, obs (ev (xs.foldl (fun s a => if pan s then s else step s a) s)) = obs (ev s) ++ t ∧
        e <+: (xs.map exp).flatten ∧ List.Forall₂ R e t ∧
        (pan (xs.foldl (fun s a => if pan s then s else step s a) s) = false →
          e = (xs.map exp).flatten ∧
          I (xs.foldl (fun s a => if pan s then s else step s a) s)) := by
  induction xs with
  | nil =>
    intro s hs hI
    exact ⟨[], [], by simp, by simp, List.Forall₂.nil, fun _ => ⟨by simp, hI⟩⟩
  | cons a rest ih =>
    intro s hs hI
    simp only [List.foldl_cons, hs, Bool.false_eq_true, if_false, List.map_cons,
      List.flatten_cons]
    obtain ⟨t1, e1, h1, h2, hR, h3⟩ := hstep s a hs hI
    cases hp : pan (step s a) with
    | true =>
      rw [guarded_foldl_panicked pan step rest _ hp]
      refine ⟨t1, e1, h1, h2.trans (List.prefix_append _ _), hR, ?_⟩
      intro h; rw [hp] at h; exact absurd h (by simp)
    | false =>
      obtain ⟨he, hI1⟩ := h3 hp
      obtain ⟨t2, e2, g1, g2, gR, g3⟩ := ih _ hp hI1
      subst he
      refine ⟨t1 ++ t2, exp a ++ e2, ?_, ?_, List.rel_append hR gR, ?_⟩
      · rw [g1, h1, List.append_assoc]
      · exact (List.prefix_append_right_inj _).2 g2
      · intro h
        obtain ⟨k1, k2⟩ := g3 h
        exact ⟨by rw [k1], k2⟩

theorem renderCommand_draws (env : Env) (clist : CommandList) (vertices : List Vertex)
    (indices : List Nat) (hdec : decodedVertices env clist = some vertices)
    (cmd : DrawCommand) (l : CmdLoop) (hnp : l.st.panicked = false)
    (hs : SameButUV l.vbuf vertices) :
    ∃ t e, draws (renderCommand env clist vertices indices cmd l).st.events
        = draws l.st.events ++ t ∧
      e <+: (if cmd.HasUserCallback then [] else [(clist, cmd)]) ∧
      List.Forall₂ (DrawOf env) e t ∧
      ((renderCommand env clist vertices indices cmd l).st.panicked = false →
        e = (if cmd.HasUserCallback then [] else [(clist, cmd)]) ∧
        SameButUV (renderCommand env clist vertices indices cmd l).vbuf vertices) := by
  rcases renderCommand_spec env clist vertices indices cmd l hnp with
    ⟨hcb, hr⟩ | ⟨hcb, pre, cache, tx, vb, hres, htx, hv, -, hr⟩ | ⟨hcb, pre, cache, hr, hpre⟩
  · refine ⟨[], [], ?_, List.nil_prefix, List.Forall₂.nil, fun _ => ⟨by simp [hcb], ?_⟩⟩
    · rw [hr]; simp [draws_append]; rfl
    · rw [hr]; exact hs
  · rw [vmultiply_of_sameButUV vertices l.vbuf _ _ hs] at hv
    have hvb : vb = vertices.map (rescaleUV tx.Bounds.Min tx.Bounds.Max) :=
      (Option.some.inj hv).symm
    refine ⟨[(cmd.TextureID, vb, some tx)], [(clist, cmd)], ?_, by simp [hcb], ?_,
      fun _ => ⟨by simp [hcb], ?_⟩⟩
    · rw [hr]
      simp only [draws_append, hres.draws_eq, List.append_nil]
      rfl
    · exact List.Forall₂.cons ⟨rfl, vertices, tx, hdec, rfl, hvb⟩ List.Forall₂.nil
    · rw [hr, hvb]; exact sameButUV_rescale _ _ _
  · have hp : (renderCommand env clist vertices indices cmd l).st.panicked = true := by
      rw [hr]
    refine ⟨[], [], ?_, List.nil_prefix, List.Forall₂.nil, ?_⟩
    · rw [hr]
      rcases hpre with ⟨pre0, hres, rfl⟩ | ⟨-, -, -, rfl⟩
      · simp [draws_append, hres.draws_eq]; rfl
      · simp [draws_append]; rfl
    · intro h; rw [hp] at h; exact absurd h (by simp)

theorem renderCommandList_draws (env : Env) (clist : CommandList) (s : RenderState)
    (hnp : s.panicked = false) :
    ∃ t e, draws (renderCommandList env clist s).events = draws s.events ++ t ∧
      e <+: drawCommandsOf clist ∧ List.Forall₂ (DrawOf env) e t ∧
      ((renderCommandList env clist s).panicked = false → e = drawCommandsOf clist ∧ True) := by
  rcases renderCommandList_spec env clist s with hr | ⟨hr, -⟩ | ⟨vertices, indices, -, hv, hr⟩
  · refine ⟨[], [], ?_, List.nil_prefix, List.Forall₂.nil, ?_⟩
    · rw [hr]; simp [draws_append]; rfl
    · rw [hr]; intro h; exact absurd h (by simp)
  · refine ⟨[], [], ?_, List.nil_prefix, List.Forall₂.nil, ?_⟩
    · rw [hr]; simp [draws_append]; rfl
    · rw [hr]; intro h; exact absurd h (by simp)
  · obtain ⟨t, e, h1, h2, h3, h4⟩ := guarded_foldl_rel (fun l : CmdLoop => l.st.panicked)
      (fun l => l.st.events) (fun l cmd => renderCommand env clist vertices indices cmd l)
      draws (fun cmd => if cmd.HasUserCallback then [] else [(clist, cmd)]) (DrawOf env)
      (fun l => SameButUV l.vbuf vertices)
      (fun l cmd hp hI => renderCommand_draws env clist vertices indices hv cmd l hp hI)
      clist.Commands
      { st := { s with events := s.events ++ [.decodeVertices clist, .decodeIndices clist] }
        indexBufferOffset := 0
        vbuf := vcopy vertices } hnp (sameButUV_vcopy vertices)
    refine ⟨t, e, ?_, h2, h3, fun h => ⟨(h4 (by rw [hr] at h; exact h)).1, trivial⟩⟩
    rw [hr]
    show draws (renderCommands env clist vertices indices clist.Commands _).st.events = _
    unfold renderCommands
    rw [h1]
    simp [draws_append]
    rfl

theorem Render_draws_aligned (env : Env) (drawData : DrawData) (txcache : TxCache)
    (hv : drawData.Valid = true) :
    ∃ e, e <+: drawCommands drawData ∧
      List.Forall₂ (DrawOf env) e (draws (Render env drawData txcache).events) ∧
      ((Render env drawData txcache).panicked = false → e = drawCommands drawData) := by
  obtain ⟨t, e, h1, h2, h3, h4⟩ := guarded_foldl_rel RenderState.panicked RenderState.events
    (fun s clist => renderCommandList env clist s) draws drawCommandsOf (DrawOf env)
    (fun _ => True)
    (fun s clist hs _ => renderCommandList_draws env clist s hs)
    drawData.CommandLists { txcache := txcache, events := [], panicked := false } rfl trivial
  have hR : Render env drawData txcache =
      drawData.CommandLists.foldl
        (fun s clist => if s.panicked then s else renderCommandList env clist s)
        { txcache := txcache, events := [], panicked := false } := by
    simp [Render, hv]
  rw [hR, h1]
  refine ⟨e, h2, by simpa [draws] using h3, fun h => (h4 h).1⟩

theorem mem_drawnTextures_of_draw (evs : List Event) (id : TextureID) (vb : List Vertex)
    (sl : List Nat) (tex : Option Image) (h : Event.draw id vb sl tex ∈ evs) :
    (id, tex) ∈ drawnTextures evs := by
  simp only [drawnTextures, List.mem_filterMap]
  exact ⟨_, h, rfl⟩

theorem zipWith_rescale_twice (b1 b1' b2 b2' : Point) (vbuf : List Vertex) :
    ∀ v : List Vertex,
      List.zipWith
        (fun (b a : Vertex) =>
          { b with SrcX := lerp b2.X b2'.X a.SrcX, SrcY := lerp b2.Y b2'.Y a.SrcY })
        (List.zipWith
          (fun (b a : Vertex) =>
            { b with SrcX := lerp b1.X b1'.X a.SrcX, SrcY := lerp b1.Y b1'.Y a.SrcY })
          vbuf v) v
      = List.zipWith
        (fun (b a : Vertex) =>
          { b with SrcX := lerp b2.X b2'.X a.SrcX, SrcY := lerp b2.Y b2'.Y a.SrcY })
        vbuf v := by
  induction vbuf with
  | nil => intro v; simp
  | cons b bs ih =>
    intro v
    cases v with
    | nil => simp
    | cons a rest => simp [ih rest]

theorem vmultiply_twice (v vbuf out : List Vertex) (b1 b1' b2 b2' : Point)
    (h : vmultiply v vbuf b1 b1' = some out) :
    vmultiply v out b2 b2' = vmultiply v vbuf b2 b2' := by
  obtain ⟨h1, h2⟩ := vmultiply_length v vbuf out b1 b1' h
  rw [vmultiply_some v vbuf b1 b1' h2] at h
  rw [vmultiply_some v out b2 b2' (by omega), vmultiply_some v vbuf b2 b2' h2,
    ← Option.some.inj h, zipWith_rescale_twice]

/-! ## The two-list frame, step by step -/

theorem ieee_half : ieee.Float32frombits 0x3F000000 = 1 / 2 := by
  norm_num [ieee, floatOfBits]

theorem ieee_quarter : ieee.Float32frombits 0x3E800000 = 1 / 4 := by
  norm_num [ieee, floatOfBits]

theorem ieee_threeQuarters : ieee.Float32frombits 0x3F400000 = 3 / 4 := by
  norm_num [ieee, floatOfBits]

theorem ieee_zero : ieee.Float32frombits 0 = 0 := by
  norm_num [ieee, floatOfBits]

theorem decodedVertices_rescaleListA :
    decodedVertices exampleEnv rescaleListA = some [⟨0, 0, 1 / 2, 1 / 2, 0, 0, 0, 0⟩] := by
  have h0 : readU32 (uvRecord [0, 0, 0, 0x3F] [0, 0, 0, 0x3F]) 0 = 0 := by decide
  have h4 : readU32 (uvRecord [0, 0, 0, 0x3F] [0, 0, 0, 0x3F]) 4 = 0 := by decide
  have h8 : readU32 (uvRecord [0, 0, 0, 0x3F] [0, 0, 0, 0x3F]) 8 = 0x3F000000 := by decide
  have h12 : readU32 (uvRecord [0, 0, 0, 0x3F] [0, 0, 0, 0x3F]) 12 = 0x3F000000 := by decide
  have h16 : readU32 (uvRecord [0, 0, 0, 0x3F] [0, 0, 0, 0x3F]) 16 = 0 := by decide
  simp [decodedVertices, exampleEnv, rescaleListA, getVertices, getVerticesx32, arrayCap,
    rawvertsx32, List.range_succ, h0, h4, h8, h12, h16, ieee_half, ieee_zero]

theorem decodedVertices_rescaleListB :
    decodedVertices exampleEnv rescaleListB = some [⟨0, 0, 1 / 4, 3 / 4, 0, 0, 0, 0⟩] := by
  have h0 : readU32 (uvRecord [0, 0, 0x80, 0x3E] [0, 0, 0x40, 0x3F]) 0 = 0 := by decide
  have h4 : readU32 (uvRecord [0, 0, 0x80, 0x3E] [0, 0, 0x40, 0x3F]) 4 = 0 := by decide
  have h8 : readU32 (uvRecord [0, 0, 0x80, 0x3E] [0, 0, 0x40, 0x3F]) 8 = 0x3E800000 := by decide
  have h12 : readU32 (uvRecord [0, 0, 0x80, 0x3E] [0, 0, 0x40, 0x3F]) 12 = 0x3F400000 := by
    decide
  have h16 : readU32 (uvRecord [0, 0, 0x80, 0x3E] [0, 0, 0x40, 0x3F]) 16 = 0 := by decide
  simp [decodedVertices, exampleEnv, rescaleListB, getVertices, getVerticesx32, arrayCap,
    rawvertsx32, List.range_succ, h0, h4, h8, h12, h16, ieee_quarter, ieee_threeQuarters,
    ieee_zero]




theorem getVertices_rescaleListA :
    getVertices exampleEnv.fs exampleEnv.szfloat rescaleListA.VertexBuffer.1
      rescaleListA.VertexBuffer.2 exampleEnv.VertexBufferLayout.1
      exampleEnv.VertexBufferLayout.2.1 exampleEnv.VertexBufferLayout.2.2.1
      exampleEnv.VertexBufferLayout.2.2.2 = some [⟨0, 0, 1 / 2, 1 / 2, 0, 0, 0, 0⟩] :=
  decodedVertices_rescaleListA

theorem getVertices_rescaleListB :
    getVertices exampleEnv.fs exampleEnv.szfloat rescaleListB.VertexBuffer.1
      rescaleListB.VertexBuffer.2 exampleEnv.VertexBufferLayout.1
      exampleEnv.VertexBufferLayout.2.1 exampleEnv.VertexBufferLayout.2.2.1
      exampleEnv.VertexBufferLayout.2.2.2 = some [⟨0, 0, 1 / 4, 3 / 4, 0, 0, 0, 0⟩] :=
  decodedVertices_rescaleListB

theorem getIndices_rescaleListA :
    getIndices rescaleListA.IndexBuffer.1 rescaleListA.IndexBuffer.2
      exampleEnv.IndexBufferLayout = some [0, 0, 0, 0, 0, 0] := by decide

theorem getIndices_rescaleListB :
    getIndices rescaleListB.IndexBuffer.1 rescaleListB.IndexBuffer.2
      exampleEnv.IndexBufferLayout = some [0, 0, 0] := by decide

theorem renderCommandList_rescaleListA :
    renderCommandList exampleEnv rescaleListA
      { txcache := twoTextureCache, events := [], panicked := false }
      = { txcache := twoTextureCache, events := eventsA, panicked := false } := by
  simp only [renderCommandList, getVertices_rescaleListA, getIndices_rescaleListA]
  simp [renderCommands, renderCommand, resolveTexture, drawCommand, vmultiply, vcopy,
    RenderState.emit, RenderState.panic, RenderState.store, twoTextureCache, exampleImage,
    rescaleListA, eventsA, lerp]
  norm_num

theorem renderCommandList_rescaleListB (evs : List Event) :
    renderCommandList exampleEnv rescaleListB
      { txcache := twoTextureCache, events := evs, panicked := false }
      = { txcache := twoTextureCache, events := evs ++ eventsB, panicked := false } := by
  simp only [renderCommandList, getVertices_rescaleListB, getIndices_rescaleListB]
  simp [renderCommands, renderCommand, resolveTexture, drawCommand, vmultiply, vcopy,
    RenderState.emit, RenderState.panic, RenderState.store, twoTextureCache, exampleImage,
    rescaleListB, eventsB, lerp]
  norm_num


theorem foldl_rescaleLists :
    [rescaleListA, rescaleListB].foldl
        (fun s clist => if s.panicked then s else renderCommandList exampleEnv clist s)
        { txcache := twoTextureCache, events := [], panicked := false }
      = { txcache := twoTextureCache, events := eventsA ++ eventsB, panicked := false } := by
  rw [List.foldl_cons]
  rw [if_neg (by simp)]
  rw [renderCommandList_rescaleListA]
  rw [List.foldl_cons]
  rw [if_neg (by simp)]
  rw [renderCommandList_rescaleListB]
  rfl

theorem Render_rescaleDrawData :
    Render exampleEnv rescaleDrawData twoTextureCache
      = { txcache := twoTextureCache, events := eventsA ++ eventsB, panicked := false } := by
  have hv : ¬ (rescaleDrawData.Valid = false) := by decide
  have hl : rescaleDrawData.CommandLists = [rescaleListA, rescaleListB] := rfl
  unfold Render
  rw [if_neg hv, hl]
  exact foldl_rescaleLists

theorem rescaleDrawData_draws :
    (draws (Render exampleEnv rescaleDrawData twoTextureCache).events).map
        (fun d => (d.1, d.2.1.map fun v => (v.SrcX, v.SrcY)))
      = [(7, [(32, 16)]), (9, [(60, 120)]), (7, [(16, 24)])] := by
  rw [Render_rescaleDrawData]
  rfl

theorem forall₂_getElem? {α β : Type} (R : α → β → Prop) :
    ∀ (e : List α) (t : List β), List.Forall₂ R e t →
      ∀ (j : Nat) (d : β), t[j]? = some d → ∃ p, e[j]? = some p ∧ R p d := by
  intro e t h
  induction h with
  | nil => intro j d hd; simp at hd
  | cons hab _ ih =>
    intro j d hd
    cases j with
    | zero =>
      simp only [List.getElem?_cons_zero, Option.some.injEq] at hd
      subst hd
      exact ⟨_, by simp, hab⟩
    | succ k =>
      simp only [List.getElem?_cons_succ] at hd
      obtain ⟨p, hp, hr⟩ := ih k d hd
      exact ⟨p, by simpa using hp, hr⟩

theorem prefix_getElem? {α : Type} {e full : List α} (h : e <+: full) (j : Nat) (p : α)
    (hp : e[j]? = some p) : full[j]? = some p := by
  obtain ⟨r, rfl⟩ := h
  have hj : j < e.length := by
    by_contra hc
    rw [List.getElem?_eq_none (by omega)] at hp
    exact Option.noConfusion hp
  rw [List.getElem?_append_left hj, hp]

theorem mem_drawCommands (drawData : DrawData) (clist : CommandList) (cmd : DrawCommand)
    (h : (clist, cmd) ∈ drawCommands drawData) :
    clist ∈ drawData.CommandLists ∧ cmd ∈ clist.Commands ∧ cmd.HasUserCallback = false := by
  simp only [drawCommands, List.mem_flatten, List.mem_map] at h
  obtain ⟨l, ⟨cl, hcl, hl⟩, hm⟩ := h
  subst hl
  simp only [drawCommandsOf, List.mem_flatten, List.mem_map] at hm
  obtain ⟨l2, ⟨c, hc, hl2⟩, hm2⟩ := hm
  subst hl2
  cases hcb : c.HasUserCallback with
  | true => simp [hcb] at hm2
  | false =>
    simp only [hcb, Bool.false_eq_true, if_false, List.mem_singleton, Prod.mk.injEq] at hm2
    obtain ⟨h1, h2⟩ := hm2
    subst h1
    subst h2
    exact ⟨hcl, hc, hcb⟩

theorem draws_getElem?_mem (evs : List Event) (j : Nat) (id : TextureID) (vb : List Vertex)
    (tex : Option Image) (h : (draws evs)[j]? = some (id, vb, tex)) :
    ∃ sl, Event.draw id vb sl tex ∈ evs := by
  have hm : (id, vb, tex) ∈ draws evs := List.getElem?_mem h
  simp only [draws, List.mem_filterMap] at hm
  obtain ⟨e, he, hd⟩ := hm
  cases e with
  | draw i v s t =>
    simp only [Option.some.injEq, Prod.mk.injEq] at hd
    obtain ⟨rfl, rfl, rfl⟩ := hd
    exact ⟨s, he⟩
  | _ => simp at hd

/-- C20: the `j`-th draw `Render` issues belongs to the `j`-th non-callback
command of the frame (lists in order, commands in order) and carries the
originally decoded vertices of that command's own list, rescaled to the
bounds of the texture the cache holds for that command's key, whatever
earlier commands did: vertex `i` has `SrcX = min.X * (1 - u) + max.X * u` and
`SrcY = min.Y * (1 - v) + max.Y * v` for the decoded UV `(u, v)` of vertex
`i` of that list, and the decoded position and colour.  There are never more
draws than non-callback commands, and as many when a valid frame is rendered
without a panic.  Applying `vmultiply` again to its own result with the same
source and bounds gives the same result, and after any earlier rescale a
rescale with other bounds gives what it gives on the untouched copy. -/
theorem Render_draws_rescale_decoded (env : Env) (drawData : DrawData) (txcache : TxCache) :
    (∀ (j : Nat) (id : TextureID) (vb : List Vertex) (tex : Option Image),
      (draws (Render env drawData txcache).events)[j]? = some (id, vb, tex) →
      ∃ clist cmd vertices tx,
        (drawCommands drawData)[j]? = some (clist, cmd) ∧
        clist ∈ drawData.CommandLists ∧ cmd ∈ clist.Commands ∧
        cmd.HasUserCallback = false ∧ id = cmd.TextureID ∧
        decodedVertices env clist = some vertices ∧ tex = some tx ∧
        (Render env drawData txcache).txcache id = some tx ∧
        vb = vertices.map (rescaleUV tx.Bounds.Min tx.Bounds.Max) ∧
        ∀ (i : Nat) (a : Vertex), vertices[i]? = some a →
          ∃ c, vb[i]? = some c ∧
            c.SrcX = (tx.Bounds.Min.X : ℚ) * (1 - a.SrcX) + (tx.Bounds.Max.X : ℚ) * a.SrcX ∧
            c.SrcY = (tx.Bounds.Min.Y : ℚ) * (1 - a.SrcY) + (tx.Bounds.Max.Y : ℚ) * a.SrcY ∧
            c.DstX = a.DstX ∧ c.DstY = a.DstY ∧ c.ColorR = a.ColorR ∧ c.ColorG = a.ColorG ∧
            c.ColorB = a.ColorB ∧ c.ColorA = a.ColorA) ∧
    (draws (Render env drawData txcache).events).length ≤ (drawCommands drawData).length ∧
    (drawData.Valid = true → (Render env drawData txcache).panicked = false →
      (draws (Render env drawData txcache).events).length = (drawCommands drawData).length) ∧
    (∀ (v vbuf out : List Vertex) (bmin bmax : Point),
      vmultiply v vbuf bmin bmax = some out → vmultiply v out bmin bmax = some out) ∧
    (∀ (v vbuf out : List Vertex) (b1 b1' b2 b2' : Point),
      vmultiply v vbuf b1 b1' = some out →
      vmultiply v out b2 b2' = vmultiply v vbuf b2 b2') := by
  have key : ∃ e, e <+: drawCommands drawData ∧
      List.Forall₂ (DrawOf env) e (draws (Render env drawData txcache).events) ∧
      (drawData.Valid = true → (Render env drawData txcache).panicked = false →
        e = drawCommands drawData) := by
    cases hv : drawData.Valid with
    | false =>
      rw [Render_invalid env drawData txcache hv]
      exact ⟨[], List.nil_prefix, List.Forall₂.nil, fun h => absurd h (by simp)⟩
    | true =>
      obtain ⟨e, h1, h2, h3⟩ := Render_draws_aligned env drawData txcache hv
      exact ⟨e, h1, h2, fun _ => h3⟩
  obtain ⟨e, hpre, hrel, hfull⟩ := key
  refine ⟨?_, ?_, ?_, ?_, ?_⟩
  · intro j id vb tex hj
    obtain ⟨p, hp, hid, vertices, tx, hdec, htex, hvb⟩ := forall₂_getElem? _ _ _ hrel j _ hj
    obtain ⟨clist, cmd⟩ := p
    have hfj := prefix_getElem? hpre j _ hp
    obtain ⟨m1, m2, m3⟩ := mem_drawCommands drawData clist cmd (List.getElem?_mem hfj)
    obtain ⟨sl, hm⟩ := draws_getElem?_mem _ j id vb tex hj
    have hc := ((Render_inv env drawData txcache).drawsCached (id, tex)
      (mem_drawnTextures_of_draw _ id vb sl tex hm)).1
    simp only at hid htex hvb hdec
    refine ⟨clist, cmd, vertices, tx, hfj, m1, m2, m3, hid, hdec, htex, ?_, hvb, ?_⟩
    · rw [← htex]; exact hc.symm
    · intro i a ha
      refine ⟨rescaleUV tx.Bounds.Min tx.Bounds.Max a, by rw [hvb]; simp [ha], ?_⟩
      simp [rescaleUV, lerp]
  · rw [← hrel.length_eq]
    exact hpre.length_le
  · intro hv hnp
    rw [← hrel.length_eq, hfull hv hnp]
  · intro v vbuf out bmin bmax h
    rw [vmultiply_twice v vbuf out bmin bmax bmin bmax h, h]
  · intro v vbuf out b1 b1' b2 b2' h
    exact vmultiply_twice v vbuf out b1 b1' b2 b2' h

/-- C20, on a frame of two lists with different vertices over a cache with two
textures of different bounds: the list with UV `(1/2, 1/2)` is drawn as
`(32, 16)` in bounds `(0,0)-(64,32)` and as `(60, 120)` in bounds
`(10,20)-(110,220)`, the list with UV `(1/4, 3/4)` as `(16, 24)` in bounds
`(0,0)-(64,32)`. -/
theorem Render_draws_rescale_decoded_witness :
    decodedVertices exampleEnv rescaleListA = some [⟨0, 0, 1 / 2, 1 / 2, 0, 0, 0, 0⟩] ∧
    decodedVertices exampleEnv rescaleListB = some [⟨0, 0, 1 / 4, 3 / 4, 0, 0, 0, 0⟩] ∧
    (draws (Render exampleEnv rescaleDrawData twoTextureCache).events).map
        (fun d => (d.1, d.2.1.map fun v => (v.SrcX, v.SrcY)))
      = [(7, [(32, 16)]), (9, [(60, 120)]), (7, [(16, 24)])] ∧
    ∀ (j : Nat) (id : TextureID) (vb : List Vertex) (tex : Option Image),
      (draws (Render exampleEnv rescaleDrawData twoTextureCache).events)[j]?
        = some (id, vb, tex) →
      ∃ clist cmd vertices tx,
        (drawCommands rescaleDrawData)[j]? = some (clist, cmd) ∧
        clist ∈ rescaleDrawData.CommandLists ∧ cmd ∈ clist.Commands ∧
        cmd.HasUserCallback = false ∧ id = cmd.TextureID ∧
        decodedVertices exampleEnv clist = some vertices ∧ tex = some tx ∧
        (Render exampleEnv rescaleDrawData twoTextureCache).txcache id = some tx ∧
        vb = vertices.map (rescaleUV tx.Bounds.Min tx.Bounds.Max) ∧
        ∀ (i : Nat) (a : Vertex), vertices[i]? = some a →
          ∃ c, vb[i]? = some c ∧
            c.SrcX = (tx.Bounds.Min.X : ℚ) * (1 - a.SrcX) + (tx.Bounds.Max.X : ℚ) * a.SrcX ∧
            c.SrcY = (tx.Bounds.Min.Y : ℚ) * (1 - a.SrcY) + (tx.Bounds.Max.Y : ℚ) * a.SrcY ∧
            c.DstX = a.DstX ∧ c.DstY = a.DstY ∧ c.ColorR = a.ColorR ∧ c.ColorG = a.ColorG ∧
            c.ColorB = a.ColorB ∧ c.ColorA = a.ColorA :=
  ⟨decodedVertices_rescaleListA, decodedVertices_rescaleListB, rescaleDrawData_draws,
    (Render_draws_rescale_decoded exampleEnv rescaleDrawData twoTextureCache).1⟩

end Renderer
